import Mathlib

/-!
# Upload client: `FolderSync` and `UploadManager`

A shallow embedding of the transfer-queue engine of the upload client
(`apps/upload_client/src/foldersync.cpp`, `apps/upload_client/src/uploadmanager.cpp`,
with the structures of `foldersync.h` and `uploadmanager.h`), followed by the properties
of the engine.

Conventions of the embedding.

* Every member function becomes a function from the object state to an `Outcome`:
  the call returns with a new state, or the calling thread blocks for ever on a
  non-recursive `QMutex` that it already holds, or the call runs into undefined behaviour.
  The mutex is a member of the state: `QMutexLocker` takes it at the start of the scope and
  frees it on every path out of the scope.
* The file system, the network and the timers are the environment. A `FileSystem`
  value is the answer of the operating system at the time of the call; a reply that
  finishes and a timer that fires are events, and the event says what the environment
  decided (error or not, which timer).
* `QNetworkReply::abort()` delivers the `finished` signal of the reply, with an error,
  before it returns; the connected slot runs inside the call.
* `QString` is `String`; `startsWith` is the prefix test on the characters. `int` and
  `qint64` values are integers; the conversion `static_cast<int>` wraps to 32 bits, and
  the arithmetic itself is that of the integers (signed overflow is undefined in C++).
* Signals are appended to the `emitted` log of the object; the pending single-shot timers
  are a list of delays.
-/

namespace UploadClient

/-! ## Strings, paths, the file system -/

abbrev QString := String

/-- Embeds `QString::startsWith`. -/
def startsWith (s p : QString) : Bool := p.data.isPrefixOf s.data

/-- Embeds `QString::toLower` (on the ASCII letters). -/
def toLower (s : QString) : QString := ⟨s.data.map Char.toLower⟩

/-- Embeds `QFileInfo::fileName`: the text after the last slash. -/
def fileName (path : QString) : QString :=
  ⟨(path.data.reverse.takeWhile (fun c => c != '/')).reverse⟩

/-- Embeds `QFileInfo::suffix`: the text after the last dot of the file name, empty without
a dot. -/
def suffix (path : QString) : QString :=
  let n := (fileName path).data
  if n.contains '.' then ⟨(n.reverse.takeWhile (fun c => c != '.')).reverse⟩ else ""

/-- What `QFileInfo` reports for an existing path. -/
structure FileStat where
  isFile : Bool
  isDir : Bool
  size : Int
  lastModified : Int
deriving DecidableEq, Repr

/-- The file system as seen by one call. -/
structure FileSystem where
  /-- What `QFileInfo(path)` reports; `none` when the path does not exist. -/
  stat : QString → Option FileStat
  /-- The paths that `QDirIterator(path, QDir::Files | QDir::NoDotAndDotDot,
  QDirIterator::Subdirectories)` yields. -/
  files : QString → List QString
  /-- The paths that `QDirIterator(path, QDir::Dirs | QDir::NoDotAndDotDot,
  QDirIterator::Subdirectories)` yields. -/
  dirs : QString → List QString
  /-- The paths that `QDirIterator(path, QDir::Dirs | QDir::NoDotAndDotDot)` yields. -/
  childDirs : QString → List QString
  /-- Whether `QFile::open(QIODevice::ReadOnly)` succeeds. -/
  canOpen : QString → Bool

/-- Embeds `QDir(path).exists()`. -/
def FileSystem.dirExists (fs : FileSystem) (path : QString) : Bool :=
  match fs.stat path with
  | some st => st.isDir
  | none => false

/-- Embeds `QFile::exists(path)`. -/
def FileSystem.fileExists (fs : FileSystem) (path : QString) : Bool :=
  (fs.stat path).isSome

/-! ## Outcomes of a call -/

/-- How a call of a member function ends. -/
inductive Outcome (σ : Type) where
  /-- The call returns. -/
  | returned (s : σ) : Outcome σ
  /-- The thread waits for a non-recursive mutex that it holds itself: the call never returns. -/
  | blocked (s : σ) : Outcome σ
  /-- Undefined behaviour (integer division by zero, signed integer overflow, index out of
  range). -/
  | crashed (s : σ) : Outcome σ
deriving DecidableEq, Repr

namespace Outcome

/-- The state at which the call ended. -/
def state {σ : Type} : Outcome σ → σ
  | returned s => s
  | blocked s => s
  | crashed s => s

/-- Sequencing: what follows runs only when the call returned. -/
def andThen {σ : Type} (o : Outcome σ) (f : σ → Outcome σ) : Outcome σ :=
  match o with
  | returned s => f s
  | blocked s => blocked s
  | crashed s => crashed s

/-- Whether the call returned. -/
def isReturned {σ : Type} : Outcome σ → Bool
  | returned _ => true
  | _ => false

end Outcome

/-- Embeds `for (x : xs) step(x)`: the loop stops where a call does not return. -/
def forEach {α σ : Type} (step : α → σ → Outcome σ) : List α → σ → Outcome σ
  | [], s => .returned s
  | x :: xs, s => (step x s).andThen (forEach step xs)

/-- Apply `f` to the element at position `i`, when there is one. -/
def modifyAt {α : Type} (f : α → α) : Nat → List α → List α
  | _, [] => []
  | 0, a :: l => f a :: l
  | n + 1, a :: l => a :: modifyAt f n l

/-! ## FolderSync: data -/

/-- The `struct SyncItem` of `foldersync.h`. -/
structure SyncItem where
  localPath : QString
  remotePath : QString
  fileName : QString
  fileSize : Int
  lastModified : Int
  status : QString
  isDirectory : Bool
deriving DecidableEq, Repr

/-- The constructor `SyncItem(const QString &path)`. -/
def SyncItem.ofPath (fs : FileSystem) (path : QString) : SyncItem :=
  { localPath := path
    remotePath := ""
    fileName := UploadClient.fileName path
    fileSize := match fs.stat path with
      | some st => st.size
      | none => 0
    lastModified := match fs.stat path with
      | some st => st.lastModified
      | none => 0
    status := "Pending"
    isDirectory := fs.dirExists path }

/-- The request behind `m_currentReply`. -/
inductive Request where
  /-- The request `POST /api/v1/media/upload` of the file at `localPath`. -/
  | upload (localPath : QString) : Request
  /-- The request `POST /api/v1/media/create-directory` for the item at `localPath`. -/
  | createDirectory (localPath : QString) : Request
deriving DecidableEq, Repr

/-- Signals of `FolderSync`. -/
inductive Signal where
  | syncFinished : Signal
  | syncError (maxRetries : Int) : Signal
  | itemStatusChanged (index : Int) (status : QString) : Signal
  | folderAdded (folderPath : QString) : Signal
  | folderRemoved (folderPath : QString) : Signal
deriving DecidableEq, Repr

/-- The members of `class FolderSync`, the pending `QTimer::singleShot` timers, the
persisted `sync/folders` setting and the log of emitted signals. -/
structure FolderSync where
  m_watchedFolders : List QString
  m_fileWatcher : List QString
  m_currentReply : Option Request
  m_syncQueue : List SyncItem
  m_fileIndex : List (QString × SyncItem)
  m_syncMutex : Bool
  m_isSyncing : Bool
  m_isEnabled : Bool
  m_syncTimer : Bool
  m_maxRetries : Int
  m_currentRetries : Int
  /-- Delays of the pending `QTimer::singleShot(delay, this, &FolderSync::processSyncQueue)`. -/
  singleShots : List Int
  /-- The `QSettings` value `sync/folders`. -/
  settingsFolders : List QString
  emitted : List Signal
deriving DecidableEq, Repr

/-- State after the constructor; `sync/maxRetries` and `sync/folders` come from the settings. -/
def FolderSync.init (maxRetries : Int) (savedFolders : List QString) : FolderSync :=
  { m_watchedFolders := []
    m_fileWatcher := []
    m_currentReply := none
    m_syncQueue := []
    m_fileIndex := []
    m_syncMutex := false
    m_isSyncing := false
    m_isEnabled := false
    m_syncTimer := false
    m_maxRetries := maxRetries
    m_currentRetries := 0
    singleShots := []
    settingsFolders := savedFolders
    emitted := [] }

/-- The list `m_mediaExtensions` as set by the constructor. -/
def m_mediaExtensions : List QString :=
  [".mp4", ".avi", ".mov", ".mkv", ".mp3", ".wav", ".flac",
   ".jpg", ".jpeg", ".png", ".gif", ".bmp", ".tiff", ".webp"]

/-- The list `m_ignoredPatterns` as set by the constructor. -/
def m_ignoredPatterns : List QString :=
  ["*.tmp", "*.temp", "*.cache", "*.log", "Thumbs.db", ".DS_Store"]

/-! ### `QHash<QString, SyncItem>` -/

namespace QHash

/-- Embeds `QHash::contains`. -/
def contains (h : List (QString × SyncItem)) (key : QString) : Bool :=
  h.any (fun e => e.1 == key)

/-- The value stored under `key`. -/
def value (h : List (QString × SyncItem)) (key : QString) : Option SyncItem :=
  (h.find? (fun e => e.1 == key)).map (fun e => e.2)

/-- Embeds `h[key] = v`: replace the value of an existing key, insert otherwise. -/
def insert (h : List (QString × SyncItem)) (key : QString) (v : SyncItem) :
    List (QString × SyncItem) :=
  if contains h key then h.map (fun e => if e.1 == key then (key, v) else e)
  else h ++ [(key, v)]

/-- Embeds `QHash::remove`. -/
def remove (h : List (QString × SyncItem)) (key : QString) : List (QString × SyncItem) :=
  h.filter (fun e => e.1 != key)

/-- The keys of the table. -/
def keys (h : List (QString × SyncItem)) : List QString := h.map (fun e => e.1)

end QHash

/-! ## FolderSync: operations -/

namespace FolderSync

/-- Embeds `emit sig`. -/
def emit (s : FolderSync) (sig : Signal) : FolderSync :=
  { s with emitted := s.emitted ++ [sig] }

/-- Embeds `QMutexLocker locker(&m_syncMutex)` around `body`: blocks when the mutex is
already held, releases it on every return path. -/
def withSyncMutex (s : FolderSync) (body : FolderSync → Outcome FolderSync) :
    Outcome FolderSync :=
  if s.m_syncMutex then .blocked s
  else (body { s with m_syncMutex := true }).andThen
    (fun s1 => .returned { s1 with m_syncMutex := false })

/-- Embeds `QFileSystemWatcher::addPath`. -/
def addPath (w : List QString) (p : QString) : List QString :=
  if w.contains p then w else w ++ [p]

/-- Embeds `FolderSync::scanFile`. -/
def scanFile (fs : FileSystem) (filePath : QString) (s : FolderSync) : Outcome FolderSync :=
  withSyncMutex s fun s =>
    match fs.stat filePath with
    | none => .returned s
    | some fileInfo =>
      if !fileInfo.isFile then .returned s
      else if !(m_mediaExtensions.contains ("." ++ toLower (suffix filePath))) then .returned s
      else
        match QHash.value s.m_fileIndex filePath with
        | some existingItem =>
          if existingItem.lastModified != fileInfo.lastModified
              || existingItem.fileSize != fileInfo.size then
            let existingItem : SyncItem :=
              { existingItem with
                lastModified := fileInfo.lastModified
                fileSize := fileInfo.size
                status := "Modified" }
            let inQueue := s.m_syncQueue.any (fun item => item.localPath == filePath)
            .returned { s with
              m_fileIndex := QHash.insert s.m_fileIndex filePath existingItem
              m_syncQueue :=
                if !inQueue then s.m_syncQueue ++ [existingItem] else s.m_syncQueue }
          else .returned s
        | none =>
          let newItem := SyncItem.ofPath fs filePath
          .returned { s with
            m_fileIndex := QHash.insert s.m_fileIndex filePath newItem
            m_syncQueue := s.m_syncQueue ++ [newItem] }

/-- Embeds `FolderSync::scanFolder`. -/
def scanFolder (fs : FileSystem) (folderPath : QString) (s : FolderSync) : Outcome FolderSync :=
  forEach (scanFile fs) (fs.files folderPath) s

/-- Embeds `FolderSync::addFolder`. -/
def addFolder (fs : FileSystem) (folderPath : QString) (s : FolderSync) : Outcome FolderSync :=
  withSyncMutex s fun s =>
    if !fs.dirExists folderPath || s.m_watchedFolders.contains folderPath then .returned s
    else
      let s := { s with
        m_watchedFolders := s.m_watchedFolders ++ [folderPath]
        m_fileWatcher := addPath s.m_fileWatcher folderPath }
      (scanFolder fs folderPath s).andThen fun s =>
        let s := { s with m_fileWatcher := (fs.dirs folderPath).foldl addPath s.m_fileWatcher }
        let s := emit s (.folderAdded folderPath)
        .returned { s with
          settingsFolders :=
            if !s.settingsFolders.contains folderPath then s.settingsFolders ++ [folderPath]
            else s.settingsFolders }

/-- Embeds `FolderSync::removeFolder`. -/
def removeFolder (fs : FileSystem) (folderPath : QString) (s : FolderSync) :
    Outcome FolderSync :=
  withSyncMutex s fun s =>
    if !s.m_watchedFolders.contains folderPath then .returned s
    else
      let keysToRemove :=
        (s.m_fileIndex.filter (fun e => startsWith e.2.localPath folderPath)).map (fun e => e.1)
      let s := { s with
        m_watchedFolders := s.m_watchedFolders.erase folderPath
        m_fileWatcher :=
          (fs.dirs folderPath).foldl (fun w d => w.erase d) (s.m_fileWatcher.erase folderPath)
        m_syncQueue := s.m_syncQueue.filter (fun item => !startsWith item.localPath folderPath)
        m_fileIndex := keysToRemove.foldl QHash.remove s.m_fileIndex }
      let s := emit s (.folderRemoved folderPath)
      .returned { s with settingsFolders := s.settingsFolders.erase folderPath }

/-- Embeds `m_syncQueue.indexOf(item)`: items compare by `localPath`; `-1` when absent. -/
def indexOf (q : List SyncItem) (item : SyncItem) : Int :=
  let i := q.findIdx (fun x => x.localPath == item.localPath)
  if i < q.length then (i : Int) else -1

/-- Embeds `FolderSync::updateItemStatus`. -/
def updateItemStatus (index : Int) (status : QString) (s : FolderSync) : FolderSync :=
  if 0 ≤ index ∧ index < (s.m_syncQueue.length : Int) then
    emit { s with
      m_syncQueue := modifyAt (fun it => { it with status := status }) index.toNat s.m_syncQueue }
      (.itemStatusChanged index status)
  else s

/-- Embeds `FolderSync::uploadFile`. -/
def uploadFile (fs : FileSystem) (item : SyncItem) (s : FolderSync) : FolderSync :=
  if !fs.fileExists item.localPath then
    updateItemStatus (indexOf s.m_syncQueue item) "File not found" s
  else { s with m_currentReply := some (.upload item.localPath) }

/-- Embeds `FolderSync::createDirectory`. -/
def createDirectory (item : SyncItem) (s : FolderSync) : FolderSync :=
  { s with m_currentReply := some (.createDirectory item.localPath) }

/-- The test of the dispatch loop: status `Pending` or `Modified`. -/
def eligible (item : SyncItem) : Bool :=
  item.status == "Pending" || item.status == "Modified"

/-- The search loop of `processSyncQueue`: position of the first eligible item. -/
def nextItemIndex : List SyncItem → Option Nat
  | [] => none
  | item :: rest => if eligible item then some 0 else (nextItemIndex rest).map (fun i => i + 1)

/-- Embeds `FolderSync::processSyncQueue`. -/
def processSyncQueue (fs : FileSystem) (s : FolderSync) : Outcome FolderSync :=
  if s.m_isSyncing || s.m_syncQueue.isEmpty then
    if s.m_syncQueue.isEmpty then .returned (emit s .syncFinished) else .returned s
  else
    withSyncMutex s fun s =>
      match nextItemIndex s.m_syncQueue with
      | none => .returned (emit s .syncFinished)
      | some i =>
        let s := { s with
          m_isSyncing := true
          m_syncQueue := modifyAt (fun it => { it with status := "Syncing" }) i s.m_syncQueue }
        match s.m_syncQueue.get? i with
        | none => .returned s
        | some nextItem =>
          let s := if nextItem.isDirectory then createDirectory nextItem s
            else uploadFile fs nextItem s
          .returned (emit s (.itemStatusChanged (indexOf s.m_syncQueue nextItem) "Syncing"))

/-- Embeds `FolderSync::updateSyncQueue`: the body is empty. -/
def updateSyncQueue (s : FolderSync) : FolderSync := s

/-- Embeds `FolderSync::forceSync`. -/
def forceSync (fs : FileSystem) (s : FolderSync) : Outcome FolderSync :=
  if s.m_isSyncing then .returned s
  else processSyncQueue fs (updateSyncQueue s)

/-- Embeds `FolderSync::onNetworkReplyFinished`; `error` tells whether
`m_currentReply->error()` differs from `QNetworkReply::NoError`. -/
def onNetworkReplyFinished (fs : FileSystem) (error : Bool) (s : FolderSync) :
    Outcome FolderSync :=
  match s.m_currentReply with
  | none => .returned s
  | some _ =>
    let s :=
      if !error then { s with m_currentRetries := 0 }
      else if s.m_currentRetries < s.m_maxRetries then
        { s with
          m_currentRetries := s.m_currentRetries + 1
          singleShots := s.singleShots ++ [2000 * (s.m_currentRetries + 1)] }
      else emit { s with m_currentRetries := 0 } (.syncError s.m_maxRetries)
    processSyncQueue fs { s with m_currentReply := none, m_isSyncing := false }

/-- A pending `QTimer::singleShot` timer (the one at position `k`) fires. -/
def onSingleShot (fs : FileSystem) (k : Nat) (s : FolderSync) : Outcome FolderSync :=
  if k < s.singleShots.length then
    processSyncQueue fs { s with singleShots := s.singleShots.eraseIdx k }
  else .returned s

/-- Embeds `FolderSync::startSync`. -/
def startSync (fs : FileSystem) (s : FolderSync) : Outcome FolderSync :=
  if s.m_isEnabled then .returned s
  else
    let s := { s with m_isEnabled := true, m_syncTimer := true }
    (forEach (fun folder s => if fs.dirExists folder then addFolder fs folder s else .returned s)
      s.settingsFolders s).andThen (forceSync fs)

/-- Embeds `FolderSync::stopSync`; `m_currentReply->abort()` delivers the `finished` signal
of the reply, with an error, before `abort` returns. -/
def stopSync (fs : FileSystem) (s : FolderSync) : Outcome FolderSync :=
  let s := { s with m_isEnabled := false, m_syncTimer := false }
  if s.m_isSyncing then
    (match s.m_currentReply with
      | some _ => onNetworkReplyFinished fs true s
      | none => .returned s).andThen fun s => .returned { s with m_isSyncing := false }
  else .returned s

/-- Embeds `FolderSync::onFileChanged`. -/
def onFileChanged (fs : FileSystem) (path : QString) (s : FolderSync) : Outcome FolderSync :=
  if !s.m_isEnabled then .returned s
  else
    match fs.stat path with
    | none => .returned s
    | some fileInfo =>
      if fileInfo.isFile && m_mediaExtensions.contains ("." ++ toLower (suffix path)) then
        scanFile fs path s
      else .returned s

/-- Embeds `FolderSync::onDirectoryChanged`. -/
def onDirectoryChanged (fs : FileSystem) (path : QString) (s : FolderSync) :
    Outcome FolderSync :=
  if !s.m_isEnabled then .returned s
  else
    scanFolder fs path { s with m_fileWatcher := (fs.childDirs path).foldl addPath s.m_fileWatcher }

/-- Embeds `FolderSync::onSyncTimeout`. -/
def onSyncTimeout (fs : FileSystem) (s : FolderSync) : Outcome FolderSync :=
  if s.m_isEnabled && !s.m_isSyncing then forceSync fs s else .returned s

end FolderSync

/-! ## UploadManager: data -/

/-- The `struct UploadItem` of `uploadmanager.h`; `file` is the `QFile *` member: `none` for
`nullptr`, `some b` for a file object that is open exactly when `b` holds. -/
structure UploadItem where
  filePath : QString
  fileName : QString
  fileSize : Int
  status : QString
  progress : Int
  file : Option Bool
deriving DecidableEq, Repr

/-- The constructor `UploadItem(const QString &path)`. -/
def UploadItem.ofPath (fs : FileSystem) (path : QString) : UploadItem :=
  { filePath := path
    fileName := UploadClient.fileName path
    fileSize := match fs.stat path with
      | some st => st.size
      | none => 0
    status := "Pending"
    progress := 0
    file := none }

/-- The request behind `m_currentReply` of the upload manager: the upload of the item that
was at position `index` of the queue when `createMultipartRequest` ran. -/
structure UploadRequest where
  index : Int
  filePath : QString
deriving DecidableEq, Repr

/-- Signals of `UploadManager`. -/
inductive UploadSignal where
  | uploadProgress (progress : Int) : UploadSignal
  | uploadFinished : UploadSignal
  | uploadError (message : QString) : UploadSignal
  | itemProgressChanged (index : Int) (progress : Int) : UploadSignal
  | itemStatusChanged (index : Int) (status : QString) : UploadSignal
deriving DecidableEq, Repr

/-- The members of `class UploadManager`, the pending timers and the log of signals. -/
structure UploadManager where
  m_currentReply : Option UploadRequest
  m_uploadQueue : List UploadItem
  m_queueMutex : Bool
  m_currentIndex : Int
  m_isUploading : Bool
  m_isPaused : Bool
  m_maxRetries : Int
  m_currentRetries : Int
  /-- Interval of `m_retryTimer` while it is running (`m_retryTimer->start(msec)`). -/
  m_retryTimer : Option Int
  /-- Delays of the pending `QTimer::singleShot(100, this, &UploadManager::processNextUpload)`. -/
  singleShots : List Int
  emitted : List UploadSignal
deriving DecidableEq, Repr

/-- State after the constructor; `upload/maxRetries` comes from the settings. -/
def UploadManager.init (maxRetries : Int) : UploadManager :=
  { m_currentReply := none
    m_uploadQueue := []
    m_queueMutex := false
    m_currentIndex := -1
    m_isUploading := false
    m_isPaused := false
    m_maxRetries := maxRetries
    m_currentRetries := 0
    m_retryTimer := none
    singleShots := []
    emitted := [] }

/-- The conversion `static_cast<int>` of a 64-bit value. -/
def toInt32 (x : Int) : Int := (x + 2 ^ 31) % 2 ^ 32 - 2 ^ 31

/-- Whether a number is a value of `qint64`. -/
def fitsInt64 (x : Int) : Bool := decide (-(2 ^ 63) ≤ x ∧ x < 2 ^ 63)

/-- Whether a number is a value of `int`. -/
def fitsInt32 (x : Int) : Bool := decide (-(2 ^ 31) ≤ x ∧ x < 2 ^ 31)

/-- Embeds `total += b` on an `int`: `none` when the sum is not a value of `int` (signed
overflow, which is undefined behaviour) or when an earlier addition has overflowed. -/
def addInt32 (total : Option Int) (b : Int) : Option Int :=
  match total with
  | some a => if fitsInt32 (a + b) then some (a + b) else none
  | none => none

/-- The status text `QString("Retrying... (%1/%2)").arg(retries).arg(maxRetries)`. -/
def retryingStatus (retries maxRetries : Int) : QString :=
  "Retrying... (" ++ toString retries ++ "/" ++ toString maxRetries ++ ")"

/-! ## UploadManager: operations -/

namespace UploadManager

/-- Embeds `emit sig`. -/
def emit (s : UploadManager) (sig : UploadSignal) : UploadManager :=
  { s with emitted := s.emitted ++ [sig] }

/-- Embeds `QMutexLocker locker(&m_queueMutex)` around `body`. -/
def withQueueMutex (s : UploadManager) (body : UploadManager → Outcome UploadManager) :
    Outcome UploadManager :=
  if s.m_queueMutex then .blocked s
  else (body { s with m_queueMutex := true }).andThen
    (fun s1 => .returned { s1 with m_queueMutex := false })

/-- Embeds `UploadManager::updateItemProgress`. -/
def updateItemProgress (index : Int) (progress : Int) (s : UploadManager) : UploadManager :=
  if 0 ≤ index ∧ index < (s.m_uploadQueue.length : Int) then
    emit { s with
      m_uploadQueue :=
        modifyAt (fun it => { it with progress := progress }) index.toNat s.m_uploadQueue }
      (.itemProgressChanged index progress)
  else s

/-- Embeds `UploadManager::updateItemStatus`. -/
def updateItemStatus (index : Int) (status : QString) (s : UploadManager) : UploadManager :=
  if 0 ≤ index ∧ index < (s.m_uploadQueue.length : Int) then
    emit { s with
      m_uploadQueue :=
        modifyAt (fun it => { it with status := status }) index.toNat s.m_uploadQueue }
      (.itemStatusChanged index status)
  else s

/-- The media filter of `UploadManager::scanFolder`. -/
def mediaExtensions : List QString :=
  [".mp4", ".avi", ".mov", ".mkv", ".mp3", ".wav", ".flac", ".jpg", ".jpeg", ".png", ".gif", ".bmp"]

/-- Embeds `UploadManager::scanFolder`. -/
def scanFolder (fs : FileSystem) (folderPath : QString) (s : UploadManager) : UploadManager :=
  (fs.files folderPath).foldl
    (fun s filePath =>
      if mediaExtensions.contains (toLower (suffix filePath)) then
        { s with m_uploadQueue := s.m_uploadQueue ++ [UploadItem.ofPath fs filePath] }
      else s)
    s

/-- Embeds `UploadManager::addFile`. -/
def addFile (fs : FileSystem) (filePath : QString) (s : UploadManager) : Outcome UploadManager :=
  withQueueMutex s fun s =>
    match fs.stat filePath with
    | none => .returned (emit s (.uploadError ("File does not exist: " ++ filePath)))
    | some fileInfo =>
      if !fileInfo.isFile then
        .returned (emit s (.uploadError ("File does not exist: " ++ filePath)))
      else
        let s := { s with m_uploadQueue := s.m_uploadQueue ++ [UploadItem.ofPath fs filePath] }
        .returned (emit s (.itemStatusChanged ((s.m_uploadQueue.length : Int) - 1) "Added to queue"))

/-- Embeds `UploadManager::addFolder`. -/
def addFolder (fs : FileSystem) (folderPath : QString) (s : UploadManager) :
    Outcome UploadManager :=
  withQueueMutex s fun s =>
    if !fs.dirExists folderPath then
      .returned (emit s (.uploadError ("Folder does not exist: " ++ folderPath)))
    else .returned (scanFolder fs folderPath s)

/-- Embeds `UploadManager::createMultipartRequest` for the item at the current index. -/
def createMultipartRequest (item : UploadItem) (s : UploadManager) : UploadManager :=
  match item.file with
  | some true => { s with m_currentReply := some ⟨s.m_currentIndex, item.filePath⟩ }
  | _ => s

/-- Embeds `UploadManager::processNextUpload`; the first argument bounds the depth of the
recursion of the function on itself (the calls after a missing or unopenable file). The
current index grows with every such call, so the depth stays below the length of the
queue plus one, which is what `processNextUpload` provides. -/
def processNextUploadAux (fs : FileSystem) : Nat → UploadManager → Outcome UploadManager
  | 0, s => .blocked s
  | depth + 1, s =>
    if s.m_isPaused || !s.m_isUploading then .returned s
    else
      withQueueMutex s fun s =>
        if s.m_uploadQueue.isEmpty then
          .returned (emit { s with m_isUploading := false, m_currentIndex := -1 } .uploadFinished)
        else if s.m_currentIndex ≥ (s.m_uploadQueue.length : Int) then
          .returned (emit { s with m_isUploading := false, m_currentIndex := -1 } .uploadFinished)
        else if s.m_currentIndex < 0 then .crashed s
        else
          match s.m_uploadQueue.get? s.m_currentIndex.toNat with
          | none => .crashed s
          | some item =>
            if !fs.fileExists item.filePath then
              let s := updateItemStatus s.m_currentIndex "File not found" s
              processNextUploadAux fs depth { s with m_currentIndex := s.m_currentIndex + 1 }
            else
              let opened : Option Bool :=
                match item.file with
                | none => some (fs.canOpen item.filePath)
                | some b => some b
              let s := { s with
                m_uploadQueue :=
                  modifyAt (fun it => { it with file := opened }) s.m_currentIndex.toNat
                    s.m_uploadQueue }
              if item.file.isNone && !fs.canOpen item.filePath then
                let s := updateItemStatus s.m_currentIndex "Cannot open file" s
                processNextUploadAux fs depth { s with m_currentIndex := s.m_currentIndex + 1 }
              else
                let s := updateItemStatus s.m_currentIndex "Uploading..." s
                .returned (createMultipartRequest { item with file := opened } s)

/-- Embeds `UploadManager::processNextUpload`. -/
def processNextUpload (fs : FileSystem) (s : UploadManager) : Outcome UploadManager :=
  processNextUploadAux fs (s.m_uploadQueue.length + 1) s

/-- Embeds `UploadManager::startUpload`. -/
def startUpload (fs : FileSystem) (s : UploadManager) : Outcome UploadManager :=
  if s.m_isUploading || s.m_uploadQueue.isEmpty then .returned s
  else
    let s := { s with
      m_isUploading := true
      m_isPaused := false
      m_currentIndex := 0
      m_currentRetries := 0 }
    processNextUpload fs (emit s (.uploadProgress 0))

/-- Embeds `UploadManager::onUploadProgress`. The product `bytesSent * 100` and its quotient
by `bytesTotal` are `qint64` values and `totalProgress` is an `int`: a divisor 0 and a
signed overflow of the product, of the quotient or of an addition to `totalProgress` are
undefined behaviour, and the call is `crashed` at the state it has reached. The
conversion `static_cast<int>` reduces the quotient modulo 2^32. -/
def onUploadProgress (bytesSent bytesTotal : Int) (s : UploadManager) : Outcome UploadManager :=
  if 0 ≤ s.m_currentIndex ∧ s.m_currentIndex < (s.m_uploadQueue.length : Int) then
    if bytesTotal = 0 then .crashed s
    else if fitsInt64 (bytesSent * 100) = false then .crashed s
    else if fitsInt64 ((bytesSent * 100).tdiv bytesTotal) = false then .crashed s
    else
      let progress := toInt32 ((bytesSent * 100).tdiv bytesTotal)
      let s := updateItemProgress s.m_currentIndex progress s
      let totalProgress : Option Int :=
        (List.range s.m_uploadQueue.length).foldl
          (fun total i =>
            if (i : Int) < s.m_currentIndex then addInt32 total 100
            else if (i : Int) = s.m_currentIndex then addInt32 total progress
            else total)
          (some 0)
      match totalProgress with
      | some totalProgress =>
        .returned (emit s (.uploadProgress (totalProgress.tdiv (s.m_uploadQueue.length : Int))))
      | none => .crashed s
  else .returned s

/-- Embeds `UploadManager::onUploadFinished`; `error` tells whether `m_currentReply->error()`
differs from `QNetworkReply::NoError`. -/
def onUploadFinished (error : Bool) (s : UploadManager) : UploadManager :=
  match s.m_currentReply with
  | none => s
  | some _ =>
    let s :=
      if !error then
        let s :=
          if 0 ≤ s.m_currentIndex ∧ s.m_currentIndex < (s.m_uploadQueue.length : Int) then
            let s := updateItemStatus s.m_currentIndex "Completed" s
            let s := updateItemProgress s.m_currentIndex 100 s
            { s with
              m_uploadQueue :=
                modifyAt (fun it => { it with file := none }) s.m_currentIndex.toNat
                  s.m_uploadQueue }
          else s
        { s with
          m_currentRetries := 0
          m_currentIndex := s.m_currentIndex + 1
          singleShots := s.singleShots ++ [100] }
      else if s.m_currentRetries < s.m_maxRetries then
        let s := { s with m_currentRetries := s.m_currentRetries + 1 }
        let s := updateItemStatus s.m_currentIndex
          (retryingStatus s.m_currentRetries s.m_maxRetries) s
        { s with m_retryTimer := some (2000 * s.m_currentRetries) }
      else
        let s := updateItemStatus s.m_currentIndex "Failed" s
        { s with
          m_currentRetries := 0
          m_currentIndex := s.m_currentIndex + 1
          singleShots := s.singleShots ++ [100] }
    { s with m_currentReply := none }

/-- Embeds `UploadManager::onNetworkError`; `errorString` is the text that
`m_currentReply->errorString()` gives. -/
def onNetworkError (errorString : QString) (s : UploadManager) : UploadManager :=
  match s.m_currentReply with
  | some _ => emit s (.uploadError ("Network error: " ++ errorString))
  | none => s

/-- Embeds `m_currentReply->abort()`: the reply reports its error (`OperationCanceledError`,
with the text "Operation canceled") and finishes before `abort` returns. -/
def abortReply (s : UploadManager) : UploadManager :=
  onUploadFinished true (onNetworkError "Operation canceled" s)

/-- Embeds `UploadManager::pauseUpload`. -/
def pauseUpload (s : UploadManager) : UploadManager :=
  let s := { s with m_isPaused := true }
  match s.m_currentReply with
  | some _ => abortReply s
  | none => s

/-- Embeds `UploadManager::resumeUpload`. -/
def resumeUpload (fs : FileSystem) (s : UploadManager) : Outcome UploadManager :=
  if s.m_isPaused && s.m_isUploading then processNextUpload fs { s with m_isPaused := false }
  else .returned s

/-- Embeds `UploadManager::clearQueue`. -/
def clearQueue (s : UploadManager) : Outcome UploadManager :=
  withQueueMutex s fun s =>
    let s :=
      match s.m_currentReply with
      | some _ => { abortReply s with m_currentReply := none }
      | none => s
    let s := { s with
      m_uploadQueue := []
      m_isUploading := false
      m_isPaused := false
      m_currentIndex := -1
      m_currentRetries := 0 }
    .returned (emit s (.uploadProgress 0))

/-- The retry timer `m_retryTimer` fires. -/
def onRetryTimer (fs : FileSystem) (s : UploadManager) : Outcome UploadManager :=
  match s.m_retryTimer with
  | some _ => processNextUpload fs { s with m_retryTimer := none }
  | none => .returned s

/-- A pending `QTimer::singleShot` timer (the one at position `k`) fires. -/
def onSingleShot (fs : FileSystem) (k : Nat) (s : UploadManager) : Outcome UploadManager :=
  if k < s.singleShots.length then
    processNextUpload fs { s with singleShots := s.singleShots.eraseIdx k }
  else .returned s

end UploadManager

/-! ## Runs of the sync engine, and the predicates of the properties -/

/-- The local paths of the queued items, in queue order. -/
def queuePaths (q : List SyncItem) : List QString := q.map (fun it => it.localPath)

/-- Queue and index agree: no path is queued twice, every queued path has an index entry,
and every index entry is stored under the path of its item. -/
structure Consistent (q : List SyncItem) (h : List (QString × SyncItem)) : Prop where
  nodup : (queuePaths q).Nodup
  indexed : ∀ p ∈ queuePaths q, QHash.contains h p = true
  keyed : ∀ e ∈ h, e.2.localPath = e.1

namespace FolderSync

/-- The consistency invariant on a state. -/
def Inv (s : FolderSync) : Prop := Consistent s.m_syncQueue s.m_fileIndex

/-- The frame of the dispatch path: same queued paths in the same order, same index, same
watched folders. -/
def SameTracked (s0 s : FolderSync) : Prop :=
  queuePaths s.m_syncQueue = queuePaths s0.m_syncQueue ∧ s.m_fileIndex = s0.m_fileIndex
    ∧ s.m_watchedFolders = s0.m_watchedFolders

/-- What can happen to a `FolderSync` object: calls of its public functions, the slots
connected to the file watcher, the timers and the reply, and the scanning and dispatch
functions themselves. Each event carries the file system at the time it happens. -/
inductive Event where
  | addFolder (fs : FileSystem) (folderPath : QString) : Event
  | removeFolder (fs : FileSystem) (folderPath : QString) : Event
  | startSync (fs : FileSystem) : Event
  | stopSync (fs : FileSystem) : Event
  | forceSync (fs : FileSystem) : Event
  | onFileChanged (fs : FileSystem) (path : QString) : Event
  | onDirectoryChanged (fs : FileSystem) (path : QString) : Event
  | onSyncTimeout (fs : FileSystem) : Event
  | onNetworkReplyFinished (fs : FileSystem) (error : Bool) : Event
  | onSingleShot (fs : FileSystem) (k : Nat) : Event
  | scanFile (fs : FileSystem) (filePath : QString) : Event
  | scanFolder (fs : FileSystem) (folderPath : QString) : Event
  | processSyncQueue (fs : FileSystem) : Event

/-- The effect of one event. -/
def step : Event → FolderSync → Outcome FolderSync
  | .addFolder fs p, s => addFolder fs p s
  | .removeFolder fs p, s => removeFolder fs p s
  | .startSync fs, s => startSync fs s
  | .stopSync fs, s => stopSync fs s
  | .forceSync fs, s => forceSync fs s
  | .onFileChanged fs p, s => onFileChanged fs p s
  | .onDirectoryChanged fs p, s => onDirectoryChanged fs p s
  | .onSyncTimeout fs, s => onSyncTimeout fs s
  | .onNetworkReplyFinished fs e, s => onNetworkReplyFinished fs e s
  | .onSingleShot fs k, s => onSingleShot fs k s
  | .scanFile fs p, s => scanFile fs p s
  | .scanFolder fs p, s => scanFolder fs p s
  | .processSyncQueue fs, s => processSyncQueue fs s

/-- A run: the events one after the other; it ends where a call does not return. -/
def run (events : List Event) (s : FolderSync) : Outcome FolderSync :=
  forEach step events s

/-- The file at `p` needs no scan: it does not exist, is not a regular file, fails the
extension filter, or the index holds an entry with its current size and modification
time. -/
def UpToDate (fs : FileSystem) (s : FolderSync) (p : QString) : Prop :=
  ∀ st, fs.stat p = some st → st.isFile = true →
    m_mediaExtensions.contains ("." ++ toLower (suffix p)) = true →
    ∃ item, QHash.value s.m_fileIndex p = some item
      ∧ item.lastModified = st.lastModified ∧ item.fileSize = st.size

end FolderSync

/-! ## Tracked files and watched folders -/

namespace FolderSync

/-- The test of `scanFile`: a regular file whose lower-cased extension is in the media
list. -/
def qualifying (fs : FileSystem) (p : QString) : Bool :=
  (match fs.stat p with
    | some st => st.isFile
    | none => false) && m_mediaExtensions.contains ("." ++ toLower (suffix p))

/-- The qualifying media files that the directory walk of `scanFolder` finds under a
folder. -/
def qualifyingUnder (fs : FileSystem) (folderPath : QString) : List QString :=
  (fs.files folderPath).filter (qualifying fs)

/-- Every tracked path, key of the index or path of the queue, is a qualifying media file
under a watched folder. -/
def NoOrphan (fs : FileSystem) (s : FolderSync) : Prop :=
  (∀ p ∈ QHash.keys s.m_fileIndex, ∃ w ∈ s.m_watchedFolders, p ∈ qualifyingUnder fs w) ∧
  (∀ p ∈ queuePaths s.m_syncQueue, ∃ w ∈ s.m_watchedFolders, p ∈ qualifyingUnder fs w)

/-- Every qualifying media file under a watched folder is tracked, in the index and in the
queue. -/
def NoneMissing (fs : FileSystem) (s : FolderSync) : Prop :=
  ∀ w ∈ s.m_watchedFolders, ∀ p ∈ qualifyingUnder fs w,
    p ∈ QHash.keys s.m_fileIndex ∧ p ∈ queuePaths s.m_syncQueue

/-- The tracked paths are exactly the qualifying media files under the watched folders. -/
def TrackedExactly (fs : FileSystem) (s : FolderSync) : Prop :=
  NoOrphan fs s ∧ NoneMissing fs s

instance (fs : FileSystem) (s : FolderSync) : Decidable (NoOrphan fs s) := by
  unfold NoOrphan; infer_instance

instance (fs : FileSystem) (s : FolderSync) : Decidable (NoneMissing fs s) := by
  unfold NoneMissing; infer_instance

instance (fs : FileSystem) (s : FolderSync) : Decidable (TrackedExactly fs s) := by
  unfold TrackedExactly; infer_instance

/-- A call of `addFolder` or of `removeFolder`. -/
inductive FolderCall where
  | add (folderPath : QString) : FolderCall
  | remove (folderPath : QString) : FolderCall

/-- The call, on a given file system. -/
def FolderCall.apply (fs : FileSystem) : FolderCall → FolderSync → Outcome FolderSync
  | .add p, s => addFolder fs p s
  | .remove p, s => removeFolder fs p s

/-- A sequence of folder calls over one file system. -/
def runCalls (fs : FileSystem) (calls : List FolderCall) (s : FolderSync) :
    Outcome FolderSync :=
  forEach (FolderCall.apply fs) calls s

end FolderSync

/-! ## Runs of the upload manager, and the predicates of the properties -/

namespace UploadManager

/-- What can happen to an `UploadManager` object: calls of its public functions, the slots
connected to the reply and to the timers, and the dispatch function itself. -/
inductive Event where
  | addFile (fs : FileSystem) (filePath : QString) : Event
  | addFolder (fs : FileSystem) (folderPath : QString) : Event
  | startUpload (fs : FileSystem) : Event
  | pauseUpload : Event
  | resumeUpload (fs : FileSystem) : Event
  | clearQueue : Event
  | onUploadProgress (bytesSent bytesTotal : Int) : Event
  | onUploadFinished (error : Bool) : Event
  | onNetworkError (errorString : QString) : Event
  | onRetryTimer (fs : FileSystem) : Event
  | onSingleShot (fs : FileSystem) (k : Nat) : Event
  | processNextUpload (fs : FileSystem) : Event

/-- The effect of one event. -/
def step : Event → UploadManager → Outcome UploadManager
  | .addFile fs p, s => addFile fs p s
  | .addFolder fs p, s => addFolder fs p s
  | .startUpload fs, s => startUpload fs s
  | .pauseUpload, s => .returned (pauseUpload s)
  | .resumeUpload fs, s => resumeUpload fs s
  | .clearQueue, s => clearQueue s
  | .onUploadProgress sent total, s => onUploadProgress sent total s
  | .onUploadFinished e, s => .returned (onUploadFinished e s)
  | .onNetworkError errorString, s => .returned (onNetworkError errorString s)
  | .onRetryTimer fs, s => onRetryTimer fs s
  | .onSingleShot fs k, s => onSingleShot fs k s
  | .processNextUpload fs, s => processNextUpload fs s

/-- A run: the events one after the other; it ends where a call does not return. -/
def run (events : List Event) (s : UploadManager) : Outcome UploadManager :=
  forEach step events s

/-- Whether an event is a call of `startUpload`. -/
def Event.isStartUpload : Event → Bool
  | .startUpload _ => true
  | _ => false

/-- The number of times the item at position `i` has been announced as `Uploading...`,
which `processNextUpload` does right before it creates the request. -/
def dispatches (i : Nat) (s : UploadManager) : Nat :=
  s.emitted.count (.itemStatusChanged (i : Int) "Uploading...")

/-- The status of the item at position `i`. -/
def statusAt (i : Nat) (s : UploadManager) : Option QString :=
  (s.m_uploadQueue.get? i).map (fun it => it.status)

/-- The file of an item can be sent: it exists, and its file object is open or can be
opened. -/
def Ready (fs : FileSystem) (item : UploadItem) : Prop :=
  fs.fileExists item.filePath = true ∧
    (item.file = some true ∨ (item.file = none ∧ fs.canOpen item.filePath = true))

/-- The upload of the item at position `i` is in flight, after `k` failed attempts: the
manager is uploading and not paused, the current index is `i`, the retry counter is `k`,
no timer is pending, the file of the item exists and is open, and the request is the one
of that item. -/
def InFlight (fs : FileSystem) (i : Nat) (k : Int) (s : UploadManager) : Prop :=
  s.m_isUploading = true ∧ s.m_isPaused = false ∧ s.m_queueMutex = false
    ∧ s.m_currentIndex = (i : Int) ∧ s.m_currentRetries = k
    ∧ s.m_retryTimer = none ∧ s.singleShots = []
    ∧ ∃ item, s.m_uploadQueue.get? i = some item ∧ item.file = some true
        ∧ fs.fileExists item.filePath = true
        ∧ s.m_currentReply = some ⟨(i : Int), item.filePath⟩

/-- The reply fails and the retry timer fires. -/
def failAndRetry (fs : FileSystem) (s : UploadManager) : Outcome UploadManager :=
  onRetryTimer fs (onUploadFinished true s)

/-- Rounds of failure and retry, `n` of them. -/
def failures (fs : FileSystem) : Nat → UploadManager → Outcome UploadManager
  | 0, s => .returned s
  | n + 1, s => (failAndRetry fs s).andThen (failures fs n)

/-- The pending timer fires: the retry timer if it is running, the oldest single-shot timer
otherwise. -/
def fireTimer (fs : FileSystem) (s : UploadManager) : Outcome UploadManager :=
  match s.m_retryTimer with
  | some _ => onRetryTimer fs s
  | none => onSingleShot fs 0 s

/-- One round of the upload loop: the reply in flight finishes, with or without error, and
the timer that this has scheduled fires. -/
def round (fs : FileSystem) (error : Bool) (s : UploadManager) : Outcome UploadManager :=
  fireTimer fs (onUploadFinished error s)

/-- Rounds of the upload loop, one for each outcome of the list. -/
def rounds (fs : FileSystem) (errors : List Bool) (s : UploadManager) : Outcome UploadManager :=
  forEach (round fs) errors s

/-- The upload has moved past position `i`: while the manager is uploading the current
index is beyond `i`, and the request in flight, if any, is that of a later position. -/
def Past (i : Nat) (s : UploadManager) : Prop :=
  (s.m_isUploading = true → (i : Int) < s.m_currentIndex) ∧
  (∀ r, s.m_currentReply = some r → (i : Int) < r.index)

/-- Every item behind position `i` can be sent. -/
def LaterReady (fs : FileSystem) (i : Nat) (s : UploadManager) : Prop :=
  ∀ j it, i < j → s.m_uploadQueue.get? j = some it → Ready fs it

end UploadManager

/-! ## Example file systems and runs -/

namespace Example

open FolderSync

/-- A regular file of the given size and modification time. -/
def fileStat (size lastModified : Int) : FileStat :=
  { isFile := true, isDir := false, size := size, lastModified := lastModified }

/-- A directory. -/
def dirStat : FileStat :=
  { isFile := false, isDir := true, size := 0, lastModified := 0 }

/-- The folders `/a` and `/a/b`, without any file. -/
def emptyTree : FileSystem :=
  { stat := fun p => if p = "/a" ∨ p = "/a/b" then some dirStat else none
    files := fun _ => []
    dirs := fun p => if p = "/a" then ["/a/b"] else []
    childDirs := fun p => if p = "/a" then ["/a/b"] else []
    canOpen := fun _ => true }

/-- The folders `/a` and `/a/b` with the media files `/a/x.mp4` and `/a/b/y.mp4`. -/
def mediaTree : FileSystem :=
  { stat := fun p =>
      if p = "/a" ∨ p = "/a/b" then some dirStat
      else if p = "/a/x.mp4" then some (fileStat 10 1)
      else if p = "/a/b/y.mp4" then some (fileStat 20 1)
      else none
    files := fun p =>
      if p = "/a" then ["/a/x.mp4", "/a/b/y.mp4"]
      else if p = "/a/b" then ["/a/b/y.mp4"]
      else []
    dirs := fun p => if p = "/a" then ["/a/b"] else []
    childDirs := fun p => if p = "/a" then ["/a/b"] else []
    canOpen := fun _ => true }

/-- As `mediaTree`, after `/a/x.mp4` has been rewritten (new size, new modification time). -/
def modifiedTree : FileSystem :=
  { mediaTree with
    stat := fun p => if p = "/a/x.mp4" then some (fileStat 11 2) else mediaTree.stat p }

/-- The engine is started and both folders are added while they are empty; then the two
media files appear and the directory notification for `/a` arrives. -/
def watchBoth : List Event :=
  [.startSync emptyTree, .addFolder emptyTree "/a", .addFolder emptyTree "/a/b",
   .onDirectoryChanged mediaTree "/a"]

/-- The state after `watchBoth`. -/
def tracking : FolderSync := (run watchBoth (FolderSync.init 3 [])).state

/-- The state after `watchBoth` and a forced sync: the upload of `/a/x.mp4` is in flight. -/
def syncing : FolderSync :=
  (run (watchBoth ++ [.forceSync mediaTree]) (FolderSync.init 3 [])).state

/-- The state after the reply of `/a/x.mp4` has finished with an error. -/
def afterFailure : FolderSync := (onNetworkReplyFinished mediaTree true syncing).state

/-- The state after both uploads have finished without error. -/
def uploadedBoth : FolderSync :=
  (run (watchBoth ++ [.forceSync mediaTree, .onNetworkReplyFinished mediaTree false,
    .onNetworkReplyFinished mediaTree false]) (FolderSync.init 3 [])).state

/-- Local path, size, modification time and status of the queued items. -/
def summary (q : List SyncItem) : List (QString × Int × Int × QString) :=
  q.map (fun it => (it.localPath, it.fileSize, it.lastModified, it.status))

/-- Three media files in the folder `/u`, all of which can be opened. -/
def uploadTree : FileSystem :=
  { stat := fun p =>
      if p = "/u" then some dirStat
      else if p = "/u/a.mp4" ∨ p = "/u/b.mp4" ∨ p = "/u/c.mp4" then some (fileStat 10 1)
      else none
    files := fun p => if p = "/u" then ["/u/a.mp4", "/u/b.mp4", "/u/c.mp4"] else []
    dirs := fun _ => []
    childDirs := fun _ => []
    canOpen := fun _ => true }

/-- One file is queued and the upload is started, with at most one retry. -/
def uploadingOne : UploadManager :=
  (UploadManager.run [.addFile uploadTree "/u/a.mp4", .startUpload uploadTree]
    (UploadManager.init 1)).state

/-- Three files are queued and the upload is started, with at most one retry. -/
def uploadingThree : UploadManager :=
  (UploadManager.run [.addFile uploadTree "/u/a.mp4", .addFile uploadTree "/u/b.mp4",
    .addFile uploadTree "/u/c.mp4", .startUpload uploadTree] (UploadManager.init 1)).state

/-- The only item fails twice, which exhausts its retries, and the run ends. -/
def exhaustedOne : UploadManager :=
  (UploadManager.run [.onUploadFinished true, .onRetryTimer uploadTree, .onUploadFinished true,
    .onSingleShot uploadTree 0] uploadingOne).state

/-- Of three queued files the first has failed once and is being retried: its retries are
used up. -/
def retriedThree : UploadManager :=
  (UploadManager.run [.onUploadFinished true, .onRetryTimer uploadTree] uploadingThree).state

/-- The item of `/u/a.mp4` while its upload is in flight. -/
def itemInFlight : UploadItem :=
  { filePath := "/u/a.mp4", fileName := "a.mp4", fileSize := 10, status := "Uploading...",
    progress := 0, file := some true }

end Example

namespace UploadManager

/-- The progress field of the item at position `i`. -/
def progressAt (i : Nat) (s : UploadManager) : Option Int :=
  (s.m_uploadQueue.get? i).map (fun it => it.progress)

end UploadManager

namespace Example

/-- One file is queued and the upload is started, with at most three retries. -/
def uploadingWithThreeRetries : UploadManager :=
  (UploadManager.run [.addFile uploadTree "/u/a.mp4", .startUpload uploadTree]
    (UploadManager.init 3)).state

/-- As `uploadTree`, after `/u/a.mp4` has been deleted. -/
def vanishedTree : FileSystem :=
  { uploadTree with
    stat := fun p => if p = "/u/a.mp4" then none else uploadTree.stat p }

/-- As `uploadTree`, after `/u/b.mp4` has been deleted. -/
def secondGoneTree : FileSystem :=
  { uploadTree with
    stat := fun p => if p = "/u/b.mp4" then none else uploadTree.stat p }

/-- Three files are queued; the upload has not been started. -/
def queuedThree : UploadManager :=
  (UploadManager.run [.addFile uploadTree "/u/a.mp4", .addFile uploadTree "/u/b.mp4",
    .addFile uploadTree "/u/c.mp4"] (UploadManager.init 1)).state

/-- As `mediaTree`, after `/a/x.mp4` has been deleted. -/
def deletedTree : FileSystem :=
  { mediaTree with
    stat := fun p => if p = "/a/x.mp4" then none else mediaTree.stat p
    files := fun p => if p = "/a" ∨ p = "/a/b" then ["/a/b/y.mp4"] else [] }

end Example

namespace FolderSync

/-- The number of `syncFinished` signals emitted so far. -/
def finishedCount (s : FolderSync) : Nat := s.emitted.count .syncFinished

/-- The statuses of the queued items, in queue order. -/
def queueStatuses (s : FolderSync) : List QString := s.m_syncQueue.map (fun it => it.status)

/-- How the count of `syncFinished` signals of `t` relates to that of `s0` after one call:
at most one more, and when one more, no item queued in `t` is eligible for dispatch. -/
def FinishedOnce (s0 t : FolderSync) : Prop :=
  finishedCount t ≤ finishedCount s0 + 1
    ∧ (finishedCount s0 < finishedCount t → ∀ it ∈ t.m_syncQueue, eligible it = false)

end FolderSync

namespace Example
open FolderSync

/-- The state after `watchBoth`, a forced sync and the reply of `/a/x.mp4` finishing
without error: the upload of `/a/b/y.mp4` is in flight. -/
def afterFirst : FolderSync :=
  (run (watchBoth ++ [.forceSync mediaTree, .onNetworkReplyFinished mediaTree false])
    (FolderSync.init 3 [])).state

end Example

namespace UploadManager

/-- The aggregate progress values emitted so far (the arguments of `uploadProgress`), oldest
first. -/
def aggregates (s : UploadManager) : List Int :=
  s.emitted.filterMap (fun sig =>
    match sig with
    | .uploadProgress p => some p
    | _ => none)

/-- The sum of the progress fields of the queued items. -/
def progressSum (s : UploadManager) : Int :=
  (s.m_uploadQueue.map (fun it => it.progress)).sum

/-- The statuses of the queued items, in queue order. -/
def queueStatuses (s : UploadManager) : List QString :=
  s.m_uploadQueue.map (fun it => it.status)

/-- The percentage that `onUploadProgress` computes from the byte counts of a tick. -/
def percent (bytesSent bytesTotal : Int) : Int :=
  toInt32 ((bytesSent * 100).tdiv bytesTotal)

end UploadManager

namespace Example

/-- Two files are queued with retries switched off; the first upload fails, the second is
dispatched and reports 50 of 100 bytes. -/
def failedThenHalf : UploadManager :=
  (UploadManager.run [.addFile uploadTree "/u/a.mp4", .addFile uploadTree "/u/b.mp4",
    .startUpload uploadTree, .onUploadFinished true, .onSingleShot uploadTree 0,
    .onUploadProgress 50 100] (UploadManager.init 0)).state

end Example

namespace UploadManager

/-- The number of `uploadFinished` signals emitted so far. -/
def finishedSignals (s : UploadManager) : Nat := s.emitted.count .uploadFinished

/-- The manager is uploading and about to look at position `j`: not paused, mutex free, no
request in flight, no timer pending, retry counter 0. -/
def AtItem (j : Nat) (s : UploadManager) : Prop :=
  s.m_isUploading = true ∧ s.m_isPaused = false ∧ s.m_queueMutex = false
    ∧ s.m_currentIndex = (j : Int) ∧ s.m_currentReply = none
    ∧ s.m_retryTimer = none ∧ s.singleShots = []

/-- The events of one upload that succeeds: a last progress tick with all `b` bytes sent,
the completion without error, and the single-shot timer that the completion starts. -/
def successfulUpload (fs : FileSystem) (b : Int) : List Event :=
  [.onUploadProgress b b, .onUploadFinished false, .onSingleShot fs 0]

/-- The progress fields of the queued items, in queue order. -/
def progresses (s : UploadManager) : List Int :=
  s.m_uploadQueue.map (fun it => it.progress)

/-- The progress field of the item at the current index; 0 when the index is outside the
queue. -/
def currentProgress (s : UploadManager) : Int :=
  if 0 ≤ s.m_currentIndex then ((progresses s).get? s.m_currentIndex.toNat).getD 0 else 0

/-- The events of an upload run that is left alone: progress ticks, completions of the
reply (with or without error) and the two timers. A tick is admitted when its byte
counts are those of a transfer (0 <= sent <= total, total > 0, no overflow of
sent * 100 in 64 bits) and its percentage is not below the progress field of the
current item, which holds the percentage of the last tick for that item. -/
def admissibleEvent (s : UploadManager) : Event → Bool
  | .onUploadProgress sent total =>
    decide (0 ≤ sent ∧ sent ≤ total ∧ 0 < total ∧ total * 100 < 2 ^ 63
      ∧ currentProgress s ≤ percent sent total)
  | .onUploadFinished _ => true
  | .onRetryTimer _ => true
  | .onSingleShot _ _ => true
  | _ => false

/-- Every event of the list is admissible at the state in which it arrives. -/
def admissible : UploadManager → List Event → Bool
  | _, [] => true
  | s, ev :: rest => admissibleEvent s ev && admissible (step ev s).state rest

/-- The invariant behind the monotonicity of the aggregate, on the data that matter: the
aggregates `l` of the run so far, the progress fields `ps`, the current index, whether a
reply is in flight, whether the retry timer runs, and the number of single-shot timers.
The aggregates are non-decreasing; the fields lie between 0 and 100; a reply in flight
belongs to an index inside the queue and excludes pending timers; at most one timer is
pending; and while the index is inside the queue no aggregate exceeds the value that a
tick repeating the current field would give. -/
def MonoData (l ps : List Int) (idx : Int) (reply retry : Bool) (shots : Nat) : Prop :=
  List.Pairwise (fun a b => a ≤ b) l
    ∧ (∀ p ∈ ps, 0 ≤ p ∧ p ≤ 100)
    ∧ (reply = true → 0 ≤ idx ∧ idx < (ps.length : Int) ∧ retry = false ∧ shots = 0)
    ∧ (retry = true → shots = 0)
    ∧ shots ≤ 1
    ∧ (0 ≤ idx → idx < (ps.length : Int) →
        ∀ v ∈ l, v ≤ (100 * idx + (ps.get? idx.toNat).getD 0).tdiv (ps.length : Int))

/-- The invariant `MonoData` at a state, for the aggregates emitted after the first `k`. -/
def Mono (k : Nat) (s : UploadManager) : Prop :=
  k ≤ (aggregates s).length
    ∧ MonoData ((aggregates s).drop k) (progresses s) s.m_currentIndex
        s.m_currentReply.isSome s.m_retryTimer.isSome s.singleShots.length

/-- No request is in flight and no timer is pending. -/
def Quiet (s : UploadManager) : Prop :=
  s.m_currentReply = none ∧ s.m_retryTimer = none ∧ s.singleShots = []

end UploadManager

namespace Example

/-- One file is queued and started; its request reports 80 of 100 bytes and fails, the
retry timer fires, and the new request for the same file reports 10 of 100 bytes. -/
def retriedAfterProgress : UploadManager :=
  (UploadManager.run [.addFile uploadTree "/u/a.mp4", .startUpload uploadTree,
    .onUploadProgress 80 100, .onUploadFinished true, .onRetryTimer uploadTree,
    .onUploadProgress 10 100] (UploadManager.init 3)).state

/-- Events of a run over `queuedThree`: the first upload reports half of its bytes, fails
and is retried, the retry reports half and then all of its bytes and succeeds, and the
second upload reports all of its bytes. -/
def steadyEvents : List UploadManager.Event :=
  [.onUploadProgress 5 10, .onUploadFinished true, .onRetryTimer uploadTree,
   .onUploadProgress 5 10, .onUploadProgress 10 10, .onUploadFinished false,
   .onSingleShot uploadTree 0, .onUploadProgress 10 10]

/-- As `uploadTree`, with `/u/a.mp4` present but not readable. -/
def lockedTree : FileSystem :=
  { uploadTree with canOpen := fun p => p != "/u/a.mp4" }

open FolderSync

/-- The folders `/a` and `/a/b` are watched, `/a/b/y.mp4` has been noticed before
`/a/x.mp4`, and a forced sync has dispatched `/a/b/y.mp4`: its upload is in flight and
`/a/x.mp4` is Pending. -/
def syncingNested : FolderSync :=
  (run [.startSync emptyTree, .addFolder emptyTree "/a", .addFolder emptyTree "/a/b",
    .onDirectoryChanged mediaTree "/a/b", .onDirectoryChanged mediaTree "/a",
    .forceSync mediaTree] (FolderSync.init 3 [])).state

end Example

namespace Outcome

/-- Whether the call ran into undefined behaviour. -/
def isCrashed {σ : Type} : Outcome σ → Bool
  | crashed _ => true
  | _ => false

end Outcome

namespace UploadManager

/-- While the manager is uploading, the current index is not negative. -/
def IndexInv (s : UploadManager) : Prop :=
  s.m_isUploading = true → 0 ≤ s.m_currentIndex

/-- Whether an event is a progress tick. -/
def Event.isProgress : Event → Bool
  | .onUploadProgress _ _ => true
  | _ => false

end UploadManager

namespace FolderSync

/-- Whether a file name matches a pattern of the ignore list, read the way the patterns are
written (the code has no such test): `*` at the start of a pattern stands for any text
and the rest is literal; letter case is ignored, as in `QDir::match`, so that every name
matched with regard to case is matched as well. -/
def matchesPattern (pattern name : QString) : Bool :=
  match (toLower pattern).data with
  | '*' :: rest => rest.isSuffixOf (toLower name).data
  | literal => (toLower name).data == literal

/-- The file name matches one of the patterns of `m_ignoredPatterns`. -/
def isIgnored (name : QString) : Bool :=
  m_ignoredPatterns.any (fun pattern => matchesPattern pattern name)

/-- The extension test of `scanFile` and `onFileChanged`. -/
def hasMediaExtension (path : QString) : Bool :=
  m_mediaExtensions.contains ("." ++ toLower (suffix path))

/-- Every tracked path, in the queue or in the index, passes the extension test. -/
def MediaOnly (s : FolderSync) : Prop :=
  (∀ it ∈ s.m_syncQueue, hasMediaExtension it.localPath = true)
    ∧ (∀ e ∈ s.m_fileIndex, hasMediaExtension e.1 = true
        ∧ hasMediaExtension e.2.localPath = true)

end FolderSync

namespace Example

/-- As `mediaTree`, with the regular files `/a/clip.tmp` and `/a/Thumbs.db` in `/a`. -/
def junkTree : FileSystem :=
  { mediaTree with
    stat := fun p =>
      if p = "/a/clip.tmp" ∨ p = "/a/Thumbs.db" then some (fileStat 5 1) else mediaTree.stat p
    files := fun p =>
      if p = "/a" then ["/a/x.mp4", "/a/clip.tmp", "/a/Thumbs.db", "/a/b/y.mp4"]
      else mediaTree.files p }

end Example

/-! ## AuthDialog: data and operations -/

/-- A JSON value (`QJsonValue`). -/
inductive Json where
  | null : Json
  | bool (b : Bool) : Json
  | number (n : Int) : Json
  | string (s : QString) : Json
  | array (items : List Json) : Json
  | object (members : List (QString × Json)) : Json

namespace Json

/-- Embeds `QJsonDocument::object` and `QJsonValue::toObject`: the members of an object,
none for any other value. -/
def toObject : Json → List (QString × Json)
  | object members => members
  | _ => []

/-- Embeds `QJsonValue::toBool`: `false` for a value that is not a boolean. -/
def toBool : Json → Bool
  | bool b => b
  | _ => false

/-- Embeds `QJsonValue::toString`: the empty string for a value that is not a string. -/
def toQString : Json → QString
  | string s => s
  | _ => ""

/-- Whether the value is a string (`QJsonValue::isString`). -/
def isString : Json → Bool
  | string _ => true
  | _ => false

/-- Embeds `QJsonObject::contains`. -/
def contains (members : List (QString × Json)) (key : QString) : Bool :=
  members.any (fun e => e.1 == key)

/-- Embeds `QJsonObject::operator[]` for reading: the value of the key, `null` (the
undefined value, with the same conversions) when the key is absent. -/
def get (members : List (QString × Json)) (key : QString) : Json :=
  match members.find? (fun e => e.1 == key) with
  | some e => e.2
  | none => null

end Json

/-- A finished `QNetworkReply` of the login request: `errorString` is `none` when `error()`
is `NoError`; `document` is what `QJsonDocument::fromJson(readAll())` yields, `none` for
a parse error. -/
structure LoginReply where
  errorString : Option QString
  document : Option Json

/-- The members of `class AuthDialog` and the state of its widgets that the login slots
read or write; `accepted` tells whether `accept()` has been called, `savedSettings` holds
the values written to `QSettings` (server URL, user name, remember-me). -/
structure AuthDialog where
  m_usernameEdit : QString
  m_serverUrlEdit : QString
  m_rememberMeCheck : Bool
  m_statusLabel : QString
  m_statusLabelVisible : Bool
  m_loginBtnText : QString
  inputsEnabled : Bool
  m_currentReply : Option LoginReply
  m_authToken : QString
  m_username : QString
  m_isLoading : Bool
  accepted : Bool
  savedSettings : Option (QString × QString × Bool)

/-- Embeds `QString::trimmed`. -/
def trimmed (s : QString) : QString :=
  ⟨((s.data.dropWhile Char.isWhitespace).reverse.dropWhile Char.isWhitespace).reverse⟩

namespace AuthDialog

/-- Embeds `AuthDialog::showError`. -/
def showError (error : QString) (s : AuthDialog) : AuthDialog :=
  if error.isEmpty then { s with m_statusLabelVisible := false }
  else { s with m_statusLabel := error, m_statusLabelVisible := true }

/-- Embeds `AuthDialog::setLoadingState`. -/
def setLoadingState (loading : Bool) (s : AuthDialog) : AuthDialog :=
  let s := { s with m_isLoading := loading, inputsEnabled := !loading }
  if loading then
    { s with
      m_loginBtnText := "Logging in..."
      m_statusLabel := "Connecting to server..."
      m_statusLabelVisible := true }
  else { s with m_loginBtnText := "Login" }

/-- Embeds `AuthDialog::onLoginFinished`. -/
def onLoginFinished (s : AuthDialog) : AuthDialog :=
  match s.m_currentReply with
  | none => s
  | some reply =>
    let s := setLoadingState false s
    let finish (s : AuthDialog) : AuthDialog := { s with m_currentReply := none }
    match reply.errorString with
    | some errorString => finish (showError ("Network error: " ++ errorString) s)
    | none =>
      match reply.document with
      | none => finish (showError "Failed to parse server response" s)
      | some responseDoc =>
        let response := responseDoc.toObject
        if Json.contains response "success" && (Json.get response "success").toBool then
          if Json.contains response "data" then
            let data := (Json.get response "data").toObject
            if Json.contains data "accessToken" then
              let s := { s with
                m_authToken := (Json.get data "accessToken").toQString
                m_username := trimmed s.m_usernameEdit }
              let s :=
                if s.m_rememberMeCheck then
                  { s with
                    savedSettings := some (trimmed s.m_serverUrlEdit, s.m_username, true) }
                else s
              { s with accepted := true }
            else finish (showError "No access token in response" s)
          else finish (showError "No data in response" s)
        else if Json.contains response "message" then
          finish (showError (Json.get response "message").toQString s)
        else finish (showError "Invalid response from server" s)

/-- Whether a login response conforms: an object whose `success` is the boolean `true` and
whose `data` is an object with a string `accessToken`. -/
def conforms (document : Json) : Bool :=
  match document with
  | .object response =>
    (match Json.get response "success" with
      | .bool true => true
      | _ => false)
    && (match Json.get response "data" with
      | .object data => Json.contains data "accessToken" && (Json.get data "accessToken").isString
      | _ => false)
  | _ => false

end AuthDialog

namespace Example

/-- The dialog while the login request is in flight, for the user `ann`; the reply is the
one that arrives. -/
def loggingIn (reply : LoginReply) : AuthDialog :=
  { m_usernameEdit := " ann "
    m_serverUrlEdit := "http://localhost:3000"
    m_rememberMeCheck := false
    m_statusLabel := "Connecting to server..."
    m_statusLabelVisible := false
    m_loginBtnText := "Logging in..."
    inputsEnabled := false
    m_currentReply := some reply
    m_authToken := ""
    m_username := ""
    m_isLoading := true
    accepted := false
    savedSettings := none }

/-- The body `{"success": true, "data": {"accessToken": 42}}`, received without a network
error. -/
def numericToken : LoginReply :=
  { errorString := none
    document := some (.object [("success", .bool true),
      ("data", .object [("accessToken", .number 42)])]) }

/-- The body `{"success": true, "data": "abc"}`, received without a network error. -/
def dataNotObject : LoginReply :=
  { errorString := none
    document := some (.object [("success", .bool true), ("data", .string "abc")]) }

/-- The body `{"success": true, "data": {"accessToken": "tok"}}`, received without a
network error. -/
def goodLogin : LoginReply :=
  { errorString := none
    document := some (.object [("success", .bool true),
      ("data", .object [("accessToken", .string "tok")])]) }

end Example

/-! ## NetworkManager: data and operations -/

/-- The values of `QNetworkReply::NetworkError` that `handleNetworkError` tells apart;
`other` stands for every value that takes the `default` branch. -/
inductive NetworkError where
  | connectionRefused | remoteHostClosed | hostNotFound | timeout | operationCanceled
  | sslHandshakeFailed | temporaryNetworkFailure | networkSessionFailed
  | backgroundRequestNotAllowed | tooManyRedirects | insecureRedirect | internalServer
  | operationNotImplemented | serviceUnavailable | protocolUnknown
  | protocolInvalidOperation | unknownNetwork | unknownProxy | unknownContent
  | protocolFailure | other
deriving DecidableEq, Repr

/-- Signals of `NetworkManager`. -/
inductive NetworkSignal where
  | networkError (error : QString) : NetworkSignal
  | connectionStatusChanged (online : Bool) : NetworkSignal
  | requestStarted (endpoint : QString) : NetworkSignal
  | requestFinished (endpoint : QString) (success : Bool) : NetworkSignal
deriving DecidableEq, Repr

/-- The members of `class NetworkManager`. A `QNetworkReply *` and a `QTimer *` are
numbers (`none` is `nullptr` where a pointer may be null); the two `QHash` tables are
lists of entries. `aborted` logs the replies on which `abort()` has been called and
`emitted` the signals. -/
structure NetworkManager where
  m_authToken : QString
  m_serverUrl : QString
  m_timeout : Int
  m_isOnline : Bool
  m_lastError : QString
  m_errorMutex : Bool
  m_activeRequests : List (Nat × QString)
  m_requestTimers : List (Nat × Nat)
  aborted : List Nat
  emitted : List NetworkSignal
deriving DecidableEq, Repr

/-- State after the constructor; server URL and timeout come from the settings. -/
def NetworkManager.init (serverUrl : QString) (timeout : Int) : NetworkManager :=
  { m_authToken := ""
    m_serverUrl := serverUrl
    m_timeout := timeout
    m_isOnline := true
    m_lastError := ""
    m_errorMutex := false
    m_activeRequests := []
    m_requestTimers := []
    aborted := []
    emitted := [] }

namespace NetworkManager

/-- Embeds `QHash::contains` for a table keyed by replies. -/
def hashContains {β : Type} (h : List (Nat × β)) (key : Nat) : Bool :=
  h.any (fun e => e.1 == key)

/-- Embeds `QHash::value(key, defaultValue)`. -/
def hashValue {β : Type} (h : List (Nat × β)) (key : Nat) (defaultValue : β) : β :=
  match h.find? (fun e => e.1 == key) with
  | some e => e.2
  | none => defaultValue

/-- Embeds `h[key] = v`. -/
def hashInsert {β : Type} (h : List (Nat × β)) (key : Nat) (v : β) : List (Nat × β) :=
  if hashContains h key then h.map (fun e => if e.1 == key then (key, v) else e)
  else h ++ [(key, v)]

/-- Embeds `QHash::remove`. -/
def hashRemove {β : Type} (h : List (Nat × β)) (key : Nat) : List (Nat × β) :=
  h.filter (fun e => e.1 != key)

/-- The keys of a table. -/
def hashKeys {β : Type} (h : List (Nat × β)) : List Nat := h.map (fun e => e.1)

/-- Embeds `emit sig`. -/
def emit (s : NetworkManager) (sig : NetworkSignal) : NetworkManager :=
  { s with emitted := s.emitted ++ [sig] }

/-- Embeds `QMutexLocker locker(&m_errorMutex)` around `body`. -/
def withErrorMutex (s : NetworkManager) (body : NetworkManager → Outcome NetworkManager) :
    Outcome NetworkManager :=
  if s.m_errorMutex then .blocked s
  else (body { s with m_errorMutex := true }).andThen
    (fun s1 => .returned { s1 with m_errorMutex := false })

/-- The text that the `switch` of `handleNetworkError` selects. -/
def errorText : NetworkError → QString
  | .connectionRefused => "Connection refused"
  | .remoteHostClosed => "Remote host closed connection"
  | .hostNotFound => "Host not found"
  | .timeout => "Request timeout"
  | .operationCanceled => "Operation canceled"
  | .sslHandshakeFailed => "SSL handshake failed"
  | .temporaryNetworkFailure => "Temporary network failure"
  | .networkSessionFailed => "Network session failed"
  | .backgroundRequestNotAllowed => "Background request not allowed"
  | .tooManyRedirects => "Too many redirects"
  | .insecureRedirect => "Insecure redirect"
  | .internalServer => "Internal server error"
  | .operationNotImplemented => "Operation not implemented"
  | .serviceUnavailable => "Service unavailable"
  | .protocolUnknown => "Protocol unknown"
  | .protocolInvalidOperation => "Protocol invalid operation"
  | .unknownNetwork => "Unknown network error"
  | .unknownProxy => "Unknown proxy error"
  | .unknownContent => "Unknown content error"
  | .protocolFailure => "Protocol failure"
  | .other => "Network error occurred"

/-- Embeds `NetworkManager::handleNetworkError`. -/
def handleNetworkError (error : NetworkError) (endpoint : QString) (s : NetworkManager) :
    Outcome NetworkManager :=
  let errorString :=
    if !endpoint.isEmpty then errorText error ++ " for endpoint: " ++ endpoint
    else errorText error
  withErrorMutex s fun s =>
    .returned (emit { s with m_lastError := errorString } (.networkError errorString))

/-- Embeds `NetworkManager::onNetworkError`; `sender` is `qobject_cast<QNetworkReply*>(sender())`. -/
def onNetworkError (sender : Option Nat) (error : NetworkError) (s : NetworkManager) :
    Outcome NetworkManager :=
  match sender with
  | none => .returned s
  | some reply => handleNetworkError error (hashValue s.m_activeRequests reply "") s

/-- Embeds `NetworkManager::onNetworkReplyFinished`; `success` tells whether `reply->error()`
is `NoError`. -/
def onNetworkReplyFinished (sender : Option Nat) (success : Bool) (s : NetworkManager) :
    Outcome NetworkManager :=
  match sender with
  | none => .returned s
  | some reply =>
    let endpoint := hashValue s.m_activeRequests reply ""
    let s :=
      if hashContains s.m_requestTimers reply then
        { s with m_requestTimers := hashRemove s.m_requestTimers reply }
      else s
    let s := { s with m_activeRequests := hashRemove s.m_activeRequests reply }
    .returned (emit s (.requestFinished endpoint success))

/-- Embeds `reply->abort()` for a reply that has not finished: the reply reports
`OperationCanceledError` and finishes before `abort` returns, and the two slots that
`trackRequest` has connected run inside the call. -/
def abort (reply : Nat) (s : NetworkManager) : Outcome NetworkManager :=
  (onNetworkError (some reply) .operationCanceled { s with aborted := s.aborted ++ [reply] }).andThen
    (onNetworkReplyFinished (some reply) false)

/-- Embeds `NetworkManager::onTimeout`; `sender` is `qobject_cast<QTimer*>(sender())`. -/
def onTimeout (sender : Option Nat) (s : NetworkManager) : Outcome NetworkManager :=
  match sender with
  | none => .returned s
  | some timer =>
    match s.m_requestTimers.find? (fun e => e.2 == timer) with
    | none => .returned s
    | some entry =>
      let reply := entry.1
      let endpoint := hashValue s.m_activeRequests reply ""
      (abort reply s).andThen fun s =>
        withErrorMutex s fun s =>
          let s := { s with m_lastError := "Request timeout for endpoint: " ++ endpoint }
          let s := emit s (.networkError s.m_lastError)
          .returned { s with
            m_requestTimers := hashRemove s.m_requestTimers reply
            m_activeRequests := hashRemove s.m_activeRequests reply }

/-- Embeds `NetworkManager::trackRequest`; `timer` is the object that `new QTimer(this)`
yields. -/
def trackRequest (reply : Option Nat) (endpoint : QString) (timer : Nat) (s : NetworkManager) :
    NetworkManager :=
  match reply with
  | none => s
  | some reply =>
    { s with
      m_activeRequests := hashInsert s.m_activeRequests reply endpoint
      m_requestTimers := hashInsert s.m_requestTimers reply timer }

/-- The common body of `get`, `post`, `put` and `deleteResource`: the reply that
`QNetworkAccessManager` hands out is tracked and `requestStarted` is emitted. -/
def sendRequest (endpoint : QString) (reply timer : Nat) (s : NetworkManager) : NetworkManager :=
  emit (trackRequest (some reply) endpoint timer s) (.requestStarted endpoint)

/-- Embeds `NetworkManager::get`. -/
def get (endpoint : QString) (reply timer : Nat) (s : NetworkManager) : NetworkManager :=
  sendRequest endpoint reply timer s

/-- Embeds `NetworkManager::post`. -/
def post (endpoint : QString) (reply timer : Nat) (s : NetworkManager) : NetworkManager :=
  sendRequest endpoint reply timer s

/-- Embeds `NetworkManager::put`. -/
def put (endpoint : QString) (reply timer : Nat) (s : NetworkManager) : NetworkManager :=
  sendRequest endpoint reply timer s

/-- Embeds `NetworkManager::deleteResource`. -/
def deleteResource (endpoint : QString) (reply timer : Nat) (s : NetworkManager) :
    NetworkManager :=
  sendRequest endpoint reply timer s

/-- Embeds `NetworkManager::uploadFile`. -/
def uploadFile (fs : FileSystem) (endpoint filePath : QString) (reply timer : Nat)
    (s : NetworkManager) : Outcome NetworkManager :=
  let isFile :=
    match fs.stat filePath with
    | some st => st.isFile
    | none => false
  if !isFile then
    withErrorMutex s fun s =>
      let s := { s with m_lastError := "File does not exist: " ++ filePath }
      .returned (emit s (.networkError s.m_lastError))
  else if !fs.canOpen filePath then
    withErrorMutex s fun s =>
      let s := { s with m_lastError := "Cannot open file: " ++ filePath }
      .returned (emit s (.networkError s.m_lastError))
  else .returned (sendRequest endpoint reply timer s)

/-- Embeds `NetworkManager::getLastError`: `none` when the call would wait for the mutex. -/
def getLastError (s : NetworkManager) : Option QString :=
  if s.m_errorMutex then none else some s.m_lastError

/-- Embeds `NetworkManager::clearLastError`. -/
def clearLastError (s : NetworkManager) : Outcome NetworkManager :=
  withErrorMutex s fun s => .returned { s with m_lastError := "" }

/-- What can happen to a `NetworkManager` object: calls of its public functions and the
slots connected to the replies and the timers. -/
inductive Event where
  | setAuthToken (token : QString) : Event
  | setServerUrl (url : QString) : Event
  | setTimeout (timeout : Int) : Event
  | get (endpoint : QString) (reply timer : Nat) : Event
  | post (endpoint : QString) (reply timer : Nat) : Event
  | put (endpoint : QString) (reply timer : Nat) : Event
  | deleteResource (endpoint : QString) (reply timer : Nat) : Event
  | uploadFile (fs : FileSystem) (endpoint filePath : QString) (reply timer : Nat) : Event
  | clearLastError : Event
  | onNetworkReplyFinished (sender : Option Nat) (success : Bool) : Event
  | onNetworkError (sender : Option Nat) (error : NetworkError) : Event
  | onTimeout (sender : Option Nat) : Event

/-- The effect of one event. -/
def step : Event → NetworkManager → Outcome NetworkManager
  | .setAuthToken token, s => .returned { s with m_authToken := token }
  | .setServerUrl url, s => .returned { s with m_serverUrl := url }
  | .setTimeout timeout, s => .returned { s with m_timeout := timeout }
  | .get endpoint reply timer, s => .returned (get endpoint reply timer s)
  | .post endpoint reply timer, s => .returned (post endpoint reply timer s)
  | .put endpoint reply timer, s => .returned (put endpoint reply timer s)
  | .deleteResource endpoint reply timer, s => .returned (deleteResource endpoint reply timer s)
  | .uploadFile fs endpoint filePath reply timer, s => uploadFile fs endpoint filePath reply timer s
  | .clearLastError, s => clearLastError s
  | .onNetworkReplyFinished sender success, s => onNetworkReplyFinished sender success s
  | .onNetworkError sender error, s => onNetworkError sender error s
  | .onTimeout sender, s => onTimeout sender s

/-- A run: the events one after the other. -/
def run (events : List Event) (s : NetworkManager) : Outcome NetworkManager :=
  forEach step events s

/-- The error mutex is free and the two tracking tables have the same keys, in the same
order. -/
def Tracked (s : NetworkManager) : Prop :=
  s.m_errorMutex = false ∧ hashKeys s.m_activeRequests = hashKeys s.m_requestTimers

end NetworkManager

namespace Example

/-- Two requests are tracked: reply 1 to `/api/v1/media` with timer 11 and reply 2 to
`/api/v1/upload` with timer 12. -/
def twoRequests : NetworkManager :=
  (NetworkManager.run [.get "/api/v1/media" 1 11, .post "/api/v1/upload" 2 12]
    (NetworkManager.init "http://localhost:3000" 30000)).state

end Example

/-! # Theorems -/

/-! ## Lists and the hash table -/

theorem map_modifyAt_of_eq {α β : Type} (g : α → β) (f : α → α) (hf : ∀ a, g (f a) = g a) :
    ∀ (i : Nat) (l : List α), (modifyAt f i l).map g = l.map g
  | i, [] => by cases i <;> rfl
  | 0, a :: l => by simp [modifyAt, hf]
  | n + 1, a :: l => by simp [modifyAt, map_modifyAt_of_eq g f hf n l]

theorem nodup_snoc {α : Type} {l : List α} {a : α} (hl : l.Nodup) (ha : a ∉ l) :
    (l ++ [a]).Nodup := by
  rw [List.nodup_append]
  refine ⟨hl, List.nodup_singleton a, ?_⟩
  intro x hx hx1
  simp only [List.mem_singleton] at hx1
  subst hx1
  exact ha hx

theorem length_modifyAt {α : Type} (f : α → α) :
    ∀ (i : Nat) (l : List α), (modifyAt f i l).length = l.length
  | i, [] => by cases i <;> rfl
  | 0, a :: l => by simp [modifyAt]
  | n + 1, a :: l => by simp [modifyAt, length_modifyAt f n l]

namespace QHash

theorem contains_iff (h : List (QString × SyncItem)) (k : QString) :
    contains h k = true ↔ ∃ e ∈ h, e.1 = k := by
  simp [contains, List.any_eq_true]

theorem value_eq_none_iff (h : List (QString × SyncItem)) (k : QString) :
    value h k = none ↔ contains h k = false := by
  simp [value, contains]

theorem mem_of_value_eq_some {h : List (QString × SyncItem)} {k : QString} {v : SyncItem}
    (hv : value h k = some v) : (k, v) ∈ h := by
  simp only [value, Option.map_eq_some'] at hv
  obtain ⟨e, he, rfl⟩ := hv
  have h1 := List.mem_of_find?_eq_some he
  have h2 := List.find?_some he
  simp at h2
  rw [← h2]
  exact h1

theorem mem_insert {h : List (QString × SyncItem)} {k : QString} {v : SyncItem}
    {e : QString × SyncItem} (he : e ∈ insert h k v) : e = (k, v) ∨ e ∈ h := by
  unfold insert at he
  split at he
  · simp only [List.mem_map] at he
    obtain ⟨e0, he0, rfl⟩ := he
    split
    · exact Or.inl rfl
    · exact Or.inr he0
  · simp only [List.mem_append, List.mem_singleton] at he
    exact he.symm

theorem contains_insert_self (h : List (QString × SyncItem)) (k : QString) (v : SyncItem) :
    contains (insert h k v) k = true := by
  unfold insert
  split
  · rename_i hc
    rw [contains_iff] at hc ⊢
    obtain ⟨e, he, rfl⟩ := hc
    exact ⟨(e.1, v), by simp only [List.mem_map]; exact ⟨e, he, by simp⟩, rfl⟩
  · rw [contains_iff]
    exact ⟨(k, v), by simp, rfl⟩

theorem contains_insert_of_contains {h : List (QString × SyncItem)} {k k1 : QString}
    (v : SyncItem) (hc : contains h k1 = true) : contains (insert h k v) k1 = true := by
  by_cases hk : k1 = k
  · subst hk; exact contains_insert_self h k1 v
  · unfold insert
    rw [contains_iff] at hc
    obtain ⟨e, he, rfl⟩ := hc
    split
    · rw [contains_iff]
      refine ⟨e, ?_, rfl⟩
      simp only [List.mem_map]
      exact ⟨e, he, by simp [hk]⟩
    · rw [contains_iff]
      exact ⟨e, by simp [he], rfl⟩

theorem mem_foldl_remove (ks : List QString) :
    ∀ (h : List (QString × SyncItem)) (e : QString × SyncItem),
      e ∈ ks.foldl remove h ↔ e ∈ h ∧ e.1 ∉ ks := by
  induction ks with
  | nil => intro h e; simp
  | cons k ks ih =>
    intro h e
    simp only [List.foldl_cons, ih, remove, List.mem_filter, List.mem_cons, not_or]
    simp only [bne_iff_ne, ne_eq]
    tauto

end QHash

namespace FolderSync

theorem state_andThen {P : FolderSync → Prop} {o : Outcome FolderSync}
    {f : FolderSync → Outcome FolderSync} (ho : P o.state) (hf : ∀ s, P s → P (f s).state) :
    P (o.andThen f).state := by
  cases o with
  | returned s => exact hf s ho
  | blocked s => exact ho
  | crashed s => exact ho

theorem state_forEach {α : Type} {P : FolderSync → Prop} {step : α → FolderSync → Outcome FolderSync}
    (hstep : ∀ x s, P s → P (step x s).state) :
    ∀ (xs : List α) (s : FolderSync), P s → P (forEach step xs s).state
  | [], _, hs => hs
  | x :: xs, s, hs => state_andThen (hstep x s hs) (state_forEach hstep xs)

theorem state_withSyncMutex {P : FolderSync → Prop}
    (hP : ∀ s b, P s → P { s with m_syncMutex := b }) {s : FolderSync}
    {body : FolderSync → Outcome FolderSync} (hs : P s) (hbody : ∀ s, P s → P (body s).state) :
    P (withSyncMutex s body).state := by
  unfold withSyncMutex
  split
  · exact hs
  · exact state_andThen (hbody _ (hP s true hs)) (fun s1 h1 => hP s1 false h1)

theorem inv_mutex (s : FolderSync) (b : Bool) (hs : Inv s) : Inv { s with m_syncMutex := b } := hs

theorem scanFile_inv (fs : FileSystem) (p : QString) (s : FolderSync) (hs : Inv s) :
    Inv (scanFile fs p s).state := by
  unfold scanFile
  refine state_withSyncMutex inv_mutex hs (fun s hs => ?_)
  split
  · exact hs
  · split
    · exact hs
    · split
      · exact hs
      · split
        · rename_i existingItem hval
          split
          · have hmem := QHash.mem_of_value_eq_some hval
            have hkey : existingItem.localPath = p := hs.keyed _ hmem
            refine ⟨?_, ?_, ?_⟩
            · show (queuePaths (if _ then _ else _)).Nodup
              split
              · rename_i hq
                simp only [queuePaths, List.map_append, List.map_cons, List.map_nil]
                refine nodup_snoc hs.nodup ?_
                intro hin
                simp only [List.mem_map, hkey] at hin
                obtain ⟨it, hit, hp⟩ := hin
                simp only [Bool.not_eq_true', List.any_eq_false, beq_iff_eq] at hq
                exact hq it hit hp
              · exact hs.nodup
            · intro q hq
              show QHash.contains (QHash.insert _ _ _) q = true
              have hq' : q = p ∨ q ∈ queuePaths s.m_syncQueue := by
                revert hq
                show q ∈ queuePaths (if _ then _ else _) → _
                split
                · simp only [queuePaths, List.map_append, List.map_cons, List.map_nil,
                    List.mem_append, List.mem_singleton, hkey]
                  intro h; exact h.symm
                · intro h; exact Or.inr h
              rcases hq' with rfl | hq'
              · exact QHash.contains_insert_self _ _ _
              · exact QHash.contains_insert_of_contains _ (hs.indexed q hq')
            · intro e he
              rcases QHash.mem_insert he with rfl | he'
              · exact hkey
              · exact hs.keyed e he'
          · exact hs
        · rename_i hval
          have hnot : QHash.contains s.m_fileIndex p = false :=
            (QHash.value_eq_none_iff _ _).1 hval
          refine ⟨?_, ?_, ?_⟩
          · show (queuePaths (_ ++ [_])).Nodup
            simp only [queuePaths, List.map_append, List.map_cons, List.map_nil]
            refine nodup_snoc hs.nodup ?_
            intro hin
            have := hs.indexed p hin
            rw [hnot] at this
            exact Bool.noConfusion this
          · intro q hq
            show QHash.contains (QHash.insert _ _ _) q = true
            have hq' : q = p ∨ q ∈ queuePaths s.m_syncQueue := by
              revert hq
              show q ∈ queuePaths (_ ++ [_]) → _
              simp only [queuePaths, List.map_append, List.map_cons, List.map_nil,
                List.mem_append, List.mem_singleton, SyncItem.ofPath]
              intro h; exact h.symm
            rcases hq' with rfl | hq'
            · exact QHash.contains_insert_self _ _ _
            · exact QHash.contains_insert_of_contains _ (hs.indexed q hq')
          · intro e he
            rcases QHash.mem_insert he with rfl | he'
            · rfl
            · exact hs.keyed e he'

theorem SameTracked.inv {s0 s : FolderSync} (h : SameTracked s0 s) (hs : Inv s0) : Inv s := by
  obtain ⟨hq, hi, _⟩ := h
  unfold Inv
  refine ⟨?_, ?_, ?_⟩
  · rw [hq]; exact hs.nodup
  · rw [hq, hi]; exact hs.indexed
  · rw [hi]; exact hs.keyed

theorem queuePaths_setStatus (st : QString) (i : Nat) (q : List SyncItem) :
    queuePaths (modifyAt (fun it => { it with status := st }) i q) = queuePaths q :=
  map_modifyAt_of_eq (fun it : SyncItem => it.localPath)
    (fun it => { it with status := st }) (fun _ => rfl) i q

theorem updateItemStatus_sameTracked (s0 : FolderSync) (index : Int) (st : QString)
    (s : FolderSync) (h : SameTracked s0 s) : SameTracked s0 (updateItemStatus index st s) := by
  unfold updateItemStatus
  split
  · exact ⟨(queuePaths_setStatus st _ _).trans h.1, h.2⟩
  · exact h

theorem uploadFile_sameTracked (s0 : FolderSync) (fs : FileSystem) (item : SyncItem)
    (s : FolderSync) (h : SameTracked s0 s) : SameTracked s0 (uploadFile fs item s) := by
  unfold uploadFile
  split
  · exact updateItemStatus_sameTracked s0 _ _ s h
  · exact h

theorem processSyncQueue_sameTracked (s0 : FolderSync) (fs : FileSystem) (s : FolderSync)
    (h : SameTracked s0 s) : SameTracked s0 (processSyncQueue fs s).state := by
  unfold processSyncQueue
  split
  · split
    · exact h
    · exact h
  · refine state_withSyncMutex (fun _ _ h => h) h (fun s h => ?_)
    split
    · exact h
    · rename_i i _
      have h1 : SameTracked s0
          { s with
            m_isSyncing := true
            m_syncQueue := modifyAt (fun it => { it with status := "Syncing" }) i s.m_syncQueue } :=
        ⟨(queuePaths_setStatus _ _ _).trans h.1, h.2⟩
      dsimp only
      split
      · exact h1
      · have key : ∀ (t : FolderSync) (sig : Signal), SameTracked s0 t →
            SameTracked s0 (Outcome.returned (emit t sig)).state := fun _ _ ht => ht
        refine key _ _ ?_
        split
        · exact h1
        · exact uploadFile_sameTracked s0 fs _ _ h1

theorem onNetworkReplyFinished_sameTracked (s0 : FolderSync) (fs : FileSystem) (error : Bool)
    (s : FolderSync) (h : SameTracked s0 s) :
    SameTracked s0 (onNetworkReplyFinished fs error s).state := by
  unfold onNetworkReplyFinished
  split
  · exact h
  · have key : ∀ t : FolderSync, SameTracked s0 t →
        SameTracked s0 { t with m_currentReply := none, m_isSyncing := false } := fun _ ht => ht
    refine processSyncQueue_sameTracked s0 fs _ (key _ ?_)
    split
    · exact h
    · split
      · exact h
      · exact h

theorem forceSync_sameTracked (s0 : FolderSync) (fs : FileSystem) (s : FolderSync)
    (h : SameTracked s0 s) : SameTracked s0 (forceSync fs s).state := by
  unfold forceSync
  split
  · exact h
  · exact processSyncQueue_sameTracked s0 fs _ h

theorem stopSync_sameTracked (s0 : FolderSync) (fs : FileSystem) (s : FolderSync)
    (h : SameTracked s0 s) : SameTracked s0 (stopSync fs s).state := by
  unfold stopSync
  simp only
  split
  · refine state_andThen ?_ (fun s h => h)
    split
    · exact onNetworkReplyFinished_sameTracked s0 fs true _ h
    · exact h
  · exact h

theorem onSingleShot_sameTracked (s0 : FolderSync) (fs : FileSystem) (k : Nat) (s : FolderSync)
    (h : SameTracked s0 s) : SameTracked s0 (onSingleShot fs k s).state := by
  unfold onSingleShot
  split
  · exact processSyncQueue_sameTracked s0 fs _ h
  · exact h

theorem onSyncTimeout_sameTracked (s0 : FolderSync) (fs : FileSystem) (s : FolderSync)
    (h : SameTracked s0 s) : SameTracked s0 (onSyncTimeout fs s).state := by
  unfold onSyncTimeout
  split
  · exact forceSync_sameTracked s0 fs _ h
  · exact h

theorem scanFolder_inv (fs : FileSystem) (p : QString) (s : FolderSync) (hs : Inv s) :
    Inv (scanFolder fs p s).state :=
  state_forEach (fun x s hs => scanFile_inv fs x s hs) _ s hs

theorem addFolder_inv (fs : FileSystem) (p : QString) (s : FolderSync) (hs : Inv s) :
    Inv (addFolder fs p s).state := by
  unfold addFolder
  refine state_withSyncMutex inv_mutex hs (fun s hs => ?_)
  split
  · exact hs
  · exact state_andThen (scanFolder_inv fs p _ hs) (fun s hs => hs)

theorem removeFolder_inv (fs : FileSystem) (p : QString) (s : FolderSync) (hs : Inv s) :
    Inv (removeFolder fs p s).state := by
  unfold removeFolder
  refine state_withSyncMutex inv_mutex hs (fun s hs => ?_)
  split
  · exact hs
  · refine ⟨?_, ?_, ?_⟩
    · show (queuePaths (List.filter _ s.m_syncQueue)).Nodup
      exact hs.nodup.sublist ((List.filter_sublist _).map _)
    · intro q hq
      have hq' : q ∈ queuePaths s.m_syncQueue ∧ startsWith q p = false := by
        revert hq
        show q ∈ queuePaths (List.filter _ s.m_syncQueue) → _
        simp only [queuePaths, List.mem_map, List.mem_filter, Bool.not_eq_true',
          forall_exists_index, and_imp]
        rintro it hit hst rfl
        exact ⟨⟨it, hit, rfl⟩, hst⟩
      obtain ⟨e, he, rfl⟩ := (QHash.contains_iff _ _).1 (hs.indexed q hq'.1)
      show QHash.contains (List.foldl QHash.remove s.m_fileIndex _) e.1 = true
      rw [QHash.contains_iff]
      refine ⟨e, (QHash.mem_foldl_remove _ _ _).2 ⟨he, ?_⟩, rfl⟩
      simp only [List.mem_map, List.mem_filter, not_exists, not_and, and_imp]
      intro e1 he1 hst heq
      rw [hs.keyed e1 he1, heq, hq'.2] at hst
      exact Bool.noConfusion hst
    · intro e he
      have he' : e ∈ List.foldl QHash.remove s.m_fileIndex _ := he
      exact hs.keyed e ((QHash.mem_foldl_remove _ _ _).1 he').1

theorem startSync_inv (fs : FileSystem) (s : FolderSync) (hs : Inv s) :
    Inv (startSync fs s).state := by
  unfold startSync
  split
  · exact hs
  · refine state_andThen (state_forEach (fun x s hs => ?_) _ _ hs)
      (fun s hs => (forceSync_sameTracked s fs s ⟨rfl, rfl, rfl⟩).inv hs)
    split
    · exact addFolder_inv fs x s hs
    · exact hs

theorem onFileChanged_inv (fs : FileSystem) (p : QString) (s : FolderSync) (hs : Inv s) :
    Inv (onFileChanged fs p s).state := by
  unfold onFileChanged
  split
  · exact hs
  · split
    · exact hs
    · split
      · exact scanFile_inv fs p s hs
      · exact hs

theorem onDirectoryChanged_inv (fs : FileSystem) (p : QString) (s : FolderSync) (hs : Inv s) :
    Inv (onDirectoryChanged fs p s).state := by
  unfold onDirectoryChanged
  split
  · exact hs
  · exact scanFolder_inv fs p _ hs

theorem inv_init (maxRetries : Int) (savedFolders : List QString) :
    Inv (FolderSync.init maxRetries savedFolders) :=
  ⟨List.nodup_nil, (by intro p hp; cases hp), (by intro e he; cases he)⟩

theorem step_inv (ev : Event) (s : FolderSync) (hs : Inv s) : Inv (step ev s).state := by
  cases ev with
  | addFolder fs p => exact addFolder_inv fs p s hs
  | removeFolder fs p => exact removeFolder_inv fs p s hs
  | startSync fs => exact startSync_inv fs s hs
  | stopSync fs => exact (stopSync_sameTracked s fs s ⟨rfl, rfl, rfl⟩).inv hs
  | forceSync fs => exact (forceSync_sameTracked s fs s ⟨rfl, rfl, rfl⟩).inv hs
  | onFileChanged fs p => exact onFileChanged_inv fs p s hs
  | onDirectoryChanged fs p => exact onDirectoryChanged_inv fs p s hs
  | onSyncTimeout fs => exact (onSyncTimeout_sameTracked s fs s ⟨rfl, rfl, rfl⟩).inv hs
  | onNetworkReplyFinished fs e =>
    exact (onNetworkReplyFinished_sameTracked s fs e s ⟨rfl, rfl, rfl⟩).inv hs
  | onSingleShot fs k => exact (onSingleShot_sameTracked s fs k s ⟨rfl, rfl, rfl⟩).inv hs
  | scanFile fs p => exact scanFile_inv fs p s hs
  | scanFolder fs p => exact scanFolder_inv fs p s hs
  | processSyncQueue fs => exact (processSyncQueue_sameTracked s fs s ⟨rfl, rfl, rfl⟩).inv hs

theorem run_inv (events : List Event) (s : FolderSync) (hs : Inv s) :
    Inv (run events s).state :=
  state_forEach step_inv events s hs

/-- C1. Dedup invariant of FolderSync: at the state in which any run of events from the
state left by the constructor ends (calls of addFolder, removeFolder, startSync, stopSync,
forceSync, file and directory notifications, scanFile and scanFolder, dispatch, reply
completions and timers, each with an arbitrary file system), the local paths of the items
of m_syncQueue are pairwise distinct. -/
theorem C1_dedup_invariant (maxRetries : Int) (savedFolders : List QString)
    (events : List Event) :
    (queuePaths (run events (FolderSync.init maxRetries savedFolders)).state.m_syncQueue).Nodup :=
  (run_inv events _ (inv_init maxRetries savedFolders)).nodup

/-! ## The mutex is free whenever a call has returned -/

theorem andThen_eq_returned {σ : Type} {o : Outcome σ} {f : σ → Outcome σ} {s1 : σ}
    (h : o.andThen f = .returned s1) : ∃ s, o = .returned s ∧ f s = .returned s1 := by
  cases o with
  | returned s => exact ⟨s, rfl, h⟩
  | blocked s => cases h
  | crashed s => cases h

theorem forEach_returned {α σ : Type} {P : σ → Prop} {step : α → σ → Outcome σ}
    (hstep : ∀ x s s1, P s → step x s = .returned s1 → P s1) :
    ∀ (xs : List α) (s s1 : σ), P s → forEach step xs s = .returned s1 → P s1
  | [], s, s1, hs, h => by
    simp only [forEach, Outcome.returned.injEq] at h
    exact h ▸ hs
  | x :: xs, s, s1, hs, h => by
    obtain ⟨s2, h2, h3⟩ := andThen_eq_returned h
    exact forEach_returned hstep xs s2 s1 (hstep x s s2 hs h2) h3

theorem withSyncMutex_free {s s1 : FolderSync} {body : FolderSync → Outcome FolderSync}
    (h : withSyncMutex s body = .returned s1) : s1.m_syncMutex = false := by
  unfold withSyncMutex at h
  split at h
  · cases h
  · obtain ⟨s2, _, h3⟩ := andThen_eq_returned h
    simp only [Outcome.returned.injEq] at h3
    rw [← h3]

theorem withSyncMutex_of_free {s : FolderSync} (body : FolderSync → Outcome FolderSync)
    (hfree : s.m_syncMutex = false) :
    withSyncMutex s body = (body { s with m_syncMutex := true }).andThen
      (fun s1 => .returned { s1 with m_syncMutex := false }) := by
  unfold withSyncMutex
  simp [hfree]

theorem unlock_lock (s : FolderSync) (hfree : s.m_syncMutex = false) :
    { ({ s with m_syncMutex := true } : FolderSync) with m_syncMutex := false } = s := by
  cases s
  simp_all

theorem processSyncQueue_free (fs : FileSystem) (s s1 : FolderSync)
    (hfree : s.m_syncMutex = false) (h : processSyncQueue fs s = .returned s1) :
    s1.m_syncMutex = false := by
  unfold processSyncQueue at h
  split at h
  · split at h <;> simp only [Outcome.returned.injEq] at h <;> rw [← h] <;> exact hfree
  · exact withSyncMutex_free h

theorem onNetworkReplyFinished_free (fs : FileSystem) (e : Bool) (s s1 : FolderSync)
    (hfree : s.m_syncMutex = false) (h : onNetworkReplyFinished fs e s = .returned s1) :
    s1.m_syncMutex = false := by
  unfold onNetworkReplyFinished at h
  split at h
  · simp only [Outcome.returned.injEq] at h
    rw [← h]; exact hfree
  · refine processSyncQueue_free fs _ s1 ?_ h
    show (if _ then _ else _ : FolderSync).m_syncMutex = false
    split
    · exact hfree
    · split <;> exact hfree

theorem forceSync_free (fs : FileSystem) (s s1 : FolderSync)
    (hfree : s.m_syncMutex = false) (h : forceSync fs s = .returned s1) :
    s1.m_syncMutex = false := by
  unfold forceSync at h
  split at h
  · simp only [Outcome.returned.injEq] at h
    rw [← h]; exact hfree
  · exact processSyncQueue_free fs _ s1 hfree h

theorem scanFolder_free (fs : FileSystem) (p : QString) (s s1 : FolderSync)
    (hfree : s.m_syncMutex = false) (h : scanFolder fs p s = .returned s1) :
    s1.m_syncMutex = false :=
  forEach_returned (P := fun s => s.m_syncMutex = false)
    (fun _ _ _ _ hx => withSyncMutex_free (by simpa only [scanFile] using hx)) _ s s1 hfree h

theorem step_free (ev : Event) (s s1 : FolderSync)
    (hfree : s.m_syncMutex = false) (h : step ev s = .returned s1) :
    s1.m_syncMutex = false := by
  cases ev with
  | addFolder fs p =>
    simp only [step, addFolder] at h
    exact withSyncMutex_free h
  | removeFolder fs p =>
    simp only [step, removeFolder] at h
    exact withSyncMutex_free h
  | startSync fs =>
    simp only [step, startSync] at h
    split at h
    · simp only [Outcome.returned.injEq] at h
      rw [← h]; exact hfree
    · obtain ⟨s2, h2, h3⟩ := andThen_eq_returned h
      refine forceSync_free fs s2 s1 ?_ h3
      refine forEach_returned (P := fun s => s.m_syncMutex = false) ?_ _ _ s2 hfree h2
      intro x t t1 ht hx
      split at hx
      · simp only [addFolder] at hx
        exact withSyncMutex_free hx
      · simp only [Outcome.returned.injEq] at hx
        rw [← hx]; exact ht
  | stopSync fs =>
    simp only [step, stopSync] at h
    split at h
    · obtain ⟨s2, h2, h3⟩ := andThen_eq_returned h
      simp only [Outcome.returned.injEq] at h3
      rw [← h3]
      show s2.m_syncMutex = false
      split at h2
      · refine onNetworkReplyFinished_free fs true _ s2 ?_ h2
        exact hfree
      · simp only [Outcome.returned.injEq] at h2
        rw [← h2]; exact hfree
    · simp only [Outcome.returned.injEq] at h
      rw [← h]; exact hfree
  | forceSync fs => exact forceSync_free fs s s1 hfree h
  | onFileChanged fs p =>
    simp only [step, onFileChanged] at h
    split at h
    · simp only [Outcome.returned.injEq] at h
      rw [← h]; exact hfree
    · split at h
      · simp only [Outcome.returned.injEq] at h
        rw [← h]; exact hfree
      · split at h
        · simp only [scanFile] at h
          exact withSyncMutex_free h
        · simp only [Outcome.returned.injEq] at h
          rw [← h]; exact hfree
  | onDirectoryChanged fs p =>
    simp only [step, onDirectoryChanged] at h
    split at h
    · simp only [Outcome.returned.injEq] at h
      rw [← h]; exact hfree
    · refine scanFolder_free fs p _ s1 ?_ h
      exact hfree
  | onSyncTimeout fs =>
    simp only [step, onSyncTimeout] at h
    split at h
    · exact forceSync_free fs s s1 hfree h
    · simp only [Outcome.returned.injEq] at h
      rw [← h]; exact hfree
  | onNetworkReplyFinished fs e => exact onNetworkReplyFinished_free fs e s s1 hfree h
  | onSingleShot fs k =>
    simp only [step, onSingleShot] at h
    split at h
    · refine processSyncQueue_free fs _ s1 ?_ h
      exact hfree
    · simp only [Outcome.returned.injEq] at h
      rw [← h]; exact hfree
  | scanFile fs p =>
    simp only [step, scanFile] at h
    exact withSyncMutex_free h
  | scanFolder fs p => exact scanFolder_free fs p s s1 hfree h
  | processSyncQueue fs => exact processSyncQueue_free fs s s1 hfree h

theorem run_free (events : List Event) (s s1 : FolderSync)
    (hfree : s.m_syncMutex = false) (h : run events s = .returned s1) :
    s1.m_syncMutex = false :=
  forEach_returned (P := fun s => s.m_syncMutex = false) step_free events s s1 hfree h

/-! ## Idempotence of the folder operations -/

/-- C6. Idempotence of the folder operations: called from outside a critical section,
addFolder on a path that is in the watched-folder list, and removeFolder on a path that is
not in it, return and leave the whole state as it was: the watched-folder list, the sync
queue, the file index, the persisted folder list, and every other member. -/
theorem C6_folder_operations_idempotent (fs : FileSystem) (p : QString) (s : FolderSync)
    (hfree : s.m_syncMutex = false) :
    (p ∈ s.m_watchedFolders → addFolder fs p s = .returned s) ∧
    (p ∉ s.m_watchedFolders → removeFolder fs p s = .returned s) := by
  constructor
  · intro hp
    rw [addFolder, withSyncMutex_of_free _ hfree]
    have hc : s.m_watchedFolders.contains p = true := by simpa using hp
    simp only [hc, Bool.or_true, ↓reduceIte, Outcome.andThen, unlock_lock s hfree]
  · intro hp
    rw [removeFolder, withSyncMutex_of_free _ hfree]
    have hc : s.m_watchedFolders.contains p = false := by simpa using hp
    simp only [hc, Bool.not_false, ↓reduceIte, Outcome.andThen, unlock_lock s hfree]

end FolderSync

theorem isPrefixOf_append_self (l r : List Char) : l.isPrefixOf (l ++ r) = true := by
  induction l with
  | nil => simp [List.isPrefixOf]
  | cons a l ih => simp [List.isPrefixOf, ih]

theorem startsWith_append (p rest : QString) : startsWith (p ++ rest) p = true := by
  simp only [startsWith, String.data_append]
  exact isPrefixOf_append_self _ _

namespace FolderSync

/-! ## The watched-folder list has no duplicates -/

theorem scanFile_watched (fs : FileSystem) (p : QString) (w : List QString) (s : FolderSync)
    (hs : s.m_watchedFolders = w) : (scanFile fs p s).state.m_watchedFolders = w := by
  unfold scanFile
  refine state_withSyncMutex (P := fun s => s.m_watchedFolders = w) (fun _ _ h => h) hs
    (fun s hs => ?_)
  split
  · exact hs
  · split
    · exact hs
    · split
      · exact hs
      · split
        · split
          · exact hs
          · exact hs
        · exact hs

theorem scanFolder_watched (fs : FileSystem) (p : QString) (w : List QString) (s : FolderSync)
    (hs : s.m_watchedFolders = w) : (scanFolder fs p s).state.m_watchedFolders = w :=
  state_forEach (P := fun s => s.m_watchedFolders = w)
    (fun x s hs => scanFile_watched fs x w s hs) _ s hs

theorem addFolder_nodup (fs : FileSystem) (p : QString) (s : FolderSync)
    (hs : s.m_watchedFolders.Nodup) : (addFolder fs p s).state.m_watchedFolders.Nodup := by
  unfold addFolder
  refine state_withSyncMutex (P := fun s => s.m_watchedFolders.Nodup) (fun _ _ h => h) hs
    (fun s hs => ?_)
  split
  · exact hs
  · rename_i hc
    have hp : p ∉ s.m_watchedFolders := by
      intro hin
      apply hc
      simp [hin]
    refine state_andThen (P := fun s => s.m_watchedFolders.Nodup) ?_ (fun s hs => hs)
    have hw := scanFolder_watched fs p (s.m_watchedFolders ++ [p])
      { s with
        m_watchedFolders := s.m_watchedFolders ++ [p]
        m_fileWatcher := addPath s.m_fileWatcher p } rfl
    show List.Nodup _
    rw [hw]
    exact nodup_snoc hs hp

theorem removeFolder_nodup (fs : FileSystem) (p : QString) (s : FolderSync)
    (hs : s.m_watchedFolders.Nodup) : (removeFolder fs p s).state.m_watchedFolders.Nodup := by
  unfold removeFolder
  refine state_withSyncMutex (P := fun s => s.m_watchedFolders.Nodup) (fun _ _ h => h) hs
    (fun s hs => ?_)
  split
  · exact hs
  · exact hs.erase p

theorem step_nodup (ev : Event) (s : FolderSync) (hs : s.m_watchedFolders.Nodup) :
    (step ev s).state.m_watchedFolders.Nodup := by
  cases ev with
  | addFolder fs p => exact addFolder_nodup fs p s hs
  | removeFolder fs p => exact removeFolder_nodup fs p s hs
  | startSync fs =>
    simp only [step, startSync]
    split
    · exact hs
    · refine state_andThen (P := fun s => s.m_watchedFolders.Nodup)
        (state_forEach (P := fun s => s.m_watchedFolders.Nodup) (fun x s hs => ?_) _ _ hs)
        (fun s hs => ?_)
      · split
        · exact addFolder_nodup fs x s hs
        · exact hs
      · show List.Nodup _
        rw [(forceSync_sameTracked s fs s ⟨rfl, rfl, rfl⟩).2.2]; exact hs
  | stopSync fs => rw [step, (stopSync_sameTracked s fs s ⟨rfl, rfl, rfl⟩).2.2]; exact hs
  | forceSync fs => rw [step, (forceSync_sameTracked s fs s ⟨rfl, rfl, rfl⟩).2.2]; exact hs
  | onFileChanged fs p =>
    simp only [step, onFileChanged]
    split
    · exact hs
    · split
      · exact hs
      · split
        · rw [scanFile_watched fs p _ s rfl]; exact hs
        · exact hs
  | onDirectoryChanged fs p =>
    simp only [step, onDirectoryChanged]
    split
    · exact hs
    · have hw := scanFolder_watched fs p s.m_watchedFolders
        { s with m_fileWatcher := (fs.childDirs p).foldl addPath s.m_fileWatcher } rfl
      rw [hw]; exact hs
  | onSyncTimeout fs =>
    rw [step, (onSyncTimeout_sameTracked s fs s ⟨rfl, rfl, rfl⟩).2.2]; exact hs
  | onNetworkReplyFinished fs e =>
    rw [step, (onNetworkReplyFinished_sameTracked s fs e s ⟨rfl, rfl, rfl⟩).2.2]; exact hs
  | onSingleShot fs k =>
    rw [step, (onSingleShot_sameTracked s fs k s ⟨rfl, rfl, rfl⟩).2.2]; exact hs
  | scanFile fs p => rw [step, scanFile_watched fs p _ s rfl]; exact hs
  | scanFolder fs p => rw [step, scanFolder_watched fs p _ s rfl]; exact hs
  | processSyncQueue fs =>
    rw [step, (processSyncQueue_sameTracked s fs s ⟨rfl, rfl, rfl⟩).2.2]; exact hs

theorem run_nodup (events : List Event) (s : FolderSync) (hs : s.m_watchedFolders.Nodup) :
    (run events s).state.m_watchedFolders.Nodup :=
  state_forEach (P := fun s => s.m_watchedFolders.Nodup) step_nodup events s hs

/-! ## The effect of removeFolder -/

theorem removeFolder_watched (fs : FileSystem) (p : QString) (s : FolderSync)
    (hfree : s.m_syncMutex = false) (hp : p ∈ s.m_watchedFolders) :
    ∃ s1, removeFolder fs p s = .returned s1
      ∧ s1.m_watchedFolders = s.m_watchedFolders.erase p
      ∧ s1.m_syncQueue = s.m_syncQueue.filter (fun item => !startsWith item.localPath p)
      ∧ s1.m_fileIndex =
          ((s.m_fileIndex.filter (fun e => startsWith e.2.localPath p)).map (fun e => e.1)).foldl
            QHash.remove s.m_fileIndex
      ∧ s1.settingsFolders = s.settingsFolders.erase p := by
  have hc : s.m_watchedFolders.contains p = true := by simpa using hp
  rw [removeFolder, withSyncMutex_of_free _ hfree]
  simp only [hc, Bool.not_true, Bool.false_eq_true, ↓reduceIte, Outcome.andThen, emit]
  exact ⟨_, rfl, rfl, rfl, rfl, rfl⟩

/-- C5. removeFolder on a watched folder: in every state in which a run of events from the
state left by the constructor has returned, the watched-folder list has no duplicates,
and removeFolder(p) for a watched folder p returns with a state in which p is not in the
watched-folder list (which still has no duplicates) and in which no queued item and no
index entry has a local path that starts with p, in particular none of the form p followed
by further text, as every path under p is. -/
theorem C5_removeFolder_purges (maxRetries : Int) (savedFolders : List QString)
    (events : List Event) (s : FolderSync)
    (hrun : run events (FolderSync.init maxRetries savedFolders) = .returned s) :
    s.m_watchedFolders.Nodup ∧
    ∀ (fs : FileSystem) (p : QString), p ∈ s.m_watchedFolders →
      ∃ s1, removeFolder fs p s = .returned s1
        ∧ p ∉ s1.m_watchedFolders
        ∧ s1.m_watchedFolders.Nodup
        ∧ (∀ it ∈ s1.m_syncQueue, startsWith it.localPath p = false)
        ∧ (∀ e ∈ s1.m_fileIndex, startsWith e.1 p = false ∧ startsWith e.2.localPath p = false)
        ∧ (∀ rest : QString, p ++ rest ∉ queuePaths s1.m_syncQueue
            ∧ p ++ rest ∉ QHash.keys s1.m_fileIndex) := by
  have hstate : (run events (FolderSync.init maxRetries savedFolders)).state = s := by
    rw [hrun]; rfl
  have hnodup : s.m_watchedFolders.Nodup := by
    rw [← hstate]; exact run_nodup events _ List.nodup_nil
  have hinv : Inv s := by
    rw [← hstate]; exact run_inv events _ (inv_init maxRetries savedFolders)
  have hfree : s.m_syncMutex = false := run_free events _ s rfl hrun
  refine ⟨hnodup, fun fs p hp => ?_⟩
  obtain ⟨s1, h1, hw, hq, hi, _⟩ := removeFolder_watched fs p s hfree hp
  have hqueue : ∀ it ∈ s1.m_syncQueue, startsWith it.localPath p = false := by
    intro it hit
    rw [hq, List.mem_filter] at hit
    simpa using hit.2
  have hindex : ∀ e ∈ s1.m_fileIndex,
      startsWith e.1 p = false ∧ startsWith e.2.localPath p = false := by
    intro e he
    rw [hi, QHash.mem_foldl_remove] at he
    have hkey := hinv.keyed e he.1
    have hno : startsWith e.2.localPath p = false := by
      by_contra hst
      simp only [Bool.not_eq_false] at hst
      apply he.2
      simp only [List.mem_map, List.mem_filter]
      exact ⟨e, ⟨he.1, hst⟩, rfl⟩
    exact ⟨hkey ▸ hno, hno⟩
  refine ⟨s1, h1, ?_, ?_, hqueue, hindex, fun rest => ⟨?_, ?_⟩⟩
  · rw [hw]
    intro hin
    exact ((List.Nodup.mem_erase_iff hnodup).1 hin).1 rfl
  · rw [hw]; exact hnodup.erase p
  · intro hin
    simp only [queuePaths, List.mem_map] at hin
    obtain ⟨it, hit, hpath⟩ := hin
    have := hqueue it hit
    rw [hpath, startsWith_append] at this
    exact Bool.noConfusion this
  · intro hin
    simp only [QHash.keys, List.mem_map] at hin
    obtain ⟨e, he, hpath⟩ := hin
    have := (hindex e he).1
    rw [hpath, startsWith_append] at this
    exact Bool.noConfusion this

end FolderSync

namespace QHash

theorem value_insert_self (h : List (QString × SyncItem)) (k : QString) (v : SyncItem) :
    value (insert h k v) k = some v := by
  unfold insert
  split
  · rename_i hc
    simp only [value, List.find?_map]
    have hfun : ((fun e : QString × SyncItem => e.1 == k) ∘
        fun e : QString × SyncItem => if (e.1 == k) = true then (k, v) else e)
        = fun e : QString × SyncItem => e.1 == k := by
      funext e
      by_cases he : e.1 = k <;> simp [he]
    rw [hfun]
    obtain ⟨e, he, hk⟩ := (contains_iff h k).1 hc
    have hsome : (h.find? (fun e => e.1 == k)).isSome = true := by
      rw [List.find?_isSome]
      exact ⟨e, he, by simp [hk]⟩
    obtain ⟨e1, he1⟩ := Option.isSome_iff_exists.1 hsome
    have hk1 := List.find?_some he1
    simp only [he1, Option.map_some', hk1, ↓reduceIte]
  · rename_i hc
    simp only [Bool.not_eq_true] at hc
    have hnone : h.find? (fun e => e.1 == k) = none := by
      have := (value_eq_none_iff h k).2 hc
      simpa [value] using this
    simp [value, List.find?_append, hnone]

theorem value_insert_ne (h : List (QString × SyncItem)) {k q : QString} (v : SyncItem)
    (hq : q ≠ k) : value (insert h k v) q = value h q := by
  unfold insert
  split
  · simp only [value, List.find?_map]
    have hfun : ((fun e : QString × SyncItem => e.1 == q) ∘
        fun e : QString × SyncItem => if (e.1 == k) = true then (k, v) else e)
        = fun e : QString × SyncItem => e.1 == q := by
      funext e
      by_cases he : e.1 = k
      · simp only [Function.comp_apply, he, beq_self_eq_true, ↓reduceIte]
      · simp [he]
    rw [hfun]
    cases hf : h.find? (fun e => e.1 == q) with
    | none => rfl
    | some e1 =>
      have hk1 := List.find?_some hf
      simp only [beq_iff_eq] at hk1
      have : ¬ e1.1 = k := fun hk => hq (hk1 ▸ hk)
      simp [this]
  · have : ((k, v).1 == q) = false := by
      simp only [beq_eq_false_iff_ne, ne_eq]
      exact fun hk => hq hk.symm
    simp [value, List.find?_append, List.find?_cons, this]

end QHash

namespace FolderSync

/-! ## Scanning a file that has not changed -/

theorem scanFile_of_upToDate (fs : FileSystem) (p : QString) (s : FolderSync)
    (hfree : s.m_syncMutex = false) (hup : UpToDate fs s p) :
    scanFile fs p s = .returned s := by
  rw [scanFile, withSyncMutex_of_free _ hfree]
  cases hst : fs.stat p with
  | none => simp only [Outcome.andThen, unlock_lock s hfree]
  | some st =>
    by_cases hfile : st.isFile = true
    · by_cases hext : m_mediaExtensions.contains ("." ++ toLower (suffix p)) = true
      · obtain ⟨item, hval, hmod, hsize⟩ := hup st hst hfile hext
        simp only [hfile, hext, hval, hmod, hsize, bne_self_eq_false, Bool.or_self,
          Bool.not_true, Bool.false_eq_true, ↓reduceIte, Outcome.andThen, unlock_lock s hfree]
      · simp only [hfile, hext, Bool.not_true, Bool.not_false, Bool.false_eq_true, ↓reduceIte,
          Outcome.andThen, unlock_lock s hfree]
    · simp only [hfile, Bool.not_false, ↓reduceIte, Outcome.andThen, unlock_lock s hfree]

theorem state_withSyncMutex2 {P Q : FolderSync → Prop}
    (hP : ∀ s b, P s → P { s with m_syncMutex := b })
    (hQ : ∀ s b, Q s → Q { s with m_syncMutex := b }) {s : FolderSync}
    {body : FolderSync → Outcome FolderSync} (hs : P s) (hblocked : Q s)
    (hbody : ∀ s, P s → Q (body s).state) : Q (withSyncMutex s body).state := by
  unfold withSyncMutex
  split
  · exact hblocked
  · have h1 := hbody _ (hP s true hs)
    revert h1
    cases body { s with m_syncMutex := true } with
    | returned s1 => exact fun h1 => hQ s1 false h1
    | blocked s1 => exact fun h1 => h1
    | crashed s1 => exact fun h1 => h1

/-- The index after a scan of `p`: as before, or with the entry of `p` set to an item that
carries the current size and modification time. -/
theorem scanFile_index (fs : FileSystem) (p : QString) (s : FolderSync) :
    (scanFile fs p s).state.m_fileIndex = s.m_fileIndex ∨
      ∃ (st : FileStat) (item : SyncItem), fs.stat p = some st ∧ item.lastModified = st.lastModified
        ∧ item.fileSize = st.size
        ∧ (scanFile fs p s).state.m_fileIndex = QHash.insert s.m_fileIndex p item := by
  unfold scanFile
  refine state_withSyncMutex2 (P := fun t => t.m_fileIndex = s.m_fileIndex)
    (Q := fun t => t.m_fileIndex = s.m_fileIndex ∨
      ∃ (st : FileStat) (item : SyncItem), fs.stat p = some st ∧ item.lastModified = st.lastModified
        ∧ item.fileSize = st.size ∧ t.m_fileIndex = QHash.insert s.m_fileIndex p item)
    (fun _ _ h => h) (fun _ _ h => h) rfl (Or.inl rfl) (fun t ht => ?_)
  split
  · exact Or.inl ht
  · rename_i st hst
    split
    · exact Or.inl ht
    · split
      · exact Or.inl ht
      · split
        · rename_i existingItem _
          split
          · refine Or.inr ⟨st, { existingItem with
              lastModified := st.lastModified
              fileSize := st.size
              status := "Modified" }, hst, rfl, rfl, ?_⟩
            show QHash.insert t.m_fileIndex p _ = _
            rw [ht]
          · exact Or.inl ht
        · refine Or.inr ⟨st, SyncItem.ofPath fs p, hst, ?_, ?_, ?_⟩
          · simp only [SyncItem.ofPath, hst]
          · simp only [SyncItem.ofPath, hst]
          · show QHash.insert t.m_fileIndex p _ = _
            rw [ht]

/-- After a scan of `p` that returns, `p` needs no further scan. -/
theorem scanFile_upToDate (fs : FileSystem) (p : QString) (s s1 : FolderSync)
    (h : scanFile fs p s = .returned s1) : UpToDate fs s1 p := by
  have hfree : s.m_syncMutex = false := by
    unfold scanFile withSyncMutex at h
    split at h
    · cases h
    · simpa using ‹¬ s.m_syncMutex = true›
  intro st hst hfile hext
  rw [scanFile, withSyncMutex_of_free _ hfree] at h
  simp only [hst, hfile, hext, Bool.not_true, Bool.false_eq_true, ↓reduceIte] at h
  cases hval : QHash.value s.m_fileIndex p with
  | none =>
    simp only [hval, Outcome.andThen, Outcome.returned.injEq] at h
    subst h
    exact ⟨SyncItem.ofPath fs p, QHash.value_insert_self _ _ _,
      by simp only [SyncItem.ofPath, hst], by simp only [SyncItem.ofPath, hst]⟩
  | some item =>
    simp only [hval] at h
    by_cases hch : (item.lastModified != st.lastModified || item.fileSize != st.size) = true
    · simp only [hch, ↓reduceIte, Outcome.andThen, Outcome.returned.injEq] at h
      subst h
      exact ⟨_, QHash.value_insert_self _ _ _, rfl, rfl⟩
    · simp only [hch, ↓reduceIte, Outcome.andThen, Outcome.returned.injEq,
        Bool.false_eq_true] at h
      subst h
      simp only [Bool.or_eq_true, bne_iff_ne, ne_eq, not_or, not_not] at hch
      exact ⟨item, hval, hch.1, hch.2⟩

/-- A scan of `p` keeps every path up to date that was. -/
theorem scanFile_keeps_upToDate (fs : FileSystem) (p q : QString) (s : FolderSync)
    (hq : UpToDate fs s q) : UpToDate fs (scanFile fs p s).state q := by
  intro st hst hfile hext
  obtain ⟨item, hval, hmod, hsize⟩ := hq st hst hfile hext
  rcases scanFile_index fs p s with hi | ⟨st1, item1, hst1, hmod1, hsize1, hi⟩
  · rw [hi]; exact ⟨item, hval, hmod, hsize⟩
  · rw [hi]
    by_cases hpq : q = p
    · subst hpq
      rw [hst] at hst1
      cases hst1
      exact ⟨item1, QHash.value_insert_self _ _ _, hmod1, hsize1⟩
    · exact ⟨item, (QHash.value_insert_ne _ _ hpq).trans hval, hmod, hsize⟩

theorem forEach_scanFile_keeps_upToDate (fs : FileSystem) (q : QString) :
    ∀ (files : List QString) (s : FolderSync), UpToDate fs s q →
      UpToDate fs (forEach (scanFile fs) files s).state q :=
  fun files s h =>
    state_forEach (P := fun s => UpToDate fs s q)
      (fun x s hs => scanFile_keeps_upToDate fs x q s hs) files s h

theorem forEach_scanFile_upToDate (fs : FileSystem) :
    ∀ (files : List QString) (s s1 : FolderSync),
      forEach (scanFile fs) files s = .returned s1 → ∀ p ∈ files, UpToDate fs s1 p
  | [], _, _, _, p, hp => nomatch hp
  | x :: xs, s, s1, h, p, hp => by
    obtain ⟨s2, h2, h3⟩ := andThen_eq_returned h
    have hs1 : (forEach (scanFile fs) xs s2).state = s1 := by rw [h3]; rfl
    rcases List.mem_cons.1 hp with rfl | hp
    · rw [← hs1]
      exact forEach_scanFile_keeps_upToDate fs p xs s2 (scanFile_upToDate fs p s s2 h2)
    · exact forEach_scanFile_upToDate fs xs s2 s1 h3 p hp

theorem forEach_scanFile_of_upToDate (fs : FileSystem) (s : FolderSync)
    (hfree : s.m_syncMutex = false) :
    ∀ (files : List QString), (∀ p ∈ files, UpToDate fs s p) →
      forEach (scanFile fs) files s = .returned s
  | [], _ => rfl
  | x :: xs, h => by
    simp only [forEach, scanFile_of_upToDate fs x s hfree (h x (List.mem_cons_self _ _)),
      Outcome.andThen]
    exact forEach_scanFile_of_upToDate fs s hfree xs
      (fun p hp => h p (List.mem_cons_of_mem _ hp))

/-- C2. No re-enqueue of unchanged files: called from outside a critical section, scanFile
on a path whose index entry carries the current size and modification time of the file
returns and leaves the whole state, in particular the sync queue and the file index,
unchanged; hence a scan of a folder that follows a completed scan of the same folder,
with no change of the file system in between, returns the state it started from and
enqueues nothing. -/
theorem C2_no_reenqueue_of_unchanged (fs : FileSystem) (s : FolderSync)
    (hfree : s.m_syncMutex = false) :
    (∀ (p : QString) (item : SyncItem), QHash.value s.m_fileIndex p = some item →
        (∀ st, fs.stat p = some st →
          item.fileSize = st.size ∧ item.lastModified = st.lastModified) →
        scanFile fs p s = .returned s) ∧
    (∀ (folderPath : QString) (s1 : FolderSync), scanFolder fs folderPath s = .returned s1 →
        scanFolder fs folderPath s1 = .returned s1) := by
  constructor
  · intro p item hval hsame
    refine scanFile_of_upToDate fs p s hfree (fun st hst _ _ => ?_)
    exact ⟨item, hval, (hsame st hst).2, (hsame st hst).1⟩
  · intro folderPath s1 h
    exact forEach_scanFile_of_upToDate fs s1 (scanFolder_free fs folderPath s s1 hfree h) _
      (forEach_scanFile_upToDate fs _ s s1 h)

open Example

/-- C6, at an instance: in the example state, which watches `/a` and `/a/b`, adding `/a`
again and removing the unwatched `/c` both return the state unchanged. -/
theorem C6_folder_operations_idempotent_witness :
    addFolder mediaTree "/a" tracking = .returned tracking ∧
    removeFolder mediaTree "/c" tracking = .returned tracking :=
  ⟨(C6_folder_operations_idempotent mediaTree "/a" tracking (by decide)).1 (by decide),
   (C6_folder_operations_idempotent mediaTree "/c" tracking (by decide)).2 (by decide)⟩

/-- C5, at an instance: the example state is reached by a run, and removing `/a/b` from it
leaves no queued path that starts with `/a/b`. -/
theorem C5_removeFolder_purges_witness :
    run watchBoth (FolderSync.init 3 []) = .returned tracking ∧
    ∃ s1, removeFolder mediaTree "/a/b" tracking = .returned s1 ∧ "/a/b" ∉ s1.m_watchedFolders
      ∧ ∀ it ∈ s1.m_syncQueue, startsWith it.localPath "/a/b" = false := by
  refine ⟨by decide, ?_⟩
  obtain ⟨s1, h1, h2, _, h4, _⟩ :=
    (C5_removeFolder_purges 3 [] watchBoth tracking (by decide)).2 mediaTree "/a/b" (by decide)
  exact ⟨s1, h1, h2, h4⟩

/-- C2, at an instance: in the example state the index entry of `/a/x.mp4` carries the size
and time of the file, and scanning the file, or the folder `/a` once more, changes
nothing. -/
theorem C2_no_reenqueue_of_unchanged_witness :
    scanFile mediaTree "/a/x.mp4" tracking = .returned tracking ∧
    scanFolder mediaTree "/a" tracking = .returned tracking :=
  ⟨(C2_no_reenqueue_of_unchanged mediaTree tracking (by decide)).1 "/a/x.mp4"
      (SyncItem.ofPath mediaTree "/a/x.mp4") (by decide)
      (fun st hst => by
        have : st = fileStat 10 1 := by
          have h : mediaTree.stat "/a/x.mp4" = some (fileStat 10 1) := by decide
          rw [h] at hst
          exact (Option.some.inj hst).symm
        subst this
        decide),
   (C2_no_reenqueue_of_unchanged mediaTree tracking (by decide)).2 "/a" tracking (by decide)⟩

end FolderSync

theorem get?_modifyAt_self {α : Type} (f : α → α) :
    ∀ (i : Nat) (l : List α), (modifyAt f i l).get? i = (l.get? i).map f
  | i, [] => by cases i <;> rfl
  | 0, a :: l => rfl
  | n + 1, a :: l => by
    simp only [modifyAt, List.get?_cons_succ]
    exact get?_modifyAt_self f n l

theorem get?_modifyAt_ne {α : Type} (f : α → α) :
    ∀ (i j : Nat) (l : List α), i ≠ j → (modifyAt f i l).get? j = l.get? j
  | i, j, [], _ => by cases i <;> rfl
  | 0, 0, a :: l, h => absurd rfl h
  | 0, j + 1, a :: l, _ => rfl
  | n + 1, 0, a :: l, _ => rfl
  | n + 1, j + 1, a :: l, h => by
    simp only [modifyAt, List.get?_cons_succ]
    exact get?_modifyAt_ne f n j l (fun hn => h (by rw [hn]))

theorem mem_modifyAt {α : Type} (f : α → α) :
    ∀ (i : Nat) (l : List α) (x : α), x ∈ modifyAt f i l → x ∈ l ∨ ∃ a ∈ l, x = f a
  | i, [], x, h => by cases i <;> cases h
  | 0, a :: l, x, h => by
    rcases List.mem_cons.1 h with rfl | h
    · exact Or.inr ⟨a, List.mem_cons_self _ _, rfl⟩
    · exact Or.inl (List.mem_cons_of_mem _ h)
  | n + 1, a :: l, x, h => by
    rcases List.mem_cons.1 h with rfl | h
    · exact Or.inl (List.mem_cons_self _ _)
    · rcases mem_modifyAt f n l x h with h1 | ⟨b, hb, rfl⟩
      · exact Or.inl (List.mem_cons_of_mem _ h1)
      · exact Or.inr ⟨b, List.mem_cons_of_mem _ hb, rfl⟩

namespace FolderSync

theorem nextItemIndex_some {q : List SyncItem} {i : Nat} (h : nextItemIndex q = some i) :
    ∃ item, q.get? i = some item ∧ eligible item = true
      ∧ ∀ j, j < i → ∀ it, q.get? j = some it → eligible it = false := by
  induction q generalizing i with
  | nil => cases h
  | cons a q ih =>
    simp only [nextItemIndex] at h
    split at h
    · rename_i ha
      cases h
      exact ⟨a, rfl, ha, fun j hj => absurd hj (Nat.not_lt_zero j)⟩
    · rename_i ha
      cases hq : nextItemIndex q with
      | none => simp [hq] at h
      | some k =>
        simp only [hq, Option.map_some', Option.some.injEq] at h
        subst h
        obtain ⟨item, hget, hel, hbefore⟩ := ih hq
        refine ⟨item, hget, hel, fun j hj it hit => ?_⟩
        cases j with
        | zero =>
          simp only [List.get?_cons_zero, Option.some.injEq] at hit
          subst hit
          simpa using ha
        | succ j => exact hbefore j (Nat.lt_of_succ_lt_succ hj) it hit

theorem nextItemIndex_none {q : List SyncItem} (h : nextItemIndex q = none) :
    ∀ it ∈ q, eligible it = false := by
  induction q with
  | nil => intro it hit; cases hit
  | cons a q ih =>
    simp only [nextItemIndex] at h
    split at h
    · cases h
    · rename_i ha
      have hq : nextItemIndex q = none := by
        cases hq : nextItemIndex q with
        | none => rfl
        | some k => simp [hq] at h
      intro it hit
      rcases List.mem_cons.1 hit with rfl | hit
      · simpa using ha
      · exact ih hq it hit

/-! ## What processSyncQueue does when no sync is in progress -/

theorem processSyncQueue_none (fs : FileSystem) (s : FolderSync)
    (hfree : s.m_syncMutex = false) (hidle : s.m_isSyncing = false)
    (hnext : nextItemIndex s.m_syncQueue = none) :
    processSyncQueue fs s = .returned (emit s .syncFinished) := by
  unfold processSyncQueue
  by_cases hq : s.m_syncQueue.isEmpty = true
  · simp only [hidle, hq, Bool.or_true, ↓reduceIte]
  · simp only [hidle, hq, Bool.or_self, Bool.false_eq_true, ↓reduceIte]
    rw [withSyncMutex_of_free _ hfree]
    simp only [hnext, Outcome.andThen, emit]
    cases s
    simp_all

theorem processSyncQueue_some (fs : FileSystem) (s : FolderSync)
    (hfree : s.m_syncMutex = false) (hidle : s.m_isSyncing = false)
    {i : Nat} {item : SyncItem} (hnext : nextItemIndex s.m_syncQueue = some i)
    (hitem : s.m_syncQueue.get? i = some item) :
    processSyncQueue fs s =
      let nextItem : SyncItem := { item with status := "Syncing" }
      let s1 : FolderSync := { s with
        m_isSyncing := true
        m_syncQueue := modifyAt (fun it => { it with status := "Syncing" }) i s.m_syncQueue }
      let s2 := if nextItem.isDirectory then createDirectory nextItem s1
        else uploadFile fs nextItem s1
      .returned (emit s2 (.itemStatusChanged (indexOf s2.m_syncQueue nextItem) "Syncing")) := by
  unfold processSyncQueue
  have hq : s.m_syncQueue.isEmpty = false := by
    cases hs : s.m_syncQueue with
    | nil => rw [hs] at hitem; cases hitem
    | cons a l => rfl
  simp only [hidle, hq, Bool.or_self, Bool.false_eq_true, ↓reduceIte]
  rw [withSyncMutex_of_free _ hfree]
  simp only [hnext, get?_modifyAt_self, hitem, Option.map_some', Outcome.andThen]
  by_cases hdir : item.isDirectory = true
  · simp only [hdir, ↓reduceIte, createDirectory, emit]
    cases s
    simp_all
  · simp only [hdir, Bool.false_eq_true, ↓reduceIte, uploadFile, updateItemStatus, emit]
    cases s
    simp_all only [Bool.not_eq_true]
    split <;> [split; skip] <;> rfl

open Example

/-! ## Completion of a reply without error -/

/-- C8, as stated, fails: in the example state the upload of `/a/x.mp4` is in flight; when
its reply finishes without error the item is still in the queue and its status is still
`Syncing`, not `Completed`. -/
theorem C8_counterexample :
    syncing.m_currentReply = some (.upload "/a/x.mp4") ∧
    (onNetworkReplyFinished mediaTree false syncing).state.m_syncQueue.map
        (fun it => (it.localPath, it.status))
      = [("/a/x.mp4", "Syncing"), ("/a/b/y.mp4", "Syncing")] := by
  decide

/-- C8, amended. When the reply of the item being synced finishes without error (the call
coming from outside a critical section), onNetworkReplyFinished returns; the retry counter
is 0; no item leaves the queue, and every item of the queue is an item of the old queue or
has status `Syncing` or `File not found`, so that none is newly `Completed`; if no item is
`Pending` or `Modified` the queue is unchanged, the engine is idle without a request and
syncFinished is emitted; otherwise the first such item in queue order, when it is a
directory or its file exists, is the one dispatched: it alone changes, to `Syncing`, the
engine is syncing and the request in flight is the one of that item. -/
theorem C8_success_transition (fs : FileSystem) (s : FolderSync) (r : Request)
    (hreply : s.m_currentReply = some r) (hfree : s.m_syncMutex = false) :
    ∃ s1, onNetworkReplyFinished fs false s = .returned s1
      ∧ s1.m_currentRetries = 0
      ∧ queuePaths s1.m_syncQueue = queuePaths s.m_syncQueue
      ∧ (∀ it ∈ s1.m_syncQueue,
          it ∈ s.m_syncQueue ∨ it.status = "Syncing" ∨ it.status = "File not found")
      ∧ (nextItemIndex s.m_syncQueue = none →
          s1.m_syncQueue = s.m_syncQueue ∧ s1.m_isSyncing = false ∧ s1.m_currentReply = none
            ∧ s1.emitted = s.emitted ++ [.syncFinished])
      ∧ (∀ (i : Nat) (item : SyncItem), nextItemIndex s.m_syncQueue = some i →
          s.m_syncQueue.get? i = some item →
          eligible item = true
          ∧ (∀ j, j < i → ∀ it, s.m_syncQueue.get? j = some it → eligible it = false)
          ∧ (item.isDirectory = true ∨ fs.fileExists item.localPath = true →
              s1.m_isSyncing = true
              ∧ s1.m_syncQueue
                  = modifyAt (fun it => { it with status := "Syncing" }) i s.m_syncQueue
              ∧ s1.m_currentReply =
                  some (if item.isDirectory then .createDirectory item.localPath
                    else .upload item.localPath))) := by
  have hstep : onNetworkReplyFinished fs false s =
      processSyncQueue fs
        { s with m_currentRetries := 0, m_currentReply := none, m_isSyncing := false } := by
    simp only [onNetworkReplyFinished, hreply, Bool.not_false, ↓reduceIte]
  rw [hstep]
  cases hnext : nextItemIndex s.m_syncQueue with
  | none =>
    refine ⟨_, processSyncQueue_none fs
      { s with m_currentRetries := 0, m_currentReply := none, m_isSyncing := false }
      hfree rfl hnext, rfl, rfl, fun it hit => Or.inl hit,
      fun _ => ⟨rfl, rfl, rfl, rfl⟩, fun i item hi => (by cases hi)⟩
  | some i =>
    obtain ⟨item, hitem, hel, hbefore⟩ := nextItemIndex_some hnext
    refine ⟨_, processSyncQueue_some fs
      { s with m_currentRetries := 0, m_currentReply := none, m_isSyncing := false }
      hfree rfl hnext hitem, ?_, ?_, ?_, fun h => (by cases h), ?_⟩
    · dsimp only [emit]
      split
      · rfl
      · simp only [uploadFile, updateItemStatus, emit]
        split <;> [split; skip] <;> rfl
    · dsimp only [emit]
      split
      · exact queuePaths_setStatus _ _ _
      · simp only [uploadFile, updateItemStatus, emit]
        split <;> [split; skip]
        · exact (queuePaths_setStatus _ _ _).trans (queuePaths_setStatus _ _ _)
        · exact queuePaths_setStatus _ _ _
        · exact queuePaths_setStatus _ _ _
    · have hsync : ∀ it ∈ modifyAt (fun it : SyncItem => { it with status := "Syncing" }) i
          s.m_syncQueue, it ∈ s.m_syncQueue ∨ it.status = "Syncing" ∨
            it.status = "File not found" := by
        intro it hit
        rcases mem_modifyAt _ _ _ _ hit with h | ⟨a, _, rfl⟩
        · exact Or.inl h
        · exact Or.inr (Or.inl rfl)
      dsimp only [emit]
      split
      · exact hsync
      · simp only [uploadFile, updateItemStatus, emit]
        split <;> [split; skip]
        · intro it hit
          rcases mem_modifyAt _ _ _ _ hit with h | ⟨a, _, rfl⟩
          · exact hsync it h
          · exact Or.inr (Or.inr rfl)
        · exact hsync
        · exact hsync
    · intro i1 item1 hi1 hitem1
      cases hi1
      rw [hitem] at hitem1
      cases hitem1
      refine ⟨hel, hbefore, fun hok => ?_⟩
      dsimp only [emit]
      by_cases hdir : item.isDirectory = true
      · simp only [hdir, ↓reduceIte, createDirectory, and_self]
      · have hex : fs.fileExists item.localPath = true := by
          rcases hok with h | h
          · exact absurd h hdir
          · exact h
        simp only [hdir, Bool.false_eq_true, ↓reduceIte, uploadFile, hex, Bool.not_true,
          and_self]

/-- C8, at an instance: in the example state the reply of `/a/x.mp4` finishes without
error; the call returns with retry counter 0 and the request of the next item in flight. -/
theorem C8_success_transition_witness :
    ∃ s1, onNetworkReplyFinished mediaTree false syncing = .returned s1
      ∧ s1.m_currentRetries = 0 ∧ s1.m_currentReply = some (.upload "/a/b/y.mp4") := by
  obtain ⟨s1, h1, h2, _, _, _, h6⟩ :=
    C8_success_transition mediaTree syncing (.upload "/a/x.mp4") (by decide) (by decide)
  have h7 := (h6 1 (SyncItem.ofPath mediaTree "/a/b/y.mp4") (by decide) (by decide)).2.2
    (Or.inr (by decide))
  exact ⟨s1, h1, h2, h7.2.2.trans (by decide)⟩

/-! ## A change of a file that is already queued -/

/-- C7, evaluated at the failing input: `/a/x.mp4` is queued (size 10, time 1, `Pending`)
and the file is rewritten (size 11, time 2). The file notification updates the index entry
to the new size, time and status `Modified`, but the queued item keeps the old size, the
old time and its old status. The same after the uploads have completed: the queued item
stays `Syncing` with the old size, and a forced sync dispatches nothing. -/
theorem C7_queued_item_not_updated :
    summary tracking.m_syncQueue
        = [("/a/x.mp4", 10, 1, "Pending"), ("/a/b/y.mp4", 20, 1, "Pending")]
    ∧ (onFileChanged modifiedTree "/a/x.mp4" tracking).isReturned = true
    ∧ summary (onFileChanged modifiedTree "/a/x.mp4" tracking).state.m_syncQueue
        = [("/a/x.mp4", 10, 1, "Pending"), ("/a/b/y.mp4", 20, 1, "Pending")]
    ∧ summary ((onFileChanged modifiedTree "/a/x.mp4" tracking).state.m_fileIndex.map
          (fun e => e.2))
        = [("/a/x.mp4", 11, 2, "Modified"), ("/a/b/y.mp4", 20, 1, "Pending")]
    ∧ summary uploadedBoth.m_syncQueue
        = [("/a/x.mp4", 10, 1, "Syncing"), ("/a/b/y.mp4", 20, 1, "Syncing")]
    ∧ summary (run [.onFileChanged modifiedTree "/a/x.mp4", .forceSync modifiedTree]
          uploadedBoth).state.m_syncQueue
        = [("/a/x.mp4", 10, 1, "Syncing"), ("/a/b/y.mp4", 20, 1, "Syncing")]
    ∧ (run [.onFileChanged modifiedTree "/a/x.mp4", .forceSync modifiedTree]
          uploadedBoth).state.m_currentReply = none := by
  decide

/-! ## Completion of a reply with an error -/

/-- C9, evaluated at the failing input: the upload of `/a/x.mp4` is in flight with retry
counter 0 of 3 and `/a/b/y.mp4` is `Pending`; the reply finishes with an error. A timer of
2000 ms is scheduled and the counter becomes 1, but the failed item keeps status `Syncing`
and the other item is dispatched at once in its place. When the timer fires during that
upload nothing happens; when it fires after that upload has finished, nothing is
dispatched either: the failed item is not sent again. -/
theorem C9_failed_item_not_redispatched :
    syncing.m_currentReply = some (.upload "/a/x.mp4")
    ∧ syncing.m_currentRetries = 0 ∧ syncing.m_maxRetries = 3
    ∧ (onNetworkReplyFinished mediaTree true syncing).isReturned = true
    ∧ afterFailure.singleShots = [2000] ∧ afterFailure.m_currentRetries = 1
    ∧ summary afterFailure.m_syncQueue
        = [("/a/x.mp4", 10, 1, "Syncing"), ("/a/b/y.mp4", 20, 1, "Syncing")]
    ∧ afterFailure.m_currentReply = some (.upload "/a/b/y.mp4")
    ∧ (onSingleShot mediaTree 0 afterFailure).state.m_currentReply
        = some (.upload "/a/b/y.mp4")
    ∧ (run [.onNetworkReplyFinished mediaTree false, .onSingleShot mediaTree 0]
          afterFailure).isReturned = true
    ∧ (run [.onNetworkReplyFinished mediaTree false, .onSingleShot mediaTree 0]
          afterFailure).state.m_currentReply = none
    ∧ summary (run [.onNetworkReplyFinished mediaTree false, .onSingleShot mediaTree 0]
          afterFailure).state.m_syncQueue
        = [("/a/x.mp4", 10, 1, "Syncing"), ("/a/b/y.mp4", 20, 1, "Syncing")] := by
  decide

open Example

/-! ## Folder calls and the tracked set -/

/-- Removal of a nested folder: the example state, reached by a run with directory
notifications, watches `/a` and `/a/b` and tracks exactly the two media files under them;
after the single call removeFolder(`/a/b`), `/a` is still watched and `/a/b/y.mp4` is a
qualifying file under `/a`, but it is in neither the index nor the queue. -/
theorem nested_removal_drops_watched_file :
    run watchBoth (FolderSync.init 3 []) = .returned tracking
    ∧ TrackedExactly mediaTree tracking
    ∧ (runCalls mediaTree [.remove "/a/b"] tracking).isReturned = true
    ∧ (runCalls mediaTree [.remove "/a/b"] tracking).state.m_watchedFolders = ["/a"]
    ∧ "/a/b/y.mp4" ∈ qualifyingUnder mediaTree "/a"
    ∧ "/a/b/y.mp4" ∉ QHash.keys (runCalls mediaTree [.remove "/a/b"] tracking).state.m_fileIndex
    ∧ "/a/b/y.mp4" ∉ queuePaths (runCalls mediaTree [.remove "/a/b"] tracking).state.m_syncQueue
    ∧ ¬ TrackedExactly mediaTree (runCalls mediaTree [.remove "/a/b"] tracking).state := by
  decide

theorem state_withSyncMutex_held {Q : FolderSync → Prop}
    (hQ : ∀ s b, Q s → Q { s with m_syncMutex := b }) {s : FolderSync}
    {body : FolderSync → Outcome FolderSync} (hs : Q s)
    (hbody : Q (body { s with m_syncMutex := true }).state) :
    Q (withSyncMutex s body).state := by
  unfold withSyncMutex
  split
  · exact hs
  · revert hbody
    cases body { s with m_syncMutex := true } with
    | returned s1 => exact fun h1 => hQ s1 false h1
    | blocked s1 => exact fun h1 => h1
    | crashed s1 => exact fun h1 => h1

theorem scanFile_of_held (fs : FileSystem) (p : QString) (s : FolderSync)
    (hheld : s.m_syncMutex = true) : scanFile fs p s = .blocked s := by
  simp only [scanFile, withSyncMutex, hheld, ↓reduceIte]

theorem scanFolder_state_of_held (fs : FileSystem) (p : QString) (s : FolderSync)
    (hheld : s.m_syncMutex = true) : (scanFolder fs p s).state = s := by
  unfold scanFolder
  cases fs.files p with
  | nil => rfl
  | cons x xs => simp only [forEach, scanFile_of_held fs x s hheld, Outcome.andThen, Outcome.state]

theorem addFolder_noOrphan (fs : FileSystem) (p : QString) (s : FolderSync)
    (hs : Inv s ∧ NoOrphan fs s) : Inv (addFolder fs p s).state ∧
      NoOrphan fs (addFolder fs p s).state := by
  refine ⟨addFolder_inv fs p s hs.1, ?_⟩
  unfold addFolder
  refine state_withSyncMutex_held (Q := NoOrphan fs) (fun _ _ h => h) hs.2 ?_
  dsimp only
  split
  · exact hs.2
  · have hmono : NoOrphan fs
        { s with
          m_syncMutex := true
          m_watchedFolders := s.m_watchedFolders ++ [p]
          m_fileWatcher := addPath s.m_fileWatcher p } := by
      refine ⟨fun k hk => ?_, fun k hk => ?_⟩
      · obtain ⟨w, hw, hkw⟩ := hs.2.1 k hk
        exact ⟨w, List.mem_append_left _ hw, hkw⟩
      · obtain ⟨w, hw, hkw⟩ := hs.2.2 k hk
        exact ⟨w, List.mem_append_left _ hw, hkw⟩
    refine state_andThen (P := NoOrphan fs) ?_ (fun t ht => ht)
    rw [scanFolder_state_of_held fs p _ rfl]
    exact hmono

theorem removeFolder_noOrphan (fs : FileSystem)
    (hfs : ∀ folderPath p, p ∈ fs.files folderPath → startsWith p folderPath = true)
    (p : QString) (s : FolderSync) (hs : Inv s ∧ NoOrphan fs s) :
    Inv (removeFolder fs p s).state ∧ NoOrphan fs (removeFolder fs p s).state := by
  refine ⟨removeFolder_inv fs p s hs.1, ?_⟩
  unfold removeFolder
  refine state_withSyncMutex_held (Q := NoOrphan fs) (fun _ _ h => h) hs.2 ?_
  dsimp only
  split
  · exact hs.2
  · have hunder : ∀ k w, w ∈ s.m_watchedFolders → k ∈ qualifyingUnder fs w →
        startsWith k p = false → ∃ w ∈ s.m_watchedFolders.erase p, k ∈ qualifyingUnder fs w := by
      intro k w hw hkw hk
      refine ⟨w, (List.mem_erase_of_ne ?_).2 hw, hkw⟩
      rintro rfl
      rw [hfs w k (List.mem_filter.1 hkw).1] at hk
      exact Bool.noConfusion hk
    refine ⟨fun k hk => ?_, fun k hk => ?_⟩
    · have hk1 : k ∈ QHash.keys (List.foldl QHash.remove s.m_fileIndex
          ((s.m_fileIndex.filter (fun e => startsWith e.2.localPath p)).map (fun e => e.1))) := hk
      simp only [QHash.keys, List.mem_map] at hk1
      obtain ⟨e, he, rfl⟩ := hk1
      rw [QHash.mem_foldl_remove] at he
      obtain ⟨w, hw, hkw⟩ := hs.2.1 e.1 (List.mem_map.2 ⟨e, he.1, rfl⟩)
      refine hunder e.1 w hw hkw ?_
      by_contra hst
      simp only [Bool.not_eq_false] at hst
      apply he.2
      simp only [List.mem_map, List.mem_filter]
      exact ⟨e, ⟨he.1, by rw [hs.1.keyed e he.1]; exact hst⟩, rfl⟩
    · have hk1 : k ∈ queuePaths
          (s.m_syncQueue.filter (fun item => !startsWith item.localPath p)) := hk
      simp only [queuePaths, List.mem_map, List.mem_filter] at hk1
      obtain ⟨it, ⟨hit, hst⟩, rfl⟩ := hk1
      obtain ⟨w, hw, hkw⟩ := hs.2.2 it.localPath (List.mem_map.2 ⟨it, hit, rfl⟩)
      exact hunder it.localPath w hw hkw (by simpa using hst)

theorem addFolder_tracked (fs : FileSystem) (p : QString) (s : FolderSync) :
    (addFolder fs p s).state.m_fileIndex = s.m_fileIndex ∧
      (addFolder fs p s).state.m_syncQueue = s.m_syncQueue := by
  unfold addFolder
  refine state_withSyncMutex_held
    (Q := fun t => t.m_fileIndex = s.m_fileIndex ∧ t.m_syncQueue = s.m_syncQueue)
    (fun _ _ h => h) ⟨rfl, rfl⟩ ?_
  dsimp only
  split
  · exact ⟨rfl, rfl⟩
  · refine state_andThen
      (P := fun t => t.m_fileIndex = s.m_fileIndex ∧ t.m_syncQueue = s.m_syncQueue) ?_
      (fun t ht => ht)
    rw [scanFolder_state_of_held fs p _ rfl]
    exact ⟨rfl, rfl⟩

theorem removeFolder_keeps (fs : FileSystem) (p : QString) (s : FolderSync) (hs : Inv s)
    (k : QString) (hk : startsWith k p = false) :
    (k ∈ QHash.keys s.m_fileIndex → k ∈ QHash.keys (removeFolder fs p s).state.m_fileIndex) ∧
    (k ∈ queuePaths s.m_syncQueue → k ∈ queuePaths (removeFolder fs p s).state.m_syncQueue) := by
  unfold removeFolder
  refine state_withSyncMutex_held
    (Q := fun t => (k ∈ QHash.keys s.m_fileIndex → k ∈ QHash.keys t.m_fileIndex) ∧
      (k ∈ queuePaths s.m_syncQueue → k ∈ queuePaths t.m_syncQueue))
    (fun _ _ h => h) ⟨fun h => h, fun h => h⟩ ?_
  dsimp only
  split
  · exact ⟨fun h => h, fun h => h⟩
  · refine ⟨fun hin => ?_, fun hin => ?_⟩
    · simp only [QHash.keys, List.mem_map] at hin
      obtain ⟨e, he, rfl⟩ := hin
      show e.1 ∈ QHash.keys (List.foldl QHash.remove s.m_fileIndex _)
      simp only [QHash.keys, List.mem_map]
      refine ⟨e, (QHash.mem_foldl_remove _ _ _).2 ⟨he, ?_⟩, rfl⟩
      simp only [List.mem_map, List.mem_filter, not_exists, not_and, and_imp]
      intro e1 he1 hst heq
      rw [hs.keyed e1 he1, heq, hk] at hst
      exact Bool.noConfusion hst
    · simp only [queuePaths, List.mem_map] at hin
      obtain ⟨it, hit, rfl⟩ := hin
      show it.localPath ∈ queuePaths (List.filter _ s.m_syncQueue)
      simp only [queuePaths, List.mem_map, List.mem_filter]
      exact ⟨it, ⟨hit, by simp [hk]⟩, rfl⟩

theorem runCalls_keeps (fs : FileSystem) (k : QString) :
    ∀ (calls : List FolderCall) (s : FolderSync), Inv s →
      (∀ p, FolderCall.remove p ∈ calls → startsWith k p = false) →
      (k ∈ QHash.keys s.m_fileIndex → k ∈ QHash.keys (runCalls fs calls s).state.m_fileIndex) ∧
      (k ∈ queuePaths s.m_syncQueue → k ∈ queuePaths (runCalls fs calls s).state.m_syncQueue)
  | [], _, _, _ => ⟨fun h => h, fun h => h⟩
  | c :: cs, s, hs, hk => by
    have hstep : Inv (c.apply fs s).state ∧
        (k ∈ QHash.keys s.m_fileIndex → k ∈ QHash.keys (c.apply fs s).state.m_fileIndex) ∧
        (k ∈ queuePaths s.m_syncQueue → k ∈ queuePaths (c.apply fs s).state.m_syncQueue) := by
      cases c with
      | add p =>
        refine ⟨addFolder_inv fs p s hs, ?_⟩
        simp only [FolderCall.apply, (addFolder_tracked fs p s).1, (addFolder_tracked fs p s).2]
        exact ⟨fun h => h, fun h => h⟩
      | remove p =>
        exact ⟨removeFolder_inv fs p s hs,
          removeFolder_keeps fs p s hs k (hk p (List.mem_cons_self _ _))⟩
    have hrest := fun t ht => runCalls_keeps fs k cs t ht
      (fun p hp => hk p (List.mem_cons_of_mem _ hp))
    simp only [runCalls, forEach] at hrest ⊢
    revert hstep
    cases c.apply fs s with
    | returned t =>
      intro hstep
      exact ⟨fun h => (hrest t hstep.1).1 (hstep.2.1 h), fun h => (hrest t hstep.1).2 (hstep.2.2 h)⟩
    | blocked t => exact fun hstep => hstep.2
    | crashed t => exact fun hstep => hstep.2

/-- No tracked path outlives its folder. Over a fixed file system, in which every file found
under a folder has a path that starts with the path of the folder, let the engine be in a
state where a run of events has ended and in which every tracked path (key of the file
index, path of a queued item) is a qualifying media file under a watched folder. Then at
the state in which any sequence of addFolder and removeFolder calls ends, every tracked
path is again a qualifying media file under a watched folder. And a path that was tracked
stays tracked unless the path of a removed folder is a prefix of it. -/
theorem no_orphan_after_folder_calls (fs : FileSystem)
    (hfs : ∀ folderPath p, p ∈ fs.files folderPath → startsWith p folderPath = true)
    (maxRetries : Int) (savedFolders : List QString) (events : List Event)
    (horphan : NoOrphan fs (run events (FolderSync.init maxRetries savedFolders)).state)
    (calls : List FolderCall) :
    NoOrphan fs
      (runCalls fs calls (run events (FolderSync.init maxRetries savedFolders)).state).state
    ∧ ∀ k, (∀ p, FolderCall.remove p ∈ calls → startsWith k p = false) →
        (k ∈ QHash.keys (run events (FolderSync.init maxRetries savedFolders)).state.m_fileIndex →
          k ∈ QHash.keys (runCalls fs calls
            (run events (FolderSync.init maxRetries savedFolders)).state).state.m_fileIndex)
        ∧ (k ∈ queuePaths (run events (FolderSync.init maxRetries savedFolders)).state.m_syncQueue →
          k ∈ queuePaths (runCalls fs calls
            (run events (FolderSync.init maxRetries savedFolders)).state).state.m_syncQueue) := by
  have hinv := run_inv events _ (inv_init maxRetries savedFolders)
  refine ⟨?_, fun k hk => runCalls_keeps fs k calls _ hinv hk⟩
  refine (state_forEach (P := fun s => Inv s ∧ NoOrphan fs s) (fun c s hs => ?_) calls _
    ⟨hinv, horphan⟩).2
  cases c with
  | add p => exact addFolder_noOrphan fs p s hs
  | remove p => exact removeFolder_noOrphan fs hfs p s hs

theorem mediaTree_files_under (folderPath p : QString)
    (h : p ∈ mediaTree.files folderPath) : startsWith p folderPath = true := by
  simp only [mediaTree] at h
  split at h
  · subst folderPath
    simp only [List.mem_cons, List.mem_singleton, List.not_mem_nil, or_false] at h
    rcases h with rfl | rfl <;> decide
  · split at h
    · subst folderPath
      simp only [List.mem_singleton] at h
      subst h
      decide
    · cases h

/-- The statement `no_orphan_after_folder_calls` at an instance: after removeFolder(`/a/b`)
in the example state every tracked path is under a watched folder, and `/a/x.mp4` is
still tracked. -/
theorem no_orphan_after_folder_calls_example :
    NoOrphan mediaTree tracking
    ∧ NoOrphan mediaTree (runCalls mediaTree [.remove "/a/b"] tracking).state
    ∧ "/a/x.mp4" ∈ QHash.keys (runCalls mediaTree [.remove "/a/b"] tracking).state.m_fileIndex :=
  have h := no_orphan_after_folder_calls mediaTree mediaTree_files_under 3 [] watchBoth
    (by decide) [.remove "/a/b"]
  ⟨by decide, h.1, (h.2 "/a/x.mp4" (fun p hp => by
    simp only [List.mem_singleton, FolderCall.remove.injEq] at hp
    subst hp
    decide)).1 (by decide)⟩

theorem removeFolder_untracked (fs : FileSystem) (p : QString) (s : FolderSync)
    (hs : s.m_fileIndex = [] ∧ s.m_syncQueue = []) :
    (removeFolder fs p s).state.m_fileIndex = [] ∧
      (removeFolder fs p s).state.m_syncQueue = [] := by
  unfold removeFolder
  refine state_withSyncMutex_held (Q := fun t => t.m_fileIndex = [] ∧ t.m_syncQueue = [])
    (fun _ _ h => h) hs ?_
  dsimp only
  split
  · exact hs
  · refine ⟨?_, ?_⟩
    · show List.foldl QHash.remove s.m_fileIndex _ = []
      rw [hs.1]
      rfl
    · show List.filter _ s.m_syncQueue = []
      rw [hs.2]
      rfl

/-- Calls of addFolder and removeFolder on a fresh engine never track a file. -/
theorem runCalls_untracked (fs : FileSystem) (calls : List FolderCall) (s : FolderSync)
    (hs : s.m_fileIndex = [] ∧ s.m_syncQueue = []) :
    (runCalls fs calls s).state.m_fileIndex = [] ∧ (runCalls fs calls s).state.m_syncQueue = [] := by
  refine state_forEach (P := fun t => t.m_fileIndex = [] ∧ t.m_syncQueue = [])
    (fun c t ht => ?_) calls s hs
  cases c with
  | add p =>
    have h := addFolder_tracked fs p t
    exact ⟨h.1.trans ht.1, h.2.trans ht.2⟩
  | remove p => exact removeFolder_untracked fs p t ht

/-- C4, evaluated at the failing input: over the file system with the folders `/a` and
`/a/b` and the media files `/a/x.mp4` and `/a/b/y.mp4`, addFolder(`/a/b`) is called on a
fresh engine. The call takes m_syncMutex, puts `/a/b` into the watch list and calls
scanFolder, whose call of scanFile for `/a/b/y.mp4` asks for the same mutex: the call
does not return, and `/a/b/y.mp4`, a qualifying media file under the watched folder
`/a/b`, is in neither the index nor the queue. In general, whatever calls of addFolder
and removeFolder are made on a fresh engine over whatever file system, index and queue
stay empty. -/
theorem C4_addFolder_tracks_nothing :
    (runCalls mediaTree [.add "/a/b"] (FolderSync.init 3 [])).isReturned = false
    ∧ runCalls mediaTree [.add "/a/b"] (FolderSync.init 3 [])
        = .blocked (runCalls mediaTree [.add "/a/b"] (FolderSync.init 3 [])).state
    ∧ (runCalls mediaTree [.add "/a/b"] (FolderSync.init 3 [])).state.m_watchedFolders = ["/a/b"]
    ∧ qualifyingUnder mediaTree "/a/b" = ["/a/b/y.mp4"]
    ∧ QHash.keys (runCalls mediaTree [.add "/a/b"] (FolderSync.init 3 [])).state.m_fileIndex = []
    ∧ queuePaths (runCalls mediaTree [.add "/a/b"] (FolderSync.init 3 [])).state.m_syncQueue = []
    ∧ ¬ TrackedExactly mediaTree (runCalls mediaTree [.add "/a/b"] (FolderSync.init 3 [])).state
    ∧ ∀ (fs : FileSystem) (maxRetries : Int) (savedFolders : List QString)
        (calls : List FolderCall),
        (runCalls fs calls (FolderSync.init maxRetries savedFolders)).state.m_fileIndex = []
        ∧ (runCalls fs calls (FolderSync.init maxRetries savedFolders)).state.m_syncQueue = [] := by
  refine ⟨by decide, by decide, by decide, by decide, by decide, by decide, by decide,
    fun fs maxRetries savedFolders calls => runCalls_untracked fs calls _ ⟨rfl, rfl⟩⟩

end FolderSync

namespace UploadManager

/-! ## Dispatch of the current item -/

theorem withQueueMutex_of_free {s : UploadManager} (body : UploadManager → Outcome UploadManager)
    (hfree : s.m_queueMutex = false) :
    withQueueMutex s body = (body { s with m_queueMutex := true }).andThen
      (fun s1 => .returned { s1 with m_queueMutex := false }) := by
  unfold withQueueMutex
  simp [hfree]

/-- The state after the dispatch of the item at position `i`. -/
theorem processNextUpload_dispatch (fs : FileSystem) (s : UploadManager) (i : Nat)
    (item : UploadItem) (hup : s.m_isUploading = true) (hpause : s.m_isPaused = false)
    (hfree : s.m_queueMutex = false) (hidx : s.m_currentIndex = (i : Int))
    (hitem : s.m_uploadQueue.get? i = some item) (hready : Ready fs item) :
    processNextUpload fs s = .returned
      { s with
        m_uploadQueue :=
          modifyAt (fun it => { it with status := "Uploading..." }) i
            (modifyAt (fun it => { it with file := some true }) i s.m_uploadQueue)
        emitted := s.emitted ++ [.itemStatusChanged (i : Int) "Uploading..."]
        m_currentReply := some ⟨(i : Int), item.filePath⟩ } := by
  have hlen : i < s.m_uploadQueue.length := by
    rcases Nat.lt_or_ge i s.m_uploadQueue.length with h | h
    · exact h
    · rw [List.get?_eq_none.2 h] at hitem; cases hitem
  have hne : s.m_uploadQueue.isEmpty = false := by
    cases hq : s.m_uploadQueue with
    | nil => rw [hq] at hlen; exact absurd hlen (Nat.not_lt_zero _)
    | cons a l => rfl
  have hge : ¬ ((i : Int) ≥ (s.m_uploadQueue.length : Int)) := by omega
  have hneg : ¬ ((i : Int) < 0) := by omega
  have hrange : (0 : Int) ≤ (i : Int) ∧ (i : Int) <
      ((modifyAt (fun it : UploadItem => { it with file := some true }) i
        s.m_uploadQueue).length : Int) := by
    rw [length_modifyAt]; omega
  unfold processNextUpload processNextUploadAux
  simp only [hup, hpause, Bool.not_true, Bool.or_self, Bool.false_eq_true, ↓reduceIte]
  rw [withQueueMutex_of_free _ hfree]
  rcases hready.2 with h | ⟨h, hc⟩
  · simp only [hne, Bool.false_eq_true, ↓reduceIte, hidx, hge, hneg, Int.toNat_ofNat, hitem,
      hready.1, Bool.not_true, h, Option.isNone_some, Bool.false_and, updateItemStatus, hrange,
      and_self, emit, createMultipartRequest, Outcome.andThen]
    cases s
    simp_all
  · simp only [hne, Bool.false_eq_true, ↓reduceIte, hidx, hge, hneg, Int.toNat_ofNat, hitem,
      hready.1, Bool.not_true, h, hc, Option.isNone_none, Bool.and_false, updateItemStatus,
      hrange, and_self, emit, createMultipartRequest, Outcome.andThen]
    cases s
    simp_all

/-! ## Completion of the reply in flight -/

theorem retryingStatus_ne (k m : Int) : retryingStatus k m ≠ "Uploading..." := by
  intro h
  have h1 := congrArg (fun s : String => s.data.head?) h
  simp [retryingStatus, String.data_append] at h1

theorem lt_length_of_get? {α : Type} {l : List α} {i : Nat} {a : α}
    (h : l.get? i = some a) : i < l.length := by
  rcases Nat.lt_or_ge i l.length with h1 | h1
  · exact h1
  · rw [List.get?_eq_none.2 h1] at h; cases h

/-- A failure while the retry counter is below the maximum. -/
theorem onUploadFinished_retry (s : UploadManager) (i : Nat) (r : UploadRequest)
    (hreply : s.m_currentReply = some r) (hidx : s.m_currentIndex = (i : Int))
    (hlen : i < s.m_uploadQueue.length) (hk : s.m_currentRetries < s.m_maxRetries) :
    onUploadFinished true s =
      { s with
        m_currentRetries := s.m_currentRetries + 1
        m_uploadQueue :=
          modifyAt (fun it =>
            { it with status := retryingStatus (s.m_currentRetries + 1) s.m_maxRetries }) i
            s.m_uploadQueue
        emitted := s.emitted ++
          [.itemStatusChanged (i : Int) (retryingStatus (s.m_currentRetries + 1) s.m_maxRetries)]
        m_retryTimer := some (2000 * (s.m_currentRetries + 1))
        m_currentReply := none } := by
  have hrange : (0 : Int) ≤ (i : Int) ∧ (i : Int) < (s.m_uploadQueue.length : Int) := by omega
  simp only [onUploadFinished, hreply, Bool.not_true, Bool.false_eq_true, ↓reduceIte, hk,
    updateItemStatus, hidx, hrange, and_self, emit, Int.toNat_ofNat]

/-- A failure once the retry counter has reached the maximum. -/
theorem onUploadFinished_failed (s : UploadManager) (i : Nat) (r : UploadRequest)
    (hreply : s.m_currentReply = some r) (hidx : s.m_currentIndex = (i : Int))
    (hlen : i < s.m_uploadQueue.length) (hk : ¬ s.m_currentRetries < s.m_maxRetries) :
    onUploadFinished true s =
      { s with
        m_uploadQueue := modifyAt (fun it => { it with status := "Failed" }) i s.m_uploadQueue
        emitted := s.emitted ++ [.itemStatusChanged (i : Int) "Failed"]
        m_currentRetries := 0
        m_currentIndex := (i : Int) + 1
        singleShots := s.singleShots ++ [100]
        m_currentReply := none } := by
  have hrange : (0 : Int) ≤ (i : Int) ∧ (i : Int) < (s.m_uploadQueue.length : Int) := by omega
  simp only [onUploadFinished, hreply, Bool.not_true, Bool.false_eq_true, ↓reduceIte, hk,
    updateItemStatus, hidx, hrange, and_self, emit, Int.toNat_ofNat]

/-- A completion without error. -/
theorem onUploadFinished_success (s : UploadManager) (i : Nat) (r : UploadRequest)
    (hreply : s.m_currentReply = some r) (hidx : s.m_currentIndex = (i : Int))
    (hlen : i < s.m_uploadQueue.length) :
    onUploadFinished false s =
      { s with
        m_uploadQueue :=
          modifyAt (fun it => { it with file := none }) i
            (modifyAt (fun it => { it with progress := 100 }) i
              (modifyAt (fun it => { it with status := "Completed" }) i s.m_uploadQueue))
        emitted := s.emitted ++
          [.itemStatusChanged (i : Int) "Completed", .itemProgressChanged (i : Int) 100]
        m_currentRetries := 0
        m_currentIndex := (i : Int) + 1
        singleShots := s.singleShots ++ [100]
        m_currentReply := none } := by
  have hrange : (0 : Int) ≤ (i : Int) ∧ (i : Int) < (s.m_uploadQueue.length : Int) := by omega
  have hrange1 : (0 : Int) ≤ (i : Int) ∧ (i : Int) <
      ((modifyAt (fun it : UploadItem => { it with status := "Completed" }) i
        s.m_uploadQueue).length : Int) := by
    rw [length_modifyAt]; exact hrange
  simp only [onUploadFinished, hreply, Bool.not_false, ↓reduceIte, updateItemStatus,
    updateItemProgress, hidx, hrange, hrange1, and_self, emit, Int.toNat_ofNat,
    List.append_assoc, List.singleton_append]

/-! ## Failure and retry of the item in flight -/

theorem retry_cycle (fs : FileSystem) (s : UploadManager) (i : Nat) (k : Int)
    (hs : InFlight fs i k s) (hk : k < s.m_maxRetries) :
    (onUploadFinished true s).m_retryTimer = some (2000 * (k + 1))
    ∧ (onUploadFinished true s).m_currentIndex = (i : Int)
    ∧ (onUploadFinished true s).m_currentReply = none
    ∧ statusAt i (onUploadFinished true s) = some (retryingStatus (k + 1) s.m_maxRetries)
    ∧ ∃ s2, failAndRetry fs s = .returned s2 ∧ InFlight fs i (k + 1) s2
        ∧ s2.m_maxRetries = s.m_maxRetries
        ∧ dispatches i s2 = dispatches i s + 1
        ∧ s2.m_uploadQueue.length = s.m_uploadQueue.length
        ∧ ∀ j, j ≠ i → s2.m_uploadQueue.get? j = s.m_uploadQueue.get? j := by
  obtain ⟨hup, hpause, hfree, hidx, hret, htimer, hshots, item, hitem, hfile, hexists, hreply⟩ := hs
  have hlen := lt_length_of_get? hitem
  subst hret
  have h1 := onUploadFinished_retry s i _ hreply hidx hlen hk
  refine ⟨by rw [h1], by rw [h1]; exact hidx, by rw [h1], ?_, ?_⟩
  · rw [h1]
    simp only [statusAt, get?_modifyAt_self, hitem, Option.map_some']
  · have hitem1 : (modifyAt (fun it : UploadItem =>
          { it with status := retryingStatus (s.m_currentRetries + 1) s.m_maxRetries }) i
          s.m_uploadQueue).get? i
        = some { item with status := retryingStatus (s.m_currentRetries + 1) s.m_maxRetries } := by
      rw [get?_modifyAt_self, hitem]; rfl
    have h2 := processNextUpload_dispatch fs
      { s with
        m_currentRetries := s.m_currentRetries + 1
        m_uploadQueue :=
          modifyAt (fun it =>
            { it with status := retryingStatus (s.m_currentRetries + 1) s.m_maxRetries }) i
            s.m_uploadQueue
        emitted := s.emitted ++
          [.itemStatusChanged (i : Int) (retryingStatus (s.m_currentRetries + 1) s.m_maxRetries)]
        m_retryTimer := none
        m_currentReply := none } i _ hup hpause hfree hidx hitem1 ⟨hexists, Or.inl hfile⟩
    simp only [failAndRetry, onRetryTimer, h1]
    rw [h2]
    refine ⟨_, rfl, ?_, ?_, ?_, ?_, ?_⟩
    · refine ⟨hup, hpause, hfree, hidx, rfl, rfl, hshots, ?_⟩
      refine ⟨{ item with file := some true, status := "Uploading..." }, ?_, rfl, hexists, rfl⟩
      simp only [get?_modifyAt_self, hitem, Option.map_some']
    · rfl
    · simp only [dispatches, List.count_append, List.count_singleton', UploadSignal.itemStatusChanged.injEq,
        true_and, retryingStatus_ne, ↓reduceIte, add_zero]
    · simp only [length_modifyAt]
    · intro j hj
      simp only [get?_modifyAt_ne _ _ _ _ (Ne.symm hj)]

theorem failures_inFlight (fs : FileSystem) (i : Nat) :
    ∀ (n : Nat) (s : UploadManager) (k : Int), InFlight fs i k s →
      k + (n : Int) ≤ s.m_maxRetries →
      ∃ sn, failures fs n s = .returned sn ∧ InFlight fs i (k + (n : Int)) sn
        ∧ sn.m_maxRetries = s.m_maxRetries
        ∧ dispatches i sn = dispatches i s + n
        ∧ sn.m_uploadQueue.length = s.m_uploadQueue.length
        ∧ ∀ j, j ≠ i → sn.m_uploadQueue.get? j = s.m_uploadQueue.get? j
  | 0, s, k, hs, _ => ⟨s, rfl, by simpa using hs, rfl, rfl, rfl, fun _ _ => rfl⟩
  | n + 1, s, k, hs, hk => by
    obtain ⟨_, _, _, _, s2, h2, hin2, hmax2, hd2, hl2, hq2⟩ :=
      retry_cycle fs s i k hs (by push_cast at hk; omega)
    obtain ⟨sn, hn, hinn, hmaxn, hdn, hln, hqn⟩ :=
      failures_inFlight fs i n s2 (k + 1) hin2 (by rw [hmax2]; push_cast at hk; omega)
    refine ⟨sn, ?_, ?_, hmaxn.trans hmax2, ?_, hln.trans hl2, fun j hj => (hqn j hj).trans (hq2 j hj)⟩
    · simp only [failures, h2, Outcome.andThen]
      exact hn
    · have : k + ((n + 1 : Nat) : Int) = k + 1 + (n : Int) := by push_cast; ring
      rw [this]; exact hinn
    · rw [hdn, hd2]; ring

end UploadManager

theorem Outcome.andThen_state {σ : Type} {P : σ → Prop} {o : Outcome σ} {f : σ → Outcome σ}
    (ho : P o.state) (hf : ∀ s, P s → P (f s).state) : P (o.andThen f).state := by
  cases o with
  | returned s => exact hf s ho
  | blocked s => exact ho
  | crashed s => exact ho

theorem forEach_state {α σ : Type} {P : σ → Prop} {step : α → σ → Outcome σ} :
    ∀ (xs : List α) (s : σ), (∀ x ∈ xs, ∀ s, P s → P (step x s).state) → P s →
      P (forEach step xs s).state
  | [], _, _, hs => hs
  | x :: xs, s, hstep, hs =>
    Outcome.andThen_state (hstep x (List.mem_cons_self _ _) s hs)
      (fun t ht => forEach_state xs t (fun y hy => hstep y (List.mem_cons_of_mem _ hy)) ht)

namespace UploadManager

/-! ## Once the upload has moved past an item, the item is not dispatched again -/

/-- The invariant: the upload is past position `i` and the item at `i` has been dispatched
`c` times. -/
theorem kept_of_fields {i c : Nat} {s t : UploadManager} (hs : Past i s ∧ dispatches i s = c)
    (hup : t.m_isUploading = s.m_isUploading) (hidx : s.m_currentIndex ≤ t.m_currentIndex)
    (hreply : t.m_currentReply = s.m_currentReply ∨ t.m_currentReply = none)
    (hem : t.emitted.count (.itemStatusChanged (i : Int) "Uploading...")
      = s.emitted.count (.itemStatusChanged (i : Int) "Uploading...")) :
    Past i t ∧ dispatches i t = c := by
  refine ⟨⟨fun h => ?_, fun r hr => ?_⟩, ?_⟩
  · have := hs.1.1 (hup ▸ h)
    omega
  · rcases hreply with h | h
    · exact hs.1.2 r (h ▸ hr)
    · rw [h] at hr; cases hr
  · rw [← hs.2]; exact hem

theorem updateItemStatus_kept {i c : Nat} (idx : Int) (st : QString) (s : UploadManager)
    (hne : idx ≠ (i : Int) ∨ st ≠ "Uploading...") (hs : Past i s ∧ dispatches i s = c) :
    Past i (updateItemStatus idx st s) ∧ dispatches i (updateItemStatus idx st s) = c := by
  unfold updateItemStatus
  split
  · refine kept_of_fields hs rfl (le_refl _) (Or.inl rfl) ?_
    simp only [emit, List.count_append, List.count_singleton', UploadSignal.itemStatusChanged.injEq]
    have : ¬ (idx = (i : Int) ∧ st = "Uploading...") := by
      rintro ⟨h1, h2⟩
      rcases hne with h | h
      · exact h h1
      · exact h h2
    simp only [this, ↓reduceIte, add_zero]
  · exact hs

theorem updateItemStatus_index (idx : Int) (st : QString) (s : UploadManager) :
    (updateItemStatus idx st s).m_currentIndex = s.m_currentIndex := by
  unfold updateItemStatus
  split <;> rfl

theorem updateItemProgress_kept {i c : Nat} (idx : Int) (p : Int) (s : UploadManager)
    (hs : Past i s ∧ dispatches i s = c) :
    Past i (updateItemProgress idx p s) ∧ dispatches i (updateItemProgress idx p s) = c := by
  unfold updateItemProgress
  split
  · refine kept_of_fields hs rfl (le_refl _) (Or.inl rfl) ?_
    simp only [emit, List.count_append, List.count_singleton', reduceCtorEq, ↓reduceIte, add_zero]
  · exact hs

theorem emit_kept {i c : Nat} (sig : UploadSignal) (s : UploadManager)
    (hne : sig ≠ .itemStatusChanged (i : Int) "Uploading...")
    (hs : Past i s ∧ dispatches i s = c) : Past i (emit s sig) ∧ dispatches i (emit s sig) = c := by
  refine kept_of_fields hs rfl (le_refl _) (Or.inl rfl) ?_
  simp only [emit, List.count_append, List.count_singleton', hne, ↓reduceIte, add_zero]

theorem onUploadFinished_kept {i c : Nat} (e : Bool) (s : UploadManager)
    (hs : Past i s ∧ dispatches i s = c) :
    Past i (onUploadFinished e s) ∧ dispatches i (onUploadFinished e s) = c := by
  unfold onUploadFinished
  split
  · exact hs
  · dsimp only
    split
    · have h1 : Past i (if 0 ≤ s.m_currentIndex ∧ s.m_currentIndex < (s.m_uploadQueue.length : Int)
          then
            let s1 := updateItemStatus s.m_currentIndex "Completed" s
            let s2 := updateItemProgress s1.m_currentIndex 100 s1
            { s2 with
              m_uploadQueue :=
                modifyAt (fun it => { it with file := none }) s2.m_currentIndex.toNat
                  s2.m_uploadQueue }
          else s) ∧ dispatches i (if 0 ≤ s.m_currentIndex ∧
            s.m_currentIndex < (s.m_uploadQueue.length : Int) then
            let s1 := updateItemStatus s.m_currentIndex "Completed" s
            let s2 := updateItemProgress s1.m_currentIndex 100 s1
            { s2 with
              m_uploadQueue :=
                modifyAt (fun it => { it with file := none }) s2.m_currentIndex.toNat
                  s2.m_uploadQueue }
          else s) = c := by
        split
        · exact kept_of_fields
            (updateItemProgress_kept _ 100 _
              (updateItemStatus_kept s.m_currentIndex "Completed" s (Or.inr (by decide)) hs))
            rfl (le_refl _) (Or.inl rfl) rfl
        · exact hs
      exact kept_of_fields h1 rfl (by dsimp only; omega) (Or.inr rfl) rfl
    · split
      · have h1 := updateItemStatus_kept (i := i) (c := c) s.m_currentIndex
          (retryingStatus (s.m_currentRetries + 1) s.m_maxRetries)
          { s with m_currentRetries := s.m_currentRetries + 1 }
          (Or.inr (retryingStatus_ne _ _)) hs
        exact kept_of_fields h1 rfl (le_refl _) (Or.inr rfl) rfl
      · have h1 := updateItemStatus_kept (i := i) (c := c) s.m_currentIndex "Failed" s
          (Or.inr (by decide)) hs
        exact kept_of_fields h1 rfl (by dsimp only; omega) (Or.inr rfl) rfl

theorem state_withQueueMutex_held {Q : UploadManager → Prop}
    (hQ : ∀ s b, Q s → Q { s with m_queueMutex := b }) {s : UploadManager}
    {body : UploadManager → Outcome UploadManager} (hs : Q s)
    (hbody : Q (body { s with m_queueMutex := true }).state) :
    Q (withQueueMutex s body).state := by
  unfold withQueueMutex
  split
  · exact hs
  · revert hbody
    cases body { s with m_queueMutex := true } with
    | returned s1 => exact fun h1 => hQ s1 false h1
    | blocked s1 => exact fun h1 => h1
    | crashed s1 => exact fun h1 => h1

theorem kept_mutex {i c : Nat} (s : UploadManager) (b : Bool)
    (hs : Past i s ∧ dispatches i s = c) :
    Past i { s with m_queueMutex := b } ∧ dispatches i { s with m_queueMutex := b } = c := hs

theorem finished_kept {i c : Nat} (s : UploadManager) (hs : Past i s ∧ dispatches i s = c) :
    Past i (emit { s with m_isUploading := false, m_currentIndex := -1 } .uploadFinished) ∧
      dispatches i (emit { s with m_isUploading := false, m_currentIndex := -1 } .uploadFinished)
        = c := by
  refine ⟨⟨fun h => (by cases h), hs.1.2⟩, ?_⟩
  rw [← hs.2]
  simp only [dispatches, emit, List.count_append, List.count_singleton', reduceCtorEq, ↓reduceIte,
    add_zero]

theorem processNextUploadAux_kept {i c : Nat} (fs : FileSystem) :
    ∀ (n : Nat) (s : UploadManager), Past i s ∧ dispatches i s = c →
      Past i (processNextUploadAux fs n s).state ∧
        dispatches i (processNextUploadAux fs n s).state = c
  | 0, _, hs => hs
  | n + 1, s, hs => by
    unfold processNextUploadAux
    split
    · exact hs
    · rename_i hrun
      have hup : s.m_isUploading = true := by
        simp only [Bool.or_eq_true, Bool.not_eq_true', not_or, Bool.not_eq_false] at hrun
        exact hrun.2
      have hpast : (i : Int) < s.m_currentIndex := hs.1.1 hup
      refine state_withQueueMutex_held (Q := fun t => Past i t ∧ dispatches i t = c)
        kept_mutex hs ?_
      dsimp only
      split
      · exact finished_kept _ (kept_mutex s true hs)
      · split
        · exact finished_kept _ (kept_mutex s true hs)
        · split
          · exact hs
          · split
            · exact hs
            · rename_i item _
              split
              · refine processNextUploadAux_kept fs n _ ?_
                exact kept_of_fields
                  (updateItemStatus_kept s.m_currentIndex "File not found"
                    { s with m_queueMutex := true } (Or.inr (by decide)) hs)
                  rfl (by simp only [updateItemStatus_index]; omega)
                  (Or.inl rfl) rfl
              · have hs1 : Past i { s with
                    m_queueMutex := true
                    m_uploadQueue :=
                      modifyAt (fun it => { it with file :=
                        (match item.file with
                          | none => some (fs.canOpen item.filePath)
                          | some b => some b) }) s.m_currentIndex.toNat s.m_uploadQueue } ∧
                    dispatches i { s with
                      m_queueMutex := true
                      m_uploadQueue :=
                        modifyAt (fun it => { it with file :=
                          (match item.file with
                            | none => some (fs.canOpen item.filePath)
                            | some b => some b) }) s.m_currentIndex.toNat s.m_uploadQueue } = c :=
                  hs
                split
                · refine processNextUploadAux_kept fs n _ ?_
                  exact kept_of_fields
                    (updateItemStatus_kept s.m_currentIndex "Cannot open file" _
                      (Or.inr (by decide)) hs1)
                    rfl (by simp only [updateItemStatus_index]; omega)
                    (Or.inl rfl) rfl
                · have hs2 := updateItemStatus_kept (i := i) (c := c) s.m_currentIndex
                    "Uploading..." _ (Or.inl (by omega)) hs1
                  unfold createMultipartRequest
                  split
                  · refine ⟨⟨fun _ => ?_, fun r hr => ?_⟩, hs2.2⟩
                    · simp only [Outcome.state, updateItemStatus_index]
                      exact hpast
                    · simp only [Outcome.state, Option.some.injEq] at hr
                      rw [← hr]
                      simp only [updateItemStatus_index]
                      exact hpast
                  · exact hs2

theorem processNextUpload_kept {i c : Nat} (fs : FileSystem) (s : UploadManager)
    (hs : Past i s ∧ dispatches i s = c) :
    Past i (processNextUpload fs s).state ∧ dispatches i (processNextUpload fs s).state = c :=
  processNextUploadAux_kept fs _ s hs

theorem scanFolder_fields (fs : FileSystem) (p : QString) (s : UploadManager) :
    (scanFolder fs p s).m_isUploading = s.m_isUploading
    ∧ (scanFolder fs p s).m_currentIndex = s.m_currentIndex
    ∧ (scanFolder fs p s).m_currentReply = s.m_currentReply
    ∧ (scanFolder fs p s).emitted = s.emitted := by
  unfold scanFolder
  generalize fs.files p = files
  induction files generalizing s with
  | nil => exact ⟨rfl, rfl, rfl, rfl⟩
  | cons x xs ih =>
    simp only [List.foldl_cons]
    split
    · exact ih _
    · exact ih s

theorem step_kept {i c : Nat} (ev : Event) (hev : ev.isStartUpload = false) (s : UploadManager)
    (hs : Past i s ∧ dispatches i s = c) :
    Past i (step ev s).state ∧ dispatches i (step ev s).state = c := by
  cases ev with
  | startUpload fs => cases hev
  | addFile fs p =>
    simp only [step, addFile]
    refine state_withQueueMutex_held (Q := fun t => Past i t ∧ dispatches i t = c)
      kept_mutex hs ?_
    dsimp only
    split
    · exact emit_kept _ _ (by simp) hs
    · split
      · exact emit_kept _ _ (by simp) hs
      · refine emit_kept _ _ ?_ hs
        simp only [ne_eq, UploadSignal.itemStatusChanged.injEq, not_and]
        exact fun _ => by decide
  | addFolder fs p =>
    simp only [step, addFolder]
    refine state_withQueueMutex_held (Q := fun t => Past i t ∧ dispatches i t = c)
      kept_mutex hs ?_
    dsimp only
    split
    · exact emit_kept _ _ (by simp) hs
    · obtain ⟨h1, h2, h3, h4⟩ := scanFolder_fields fs p { s with m_queueMutex := true }
      exact kept_of_fields hs h1 (le_of_eq h2.symm) (Or.inl h3) (congrArg _ h4)
  | pauseUpload =>
    simp only [step, pauseUpload, Outcome.state]
    split
    · exact onUploadFinished_kept true _ (by
        unfold onNetworkError
        split
        · exact emit_kept _ _ (by simp) hs
        · exact hs)
    · exact hs
  | resumeUpload fs =>
    simp only [step, resumeUpload]
    split
    · exact processNextUpload_kept fs _ hs
    · exact hs
  | clearQueue =>
    simp only [step, clearQueue]
    refine state_withQueueMutex_held (Q := fun t => Past i t ∧ dispatches i t = c)
      kept_mutex hs ?_
    have key : ∀ X : UploadManager, dispatches i X = c → X.m_currentReply = none →
        Past i (emit { X with
            m_uploadQueue := []
            m_isUploading := false
            m_isPaused := false
            m_currentIndex := -1
            m_currentRetries := 0 } (.uploadProgress 0)) ∧
          dispatches i (emit { X with
            m_uploadQueue := []
            m_isUploading := false
            m_isPaused := false
            m_currentIndex := -1
            m_currentRetries := 0 } (.uploadProgress 0)) = c := by
      intro X hX hr
      refine ⟨⟨fun h => (by cases h), fun r hr1 => ?_⟩, ?_⟩
      · have hr2 : X.m_currentReply = some r := hr1
        rw [hr] at hr2
        cases hr2
      · rw [← hX]
        simp only [dispatches, emit, List.count_append, List.count_singleton', reduceCtorEq,
          ↓reduceIte, add_zero]
    have h1 : dispatches i (match s.m_currentReply with
        | some _ => { abortReply { s with m_queueMutex := true } with m_currentReply := none }
        | none => { s with m_queueMutex := true }) = c := by
      split
      · exact (onUploadFinished_kept (i := i) (c := c) true _ (by
          unfold onNetworkError
          split
          · exact emit_kept _ _ (by simp) hs
          · exact hs)).2
      · exact hs.2
    have h2 : (match s.m_currentReply with
        | some _ => { abortReply { s with m_queueMutex := true } with m_currentReply := none }
        | none => { s with m_queueMutex := true }).m_currentReply = none := by
      split
      · rfl
      · assumption
    exact key _ h1 h2
  | onUploadProgress sent total =>
    simp only [step, onUploadProgress]
    split
    · split
      · exact hs
      · split
        · exact hs
        · split
          · exact hs
          · split
            · exact emit_kept _ _ (by simp) (updateItemProgress_kept _ _ _ hs)
            · exact updateItemProgress_kept _ _ _ hs
    · exact hs
  | onUploadFinished e => exact onUploadFinished_kept e s hs
  | onNetworkError =>
    simp only [step, onNetworkError, Outcome.state]
    split
    · exact emit_kept _ _ (by simp) hs
    · exact hs
  | onRetryTimer fs =>
    simp only [step, onRetryTimer]
    split
    · exact processNextUpload_kept fs _ hs
    · exact hs
  | onSingleShot fs k =>
    simp only [step, onSingleShot]
    split
    · exact processNextUpload_kept fs _ hs
    · exact hs
  | processNextUpload fs => exact processNextUpload_kept fs s hs

theorem run_kept {i c : Nat} (events : List Event)
    (hev : ∀ ev ∈ events, ev.isStartUpload = false) (s : UploadManager)
    (hs : Past i s ∧ dispatches i s = c) :
    Past i (run events s).state ∧ dispatches i (run events s).state = c :=
  forEach_state (P := fun t => Past i t ∧ dispatches i t = c) events s
    (fun ev h t ht => step_kept ev (hev ev h) t ht) hs

open Example

/-! ## Retries of the upload manager -/

/-- C3, as stated, fails: with at most one retry, the only item of the queue fails twice
and gets status `Failed`; the run ends; a new call of startUpload then dispatches the same
item again: its request is in flight and it has been announced as `Uploading...` a third
time. -/
theorem C3_counterexample :
    uploadingOne.m_maxRetries = 1
    ∧ uploadingOne.m_currentReply = some ⟨0, "/u/a.mp4"⟩
    ∧ (run [.onUploadFinished true, .onRetryTimer uploadTree, .onUploadFinished true,
        .onSingleShot uploadTree 0] uploadingOne).isReturned = true
    ∧ statusAt 0 exhaustedOne = some "Failed"
    ∧ exhaustedOne.m_isUploading = false
    ∧ exhaustedOne.m_currentReply = none
    ∧ dispatches 0 exhaustedOne = 2
    ∧ (startUpload uploadTree exhaustedOne).isReturned = true
    ∧ (startUpload uploadTree exhaustedOne).state.m_currentReply = some ⟨0, "/u/a.mp4"⟩
    ∧ statusAt 0 (startUpload uploadTree exhaustedOne).state = some "Uploading..."
    ∧ dispatches 0 (startUpload uploadTree exhaustedOne).state = 3 := by
  decide

theorem past_after_advance (i : Nat) (s : UploadManager)
    (hidx : s.m_currentIndex = (i : Int) + 1) (hreply : s.m_currentReply = none) : Past i s := by
  refine ⟨fun _ => ?_, fun r hr => ?_⟩
  · rw [hidx]; omega
  · rw [hreply] at hr; cases hr

/-- C3, amended. Let the upload of the item at position i be in flight, freshly dispatched
(retry counter 0), with max-retries m >= 0 and the file of the item in place. If the
attempts keep failing then, for 1 <= k <= m, the k-th failure sets the status to
`Retrying... (k/m)`, leaves the current index at i and starts the retry timer with
2000*k ms, and when the timer fires the same item is dispatched again, for the k-th time
after the first dispatch. The (m+1)-th failure sets the status to `Failed`, moves the
current index to i+1 and starts no retry timer; from then on, whatever events follow
other than a new call of startUpload, the item is not announced as `Uploading...` again
and every request in flight belongs to a later position. An item that fails N <= m times
and then succeeds has been retried exactly N times, gets status `Completed`, and is not
dispatched again either, short of a new startUpload. -/
theorem C3_retry_schedule (fs : FileSystem) (s : UploadManager) (i : Nat)
    (hs : InFlight fs i 0 s) (hm : 0 ≤ s.m_maxRetries) :
    (∀ k : Nat, 1 ≤ k → (k : Int) ≤ s.m_maxRetries →
      ∃ sk, failures fs (k - 1) s = .returned sk ∧ InFlight fs i ((k : Int) - 1) sk
        ∧ (onUploadFinished true sk).m_retryTimer = some (2000 * (k : Int))
        ∧ (onUploadFinished true sk).m_currentIndex = (i : Int)
        ∧ (onUploadFinished true sk).m_currentReply = none
        ∧ statusAt i (onUploadFinished true sk) = some (retryingStatus (k : Int) s.m_maxRetries)
        ∧ ∃ sk1, onRetryTimer fs (onUploadFinished true sk) = .returned sk1
            ∧ InFlight fs i (k : Int) sk1 ∧ dispatches i sk1 = dispatches i s + k)
    ∧ (∃ sm, failures fs s.m_maxRetries.toNat s = .returned sm
        ∧ InFlight fs i s.m_maxRetries sm
        ∧ statusAt i (onUploadFinished true sm) = some "Failed"
        ∧ (onUploadFinished true sm).m_currentIndex = (i : Int) + 1
        ∧ (onUploadFinished true sm).m_currentRetries = 0
        ∧ (onUploadFinished true sm).m_currentReply = none
        ∧ (onUploadFinished true sm).m_retryTimer = none
        ∧ ∀ events : List Event, (∀ ev ∈ events, ev.isStartUpload = false) →
            dispatches i (run events (onUploadFinished true sm)).state
                = dispatches i s + s.m_maxRetries.toNat
            ∧ ∀ r, (run events (onUploadFinished true sm)).state.m_currentReply = some r →
                (i : Int) < r.index)
    ∧ (∀ N : Nat, (N : Int) ≤ s.m_maxRetries →
        ∃ sN, failures fs N s = .returned sN ∧ InFlight fs i (N : Int) sN
          ∧ dispatches i sN = dispatches i s + N
          ∧ statusAt i (onUploadFinished false sN) = some "Completed"
          ∧ (onUploadFinished false sN).m_currentIndex = (i : Int) + 1
          ∧ ∀ events : List Event, (∀ ev ∈ events, ev.isStartUpload = false) →
              dispatches i (run events (onUploadFinished false sN)).state = dispatches i s + N
              ∧ ∀ r, (run events (onUploadFinished false sN)).state.m_currentReply = some r →
                  (i : Int) < r.index) := by
  refine ⟨fun k hk1 hkm => ?_, ?_, fun N hN => ?_⟩
  · obtain ⟨sk, hfail, hin, hmax, hd, _, _⟩ :=
      failures_inFlight fs i (k - 1) s 0 hs (by omega)
    have hcast : (0 : Int) + ((k - 1 : Nat) : Int) = (k : Int) - 1 := by omega
    rw [hcast] at hin
    obtain ⟨h1, h2, h3, h4, sk1, h5, h6, _, h8, _⟩ :=
      retry_cycle fs sk i ((k : Int) - 1) hin (by rw [hmax]; omega)
    have hk : (k : Int) - 1 + 1 = (k : Int) := by ring
    rw [hk] at h1 h4 h6
    rw [hmax] at h4
    refine ⟨sk, hfail, hin, h1, h2, h3, h4, sk1, h5, h6, ?_⟩
    rw [h8, hd]; omega
  · obtain ⟨sm, hfail, hin, hmax, hd, _, _⟩ :=
      failures_inFlight fs i s.m_maxRetries.toNat s 0 hs (by omega)
    have hcast : (0 : Int) + (s.m_maxRetries.toNat : Int) = s.m_maxRetries := by omega
    rw [hcast] at hin
    obtain ⟨_, _, _, hidx, hret, _, _, item, hitem, _, _, hreply⟩ := hin
    have hlen := lt_length_of_get? hitem
    have hex : ¬ sm.m_currentRetries < sm.m_maxRetries := by rw [hret, hmax]; omega
    have hfin := onUploadFinished_failed sm i _ hreply hidx hlen hex
    have hin : InFlight fs i s.m_maxRetries sm := by
      obtain ⟨sm1, hfail1, hin1, _⟩ := failures_inFlight fs i s.m_maxRetries.toNat s 0 hs (by omega)
      rw [hfail] at hfail1
      cases hfail1
      rw [hcast] at hin1
      exact hin1
    have htimer : sm.m_retryTimer = none := hin.2.2.2.2.2.1
    have hkept : Past i (onUploadFinished true sm) ∧
        dispatches i (onUploadFinished true sm) = dispatches i s + s.m_maxRetries.toNat := by
      refine ⟨past_after_advance i _ (by rw [hfin]) (by rw [hfin]), ?_⟩
      rw [hfin, ← hd]
      simp only [dispatches, List.count_append, List.count_singleton',
        UploadSignal.itemStatusChanged.injEq, true_and]
      rfl
    refine ⟨sm, hfail, hin, ?_, by rw [hfin], by rw [hfin], by rw [hfin], ?_, ?_⟩
    · rw [hfin]
      simp only [statusAt, get?_modifyAt_self, hitem, Option.map_some']
    · rw [hfin]; exact htimer
    · intro events hev
      have := run_kept events hev _ hkept
      exact ⟨this.2, this.1.2⟩
  · obtain ⟨sN, hfail, hin, _, hd, _, _⟩ := failures_inFlight fs i N s 0 hs (by omega)
    have hcast : (0 : Int) + (N : Int) = (N : Int) := by omega
    rw [hcast] at hin
    have hin0 := hin
    obtain ⟨_, _, _, hidx, _, _, _, item, hitem, _, _, hreply⟩ := hin
    have hlen := lt_length_of_get? hitem
    have hfin := onUploadFinished_success sN i _ hreply hidx hlen
    have hkept : Past i (onUploadFinished false sN) ∧
        dispatches i (onUploadFinished false sN) = dispatches i s + N := by
      refine ⟨past_after_advance i _ (by rw [hfin]) (by rw [hfin]), ?_⟩
      rw [hfin, ← hd]
      simp only [dispatches, List.count_append, List.count_cons, List.count_nil,
        beq_iff_eq, UploadSignal.itemStatusChanged.injEq, true_and, reduceCtorEq]
      rfl
    refine ⟨sN, hfail, hin0, hd, ?_, by rw [hfin], ?_⟩
    · rw [hfin]
      simp only [statusAt, get?_modifyAt_self, hitem, Option.map_some']
    · intro events hev
      have := run_kept events hev _ hkept
      exact ⟨this.2, this.1.2⟩

open Example

/-! ## The queue advances past a finished item -/

/-- After the current index has advanced to `j`, the single-shot timer dispatches the item
at `j`. -/
theorem fireTimer_dispatch (fs : FileSystem) (t : UploadManager) (j : Nat) (it : UploadItem)
    (hup : t.m_isUploading = true) (hpause : t.m_isPaused = false)
    (hfree : t.m_queueMutex = false) (hidx : t.m_currentIndex = (j : Int))
    (hret : t.m_currentRetries = 0) (htimer : t.m_retryTimer = none)
    (hshots : t.singleShots = [100]) (hitem : t.m_uploadQueue.get? j = some it)
    (hready : Ready fs it) :
    ∃ t1, fireTimer fs t = .returned t1 ∧ InFlight fs j 0 t1
      ∧ t1.m_maxRetries = t.m_maxRetries
      ∧ t1.m_uploadQueue.length = t.m_uploadQueue.length
      ∧ ∀ j1, j1 ≠ j → t1.m_uploadQueue.get? j1 = t.m_uploadQueue.get? j1 := by
  have h2 := processNextUpload_dispatch fs { t with singleShots := [] } j it hup hpause hfree
    hidx hitem hready
  have h3 : fireTimer fs t = processNextUpload fs { t with singleShots := [] } := by
    simp only [fireTimer, htimer, onSingleShot, hshots, List.length_singleton, Nat.lt_one_iff,
      ↓reduceIte, List.eraseIdx_cons_zero]
  rw [h3, h2]
  refine ⟨_, rfl, ⟨hup, hpause, hfree, hidx, hret, htimer, rfl, ?_⟩, rfl, ?_, ?_⟩
  · refine ⟨{ it with file := some true, status := "Uploading..." }, ?_, rfl, hready.1, rfl⟩
    simp only [get?_modifyAt_self, hitem, Option.map_some']
  · simp only [length_modifyAt]
  · intro j1 hj1
    simp only [get?_modifyAt_ne _ _ _ _ (Ne.symm hj1)]

/-- One round that ends the attempts on the item at `j`, by success or by exhaustion of
the retries, dispatches the item at `j + 1`. -/
theorem round_advance (fs : FileSystem) (s : UploadManager) (j : Nat) (k : Int) (e : Bool)
    (hs : InFlight fs j k s) (hend : e = false ∨ ¬ k < s.m_maxRetries)
    (hready : LaterReady fs j s) (hnext : j + 1 < s.m_uploadQueue.length) :
    ∃ s1, round fs e s = .returned s1 ∧ InFlight fs (j + 1) 0 s1
      ∧ s1.m_maxRetries = s.m_maxRetries
      ∧ s1.m_uploadQueue.length = s.m_uploadQueue.length
      ∧ LaterReady fs (j + 1) s1 := by
  obtain ⟨hup, hpause, hfree, hidx, hret, htimer, hshots, item, hitem, _, _, hreply⟩ := hs
  have hlen := lt_length_of_get? hitem
  obtain ⟨it, hit⟩ : ∃ it, s.m_uploadQueue.get? (j + 1) = some it :=
    ⟨_, List.get?_eq_get hnext⟩
  have hit_ready := hready (j + 1) it (Nat.lt_succ_self j) hit
  have hcast : ((j : Int) + 1) = ((j + 1 : Nat) : Int) := by push_cast; rfl
  have hfinal : ∀ t : UploadManager, onUploadFinished e s = t → t.m_isUploading = true →
      t.m_isPaused = false → t.m_queueMutex = false → t.m_currentIndex = ((j + 1 : Nat) : Int) →
      t.m_currentRetries = 0 → t.m_retryTimer = none → t.singleShots = [100] →
      t.m_maxRetries = s.m_maxRetries → t.m_uploadQueue.length = s.m_uploadQueue.length →
      (∀ j1, j1 ≠ j → t.m_uploadQueue.get? j1 = s.m_uploadQueue.get? j1) →
      ∃ s1, round fs e s = .returned s1 ∧ InFlight fs (j + 1) 0 s1
        ∧ s1.m_maxRetries = s.m_maxRetries
        ∧ s1.m_uploadQueue.length = s.m_uploadQueue.length
        ∧ LaterReady fs (j + 1) s1 := by
    intro t ht h1 h2 h3 h4 h5 h6 h7 h8 h9 h10
    have hit1 : t.m_uploadQueue.get? (j + 1) = some it := by
      rw [h10 (j + 1) (Nat.succ_ne_self j)]; exact hit
    obtain ⟨s1, hs1, hin1, hmax1, hlen1, hq1⟩ :=
      fireTimer_dispatch fs t (j + 1) it h1 h2 h3 h4 h5 h6 h7 hit1 hit_ready
    refine ⟨s1, by rw [round, ht]; exact hs1, hin1, hmax1.trans h8, hlen1.trans h9, ?_⟩
    intro j1 it1 hj1 hget
    rw [hq1 j1 (by omega), h10 j1 (by omega)] at hget
    exact hready j1 it1 (by omega) hget
  rcases hend with he | hk
  · subst he
    have hfin := onUploadFinished_success s j _ hreply hidx hlen
    refine hfinal _ hfin hup hpause hfree (by rw [hcast]) rfl htimer (by simp [hshots]) rfl ?_ ?_
    · simp only [length_modifyAt]
    · intro j1 hj1
      simp only [get?_modifyAt_ne _ _ _ _ (Ne.symm hj1)]
  · cases e with
    | false =>
      have hfin := onUploadFinished_success s j _ hreply hidx hlen
      refine hfinal _ hfin hup hpause hfree (by rw [hcast]) rfl htimer (by simp [hshots]) rfl ?_ ?_
      · simp only [length_modifyAt]
      · intro j1 hj1
        simp only [get?_modifyAt_ne _ _ _ _ (Ne.symm hj1)]
    | true =>
      have hfin := onUploadFinished_failed s j _ hreply hidx hlen (by rw [hret]; exact hk)
      refine hfinal _ hfin hup hpause hfree (by rw [hcast]) rfl htimer (by simp [hshots]) rfl ?_ ?_
      · simp only [length_modifyAt]
      · intro j1 hj1
        simp only [get?_modifyAt_ne _ _ _ _ (Ne.symm hj1)]

theorem range_succ_map {β : Type} (f : Nat → β) (n : Nat) :
    (List.range (n + 1)).map f = f 0 :: (List.range n).map (fun t => f (t + 1)) := by
  rw [List.range_succ_eq_map, List.map_cons, List.map_map]
  rfl

theorem range_add_map {β : Type} (f : Nat → β) (a b : Nat) :
    (List.range (a + b)).map f
      = (List.range a).map f ++ (List.range b).map (fun t => f (a + t)) := by
  rw [List.range_add, List.map_append, List.map_map]
  rfl

theorem rounds_append (fs : FileSystem) (xs ys : List Bool) (s : UploadManager) :
    rounds fs (xs ++ ys) s = (rounds fs xs s).andThen (rounds fs ys) := by
  induction xs generalizing s with
  | nil => rfl
  | cons x xs ih =>
    simp only [rounds, List.cons_append, forEach] at ih ⊢
    cases round fs x s with
    | returned t => exact ih t
    | blocked t => rfl
    | crashed t => rfl

/-- However the attempts on the item at `j` end, the item at `j + 1` is dispatched after
finitely many rounds. -/
theorem eventually_next (fs : FileSystem) :
    ∀ (d : Nat) (s : UploadManager) (j : Nat) (k : Int), InFlight fs j k s →
      (s.m_maxRetries - k).toNat ≤ d → LaterReady fs j s → j + 1 < s.m_uploadQueue.length →
      ∀ errors : Nat → Bool, ∃ n s1, rounds fs ((List.range n).map errors) s = .returned s1
        ∧ InFlight fs (j + 1) 0 s1
        ∧ s1.m_maxRetries = s.m_maxRetries
        ∧ s1.m_uploadQueue.length = s.m_uploadQueue.length
        ∧ LaterReady fs (j + 1) s1 := by
  intro d
  induction d with
  | zero =>
    intro s j k hs hd hready hnext errors
    obtain ⟨s1, h1, h2, h3, h4, h5⟩ :=
      round_advance fs s j k (errors 0) hs (Or.inr (by omega)) hready hnext
    refine ⟨1, s1, ?_, h2, h3, h4, h5⟩
    rw [range_succ_map]
    simp only [rounds, List.range_zero, List.map_nil, forEach, h1, Outcome.andThen]
  | succ d ih =>
    intro s j k hs hd hready hnext errors
    by_cases hend : errors 0 = false ∨ ¬ k < s.m_maxRetries
    · obtain ⟨s1, h1, h2, h3, h4, h5⟩ := round_advance fs s j k (errors 0) hs hend hready hnext
      refine ⟨1, s1, ?_, h2, h3, h4, h5⟩
      rw [range_succ_map]
      simp only [rounds, List.range_zero, List.map_nil, forEach, h1, Outcome.andThen]
    · simp only [not_or, Bool.not_eq_false, not_not] at hend
      obtain ⟨_, _, _, _, s2, h2, hin2, hmax2, _, hlen2, hq2⟩ := retry_cycle fs s j k hs hend.2
      have hround : round fs (errors 0) s = .returned s2 := by
        have htimer : (onUploadFinished true s).m_retryTimer = some (2000 * (k + 1)) :=
          (retry_cycle fs s j k hs hend.2).1
        rw [hend.1, round, fireTimer, htimer]
        exact h2
      have hready2 : LaterReady fs j s2 := by
        intro j1 it1 hj1 hget
        rw [hq2 j1 (by omega)] at hget
        exact hready j1 it1 hj1 hget
      obtain ⟨n, s1, h1, h3, h4, h5, h6⟩ := ih s2 j (k + 1) hin2 (by rw [hmax2]; omega) hready2
        (by rw [hlen2]; exact hnext) (fun t => errors (t + 1))
      refine ⟨n + 1, s1, ?_, h3, h4.trans hmax2, h5.trans hlen2, h6⟩
      rw [range_succ_map]
      simp only [rounds, forEach, hround, Outcome.andThen]
      exact h1

/-- From the dispatch of the item at `j0`, every later item of the queue is dispatched
after finitely many rounds, with retry counter 0, however the requests end. -/
theorem eventually_dispatched (fs : FileSystem) :
    ∀ (g : Nat) (s : UploadManager) (j0 : Nat) (k : Int), InFlight fs j0 k s →
      LaterReady fs j0 s → j0 + g + 1 < s.m_uploadQueue.length →
      ∀ errors : Nat → Bool, ∃ n s1, rounds fs ((List.range n).map errors) s = .returned s1
        ∧ InFlight fs (j0 + g + 1) 0 s1
        ∧ s1.m_maxRetries = s.m_maxRetries
        ∧ s1.m_uploadQueue.length = s.m_uploadQueue.length
        ∧ LaterReady fs (j0 + g + 1) s1 := by
  intro g
  induction g with
  | zero =>
    intro s j0 k hs hready hlen errors
    exact eventually_next fs _ s j0 k hs (le_refl _) hready hlen errors
  | succ g ih =>
    intro s j0 k hs hready hlen errors
    obtain ⟨n1, s1, h1, hin1, hmax1, hlen1, hready1⟩ := ih s j0 k hs hready (by omega) errors
    obtain ⟨n2, s2, h2, hin2, hmax2, hlen2, hready2⟩ :=
      eventually_next fs _ s1 (j0 + g + 1) 0 hin1 (le_refl _) hready1 (by rw [hlen1]; omega)
        (fun t => errors (n1 + t))
    refine ⟨n1 + n2, s2, ?_, hin2, hmax2.trans hmax1, hlen2.trans hlen1, hready2⟩
    rw [range_add_map, rounds_append, h1]
    exact h2

/-- An exhausted item followed by items whose files are in place. Let the upload of the
item at position i be in flight with the retry counter not below max-retries, and let
the files of the later items exist and be open or openable. When the reply fails, the
status of the item becomes `Failed`, the retry counter is 0, the current index is i+1 and
a single-shot timer of 100 ms is pending instead of the retry timer. When that timer
fires the next item is dispatched with retry counter 0; and every later item of the queue
is dispatched, with retry counter 0, after finitely many further rounds of completion and
timer, whatever the outcomes of the requests are. -/
theorem exhausted_item_then_later_dispatched (fs : FileSystem) (s : UploadManager) (i : Nat)
    (k : Int) (hs : InFlight fs i k s) (hex : ¬ k < s.m_maxRetries)
    (hready : LaterReady fs i s) :
    statusAt i (onUploadFinished true s) = some "Failed"
    ∧ (onUploadFinished true s).m_currentRetries = 0
    ∧ (onUploadFinished true s).m_currentIndex = (i : Int) + 1
    ∧ (onUploadFinished true s).singleShots = [100]
    ∧ (onUploadFinished true s).m_retryTimer = none
    ∧ (i + 1 < s.m_uploadQueue.length →
        ∃ s1, onSingleShot fs 0 (onUploadFinished true s) = .returned s1
          ∧ InFlight fs (i + 1) 0 s1)
    ∧ ∀ j, i < j → j < s.m_uploadQueue.length → ∀ errors : Nat → Bool,
        ∃ n sj, rounds fs (true :: (List.range n).map errors) s = .returned sj
          ∧ InFlight fs j 0 sj := by
  have hs0 := hs
  obtain ⟨_, _, _, hidx, hret, htimer, hshots, item, hitem, _, _, hreply⟩ := hs
  have hlen := lt_length_of_get? hitem
  have hfin := onUploadFinished_failed s i _ hreply hidx hlen (by rw [hret]; exact hex)
  refine ⟨?_, by rw [hfin], by rw [hfin], by rw [hfin]; simp [hshots], by rw [hfin]; exact htimer,
    fun hnext => ?_, fun j hij hj errors => ?_⟩
  · rw [hfin]
    simp only [statusAt, get?_modifyAt_self, hitem, Option.map_some']
  · obtain ⟨s1, h1, h2, _⟩ := round_advance fs s i k true hs0 (Or.inr hex) hready hnext
    refine ⟨s1, ?_, h2⟩
    have ht : (onUploadFinished true s).m_retryTimer = none := by rw [hfin]; exact htimer
    rw [round, fireTimer, ht] at h1
    exact h1
  · obtain ⟨s1, h1, h2, _, hlen1, hready1⟩ :=
      round_advance fs s i k true hs0 (Or.inr hex) hready (by omega)
    rcases Nat.eq_or_lt_of_le (Nat.succ_le_of_lt hij) with hj1 | hj1
    · refine ⟨0, s1, ?_, hj1 ▸ h2⟩
      simp only [rounds, List.range_zero, List.map_nil, forEach, h1, Outcome.andThen]
    · obtain ⟨g, hg⟩ : ∃ g, j = i + 1 + g + 1 := ⟨j - (i + 1) - 1, by omega⟩
      subst hg
      obtain ⟨n, sj, h3, h4, _⟩ := eventually_dispatched fs g s1 (i + 1) 0 h2 hready1
        (by rw [hlen1]; exact hj) errors
      refine ⟨n, sj, ?_, h4⟩
      simp only [rounds, forEach, h1, Outcome.andThen] at h3 ⊢
      exact h3

open Example

theorem uploadingOne_inFlight : InFlight uploadTree 0 0 uploadingOne :=
  ⟨by decide, by decide, by decide, by decide, by decide, by decide, by decide,
    itemInFlight, by decide, by decide, by decide, by decide⟩

theorem retriedThree_inFlight : InFlight uploadTree 0 1 retriedThree :=
  ⟨by decide, by decide, by decide, by decide, by decide, by decide, by decide,
    itemInFlight, by decide, by decide, by decide, by decide⟩

theorem retriedThree_laterReady : LaterReady uploadTree 0 retriedThree := by
  intro j it hj hget
  have hlen := lt_length_of_get? hget
  have h3 : retriedThree.m_uploadQueue.length = 3 := by decide
  have hj2 : j = 1 ∨ j = 2 := by omega
  rcases hj2 with rfl | rfl
  · have h : retriedThree.m_uploadQueue.get? 1 = some (UploadItem.ofPath uploadTree "/u/b.mp4") := by
      decide
    rw [h] at hget
    cases hget
    exact ⟨by decide, Or.inr ⟨by decide, by decide⟩⟩
  · have h : retriedThree.m_uploadQueue.get? 2 = some (UploadItem.ofPath uploadTree "/u/c.mp4") := by
      decide
    rw [h] at hget
    cases hget
    exact ⟨by decide, Or.inr ⟨by decide, by decide⟩⟩

/-- C3 amended, at an instance: one file is queued with at most one retry; its first
failure starts the retry timer with 2000 ms, and its second failure makes it `Failed`. -/
theorem C3_retry_schedule_witness :
    (∃ sk, failures uploadTree 0 uploadingOne = .returned sk
      ∧ (onUploadFinished true sk).m_retryTimer = some (2000 * ((1 : Nat) : Int)))
    ∧ (∃ sm, failures uploadTree uploadingOne.m_maxRetries.toNat uploadingOne = .returned sm
      ∧ statusAt 0 (onUploadFinished true sm) = some "Failed") := by
  have h := C3_retry_schedule uploadTree uploadingOne 0 uploadingOne_inFlight (by decide)
  obtain ⟨sk, h1, _, h3, _⟩ := h.1 1 (le_refl 1) (by decide)
  obtain ⟨sm, h4, _, h6, _⟩ := h.2.1
  exact ⟨⟨sk, h1, h3⟩, ⟨sm, h4, h6⟩⟩

/-- The statement `exhausted_item_then_later_dispatched` at an instance: of three queued
files, all in place, the first has used up its retries; when it fails again it becomes
`Failed`, and the third file is dispatched with retry counter 0 even if every request
fails. -/
theorem exhausted_item_then_later_dispatched_example :
    statusAt 0 (onUploadFinished true retriedThree) = some "Failed"
    ∧ ∃ n sj, rounds uploadTree (true :: (List.range n).map (fun _ => true)) retriedThree
        = .returned sj ∧ InFlight uploadTree 2 0 sj :=
  have h := exhausted_item_then_later_dispatched uploadTree retriedThree 0 1
    retriedThree_inFlight (by decide) retriedThree_laterReady
  ⟨h.1, h.2.2.2.2.2.2 2 (by decide) (by decide) (fun _ => true)⟩

/-- C10, evaluated at the failing input: of three queued files the first is in flight and
has used up its retries (one retry allowed, one used), and `/u/b.mp4` has been deleted.
The reply fails: the first item becomes `Failed`, the retry counter is 0, the current
index is 1 and the 100 ms timer is pending, as claimed. When that timer fires,
processNextUpload takes m_queueMutex, marks the second item `File not found`, moves the
index to 2 and calls itself while it holds the mutex: the call does not return, and the
third item, whose file is in place, stays `Pending` without a request. -/
theorem C10_missing_next_file_blocks :
    retriedThree.m_currentRetries = 1
    ∧ retriedThree.m_maxRetries = 1
    ∧ retriedThree.m_currentReply = some ⟨0, "/u/a.mp4"⟩
    ∧ queueStatuses (onUploadFinished true retriedThree) = ["Failed", "Pending", "Pending"]
    ∧ (onUploadFinished true retriedThree).m_currentRetries = 0
    ∧ (onUploadFinished true retriedThree).m_currentIndex = 1
    ∧ (onUploadFinished true retriedThree).singleShots = [100]
    ∧ (onUploadFinished true retriedThree).m_queueMutex = false
    ∧ secondGoneTree.fileExists "/u/b.mp4" = false
    ∧ secondGoneTree.fileExists "/u/c.mp4" = true
    ∧ secondGoneTree.canOpen "/u/c.mp4" = true
    ∧ (onSingleShot secondGoneTree 0 (onUploadFinished true retriedThree)).isReturned = false
    ∧ onSingleShot secondGoneTree 0 (onUploadFinished true retriedThree)
        = .blocked (onSingleShot secondGoneTree 0 (onUploadFinished true retriedThree)).state
    ∧ queueStatuses (onSingleShot secondGoneTree 0 (onUploadFinished true retriedThree)).state
        = ["Failed", "File not found", "Pending"]
    ∧ (onSingleShot secondGoneTree 0 (onUploadFinished true retriedThree)).state.m_currentIndex
        = 2
    ∧ (onSingleShot secondGoneTree 0 (onUploadFinished true retriedThree)).state.m_currentReply
        = none
    ∧ (onSingleShot secondGoneTree 0 (onUploadFinished true retriedThree)).state.m_queueMutex
        = true := by
  decide

open Example

/-! ## Failures followed by a success -/

/-- C11. Failures followed by a success in the upload manager: let the upload of the item
at position i be in flight, freshly dispatched, with the file of the item in place. For
every k <= max-retries, after k rounds of failure and retry the upload is in flight again,
and when it then finishes without error the item has status `Completed` and progress 100,
the retry counter is 0 and the current index is i+1. -/
theorem C11_failures_then_success (fs : FileSystem) (s : UploadManager) (i : Nat)
    (hs : InFlight fs i 0 s) (k : Nat) (hk : (k : Int) ≤ s.m_maxRetries) :
    ∃ sk, failures fs k s = .returned sk ∧ InFlight fs i (k : Int) sk
      ∧ statusAt i (onUploadFinished false sk) = some "Completed"
      ∧ progressAt i (onUploadFinished false sk) = some 100
      ∧ (onUploadFinished false sk).m_currentRetries = 0
      ∧ (onUploadFinished false sk).m_currentIndex = (i : Int) + 1
      ∧ (onUploadFinished false sk).m_currentReply = none := by
  obtain ⟨sk, hfail, hin, _⟩ := failures_inFlight fs i k s 0 hs (by omega)
  have hcast : (0 : Int) + (k : Int) = (k : Int) := by omega
  rw [hcast] at hin
  have hin0 := hin
  obtain ⟨_, _, _, hidx, _, _, _, item, hitem, _, _, hreply⟩ := hin
  have hfin := onUploadFinished_success sk i _ hreply hidx (lt_length_of_get? hitem)
  refine ⟨sk, hfail, hin0, ?_, ?_, by rw [hfin], by rw [hfin], by rw [hfin]⟩
  · rw [hfin]
    simp only [statusAt, get?_modifyAt_self, hitem, Option.map_some']
  · rw [hfin]
    simp only [progressAt, get?_modifyAt_self, hitem, Option.map_some']

theorem uploadingWithThreeRetries_inFlight :
    InFlight uploadTree 0 0 uploadingWithThreeRetries :=
  ⟨by decide, by decide, by decide, by decide, by decide, by decide, by decide,
    itemInFlight, by decide, by decide, by decide, by decide⟩

/-- C11, at an instance: with max-retries 3, the upload of the only queued file fails twice
and then succeeds: the final status is `Completed` and the retry counter is 0. -/
theorem C11_failures_then_success_witness :
    uploadingWithThreeRetries.m_maxRetries = 3
    ∧ ∃ sk, failures uploadTree 2 uploadingWithThreeRetries = .returned sk
      ∧ statusAt 0 (onUploadFinished false sk) = some "Completed"
      ∧ (onUploadFinished false sk).m_currentRetries = 0 := by
  obtain ⟨sk, h1, _, h3, _, h5, _⟩ :=
    C11_failures_then_success uploadTree uploadingWithThreeRetries 0
      uploadingWithThreeRetries_inFlight 2 (by decide)
  exact ⟨by decide, sk, h1, h3, h5⟩

/-! ## A file that has vanished before its dispatch -/

/-- C12, evaluated at the failing input: three files are queued and the first is deleted
before startUpload. The item gets status `File not found`, no request is created, the
retry counter stays 0, no timer is started and the current index moves to 1; but the call
of processNextUpload on itself then waits for the queue mutex that the outer call holds:
startUpload does not return and the second item stays `Pending`, without a request. -/
theorem C12_missing_file_blocks :
    (queuedThree.m_uploadQueue.map (fun it => (it.filePath, it.status)))
        = [("/u/a.mp4", "Pending"), ("/u/b.mp4", "Pending"), ("/u/c.mp4", "Pending")]
    ∧ vanishedTree.fileExists "/u/a.mp4" = false
    ∧ vanishedTree.fileExists "/u/b.mp4" = true
    ∧ (startUpload vanishedTree queuedThree).isReturned = false
    ∧ startUpload vanishedTree queuedThree
        = .blocked (startUpload vanishedTree queuedThree).state
    ∧ ((startUpload vanishedTree queuedThree).state.m_uploadQueue.map
          (fun it => (it.filePath, it.status)))
        = [("/u/a.mp4", "File not found"), ("/u/b.mp4", "Pending"), ("/u/c.mp4", "Pending")]
    ∧ (startUpload vanishedTree queuedThree).state.m_currentReply = none
    ∧ (startUpload vanishedTree queuedThree).state.m_currentRetries = 0
    ∧ (startUpload vanishedTree queuedThree).state.m_retryTimer = none
    ∧ (startUpload vanishedTree queuedThree).state.singleShots = []
    ∧ (startUpload vanishedTree queuedThree).state.m_currentIndex = 1
    ∧ (startUpload vanishedTree queuedThree).state.m_queueMutex = true := by
  decide

end UploadManager

namespace FolderSync
open Example

/-! ## A forced sync while a sync is in progress -/

/-- C19. A call of forceSync while a sync is in progress returns at once and leaves the
whole state as it was: no queue item, no index entry and no flag changes, no request is
started, no timer is scheduled and no signal is emitted. -/
theorem C19_forceSync_while_syncing (fs : FileSystem) (s : FolderSync)
    (hsync : s.m_isSyncing = true) : forceSync fs s = .returned s := by
  simp only [forceSync, hsync, ↓reduceIte]

/-- C19, at an instance: in the example state the upload of `/a/x.mp4` is in flight, and
forceSync returns the state unchanged. -/
theorem C19_forceSync_while_syncing_witness :
    syncing.m_isSyncing = true ∧ forceSync mediaTree syncing = .returned syncing :=
  ⟨by decide, C19_forceSync_while_syncing mediaTree syncing (by decide)⟩

/-! ## A missing file at dispatch -/

/-- C13, evaluated at the failing input: `/a/x.mp4` and `/a/b/y.mp4` are queued as
`Pending` and the first file is deleted before the forced sync. The item is marked
`File not found` and no request is made, but the engine stays in the syncing state:
further calls of forceSync, timer ticks, reply callbacks and processSyncQueue itself
change nothing, and `/a/b/y.mp4`, whose file exists, stays `Pending` and is not
dispatched. -/
theorem C13_missing_file_halts_queue :
    summary tracking.m_syncQueue
        = [("/a/x.mp4", 10, 1, "Pending"), ("/a/b/y.mp4", 20, 1, "Pending")]
    ∧ tracking.m_isSyncing = false
    ∧ deletedTree.fileExists "/a/x.mp4" = false
    ∧ deletedTree.fileExists "/a/b/y.mp4" = true
    ∧ (forceSync deletedTree tracking).isReturned = true
    ∧ summary (forceSync deletedTree tracking).state.m_syncQueue
        = [("/a/x.mp4", 10, 1, "File not found"), ("/a/b/y.mp4", 20, 1, "Pending")]
    ∧ (forceSync deletedTree tracking).state.m_currentReply = none
    ∧ (forceSync deletedTree tracking).state.m_isSyncing = true
    ∧ run [.forceSync deletedTree, .onSyncTimeout deletedTree,
          .onNetworkReplyFinished deletedTree false, .processSyncQueue deletedTree]
        (forceSync deletedTree tracking).state
        = .returned (forceSync deletedTree tracking).state := by
  decide

/-! ## Stopping the engine -/

/-- C20, evaluated at the failing input: the upload of `/a/x.mp4` is in flight and
`/a/b/y.mp4` is `Pending` when stopSync is called. The abort delivers the finished
callback, which counts a failure, schedules a retry timer and dispatches the next item;
so after stopSync has returned, syncing is disabled and the syncing flag is off, but the
request of `/a/b/y.mp4` is outstanding and a single-shot timer is pending. A second call
of stopSync changes nothing, the outstanding request included. -/
theorem C20_stopSync_starts_next_request :
    syncing.m_currentReply = some (.upload "/a/x.mp4")
    ∧ syncing.m_isSyncing = true
    ∧ summary syncing.m_syncQueue
        = [("/a/x.mp4", 10, 1, "Syncing"), ("/a/b/y.mp4", 20, 1, "Pending")]
    ∧ (stopSync mediaTree syncing).isReturned = true
    ∧ (stopSync mediaTree syncing).state.m_isEnabled = false
    ∧ (stopSync mediaTree syncing).state.m_isSyncing = false
    ∧ (stopSync mediaTree syncing).state.m_currentReply = some (.upload "/a/b/y.mp4")
    ∧ (stopSync mediaTree syncing).state.singleShots = [2000]
    ∧ summary (stopSync mediaTree syncing).state.m_syncQueue
        = [("/a/x.mp4", 10, 1, "Syncing"), ("/a/b/y.mp4", 20, 1, "Syncing")]
    ∧ stopSync mediaTree (stopSync mediaTree syncing).state
        = .returned (stopSync mediaTree syncing).state := by
  decide

open Example

/-! ## The order of dispatch -/

theorem eligible_iff (item : SyncItem) :
    eligible item = true ↔ item.status = "Pending" ∨ item.status = "Modified" := by
  simp [eligible]

theorem nextItemIndex_eq_none {q : List SyncItem} (h : ∀ it ∈ q, eligible it = false) :
    nextItemIndex q = none := by
  induction q with
  | nil => rfl
  | cons a q ih =>
    have ha := h a (List.mem_cons_self _ _)
    simp only [nextItemIndex, ha, Bool.false_eq_true, ↓reduceIte,
      ih (fun it hit => h it (List.mem_cons_of_mem _ hit)), Option.map_none']

theorem indexOf_of_nodup :
    ∀ (q : List SyncItem) (i : Nat) (it it1 : SyncItem), (queuePaths q).Nodup →
      q.get? i = some it → it1.localPath = it.localPath → indexOf q it1 = (i : Int)
  | [], i, _, _, _, h, _ => by cases i <;> cases h
  | a :: q, 0, it, it1, _, h, hp => by
    simp only [List.get?_cons_zero, Option.some.injEq] at h
    subst h
    simp [indexOf, List.findIdx_cons, hp]
  | a :: q, i + 1, it, it1, hnd, h, hp => by
    simp only [List.get?_cons_succ] at h
    simp only [queuePaths, List.map_cons, List.nodup_cons] at hnd
    have hne : ¬ a.localPath = it1.localPath := by
      intro heq
      apply hnd.1
      rw [heq, hp]
      exact List.mem_map.2 ⟨it, List.get?_mem h, rfl⟩
    have ih := indexOf_of_nodup q i it it1 hnd.2 h hp
    have hlt : i < q.length := by
      rcases Nat.lt_or_ge i q.length with h1 | h1
      · exact h1
      · rw [List.get?_eq_none.2 h1] at h; cases h
    simp only [indexOf] at ih ⊢
    split at ih
    · rename_i hfi
      have hfi' : List.findIdx (fun x => x.localPath == it1.localPath) q = i := by
        have := ih; omega
      have hb : (a.localPath == it1.localPath) = false := by simpa using hne
      simp only [List.findIdx_cons, hb, cond_false, hfi', List.length_cons,
        Nat.add_lt_add_iff_right, hlt, ↓reduceIte, Nat.cast_add, Nat.cast_one]
    · omega

theorem nextItemIndex_eq_some :
    ∀ (q : List SyncItem) (i : Nat) (item : SyncItem), q.get? i = some item →
      eligible item = true → (∀ j it, j < i → q.get? j = some it → eligible it = false) →
      nextItemIndex q = some i
  | [], i, _, h, _, _ => by cases i <;> cases h
  | a :: q, 0, item, h, he, _ => by
    simp only [List.get?_cons_zero, Option.some.injEq] at h
    subst h
    simp only [nextItemIndex, he, ↓reduceIte]
  | a :: q, i + 1, item, h, he, hlt => by
    simp only [List.get?_cons_succ] at h
    have ha : eligible a = false := hlt 0 a (Nat.succ_pos i) rfl
    have ih := nextItemIndex_eq_some q i item h he
      (fun j it hj hget => hlt (j + 1) it (Nat.succ_lt_succ hj) hget)
    simp only [nextItemIndex, ha, Bool.false_eq_true, ↓reduceIte, ih, Option.map_some']

theorem eligible_eq_false_iff (item : SyncItem) :
    eligible item = false ↔ item.status ≠ "Pending" ∧ item.status ≠ "Modified" := by
  simp [eligible]

/-- C18 (counterexample). With `/a/x.mp4` and `/a/b/y.mp4` queued as Pending, no sync in
progress and `/a/x.mp4` deleted from disk, processSyncQueue picks the first item but
dispatches nothing: no request exists afterwards and the item ends as "File not found",
not "Syncing". -/
theorem C18_counterexample :
    queueStatuses tracking = ["Pending", "Pending"]
    ∧ tracking.m_isSyncing = false
    ∧ deletedTree.fileExists "/a/x.mp4" = false
    ∧ ∃ s1, processSyncQueue deletedTree tracking = .returned s1
      ∧ s1.m_currentReply = none
      ∧ queuePaths s1.m_syncQueue = ["/a/x.mp4", "/a/b/y.mp4"]
      ∧ queueStatuses s1 = ["File not found", "Pending"] := by
  refine ⟨by decide, by decide, by decide, _, rfl, ?_, ?_, ?_⟩ <;> decide

theorem updateItemStatus_at (i : Nat) (st : QString) (s : FolderSync)
    (hi : i < s.m_syncQueue.length) :
    updateItemStatus (i : Int) st s =
      emit { s with
        m_syncQueue := modifyAt (fun it => { it with status := st }) i s.m_syncQueue }
        (.itemStatusChanged (i : Int) st) := by
  unfold updateItemStatus
  have h : 0 ≤ (i : Int) ∧ (i : Int) < (s.m_syncQueue.length : Int) :=
    ⟨Int.ofNat_nonneg i, Int.ofNat_lt.2 hi⟩
  simp only [h, and_self, ↓reduceIte, Int.toNat_ofNat]

/-- C18 (amended). Dispatch order in FolderSync: a call of processSyncQueue made while no
sync is in progress (outside the locked sections of the class, the queue holding each
path once) returns. When no queued item is "Pending" or "Modified" it dispatches nothing
and leaves the queue as it is. Otherwise it picks the first item in queue order with one
of these two statuses, marks a sync as in progress and changes that item only: when the
item is a directory or its file exists, the request for that item is started
(createDirectory for a directory, upload for a file) and its status becomes "Syncing";
when the file does not exist, no request is started and its status becomes
"File not found". -/
theorem C18_dispatch_first_eligible (fs : FileSystem) (s : FolderSync)
    (hfree : s.m_syncMutex = false) (hidle : s.m_isSyncing = false)
    (hnd : (queuePaths s.m_syncQueue).Nodup) :
    ((∀ it ∈ s.m_syncQueue, it.status ≠ "Pending" ∧ it.status ≠ "Modified") →
      ∃ s1, processSyncQueue fs s = .returned s1
        ∧ s1.m_syncQueue = s.m_syncQueue ∧ s1.m_currentReply = s.m_currentReply
        ∧ s1.m_isSyncing = false)
    ∧ ∀ (i : Nat) (item : SyncItem), s.m_syncQueue.get? i = some item →
        (item.status = "Pending" ∨ item.status = "Modified") →
        (∀ j it, j < i → s.m_syncQueue.get? j = some it →
          it.status ≠ "Pending" ∧ it.status ≠ "Modified") →
        ∃ s1, processSyncQueue fs s = .returned s1
          ∧ s1.m_isSyncing = true
          ∧ s1.m_syncQueue.length = s.m_syncQueue.length
          ∧ (∀ j, j ≠ i → s1.m_syncQueue.get? j = s.m_syncQueue.get? j)
          ∧ (item.isDirectory = true →
              s1.m_currentReply = some (.createDirectory item.localPath)
              ∧ s1.m_syncQueue.get? i = some { item with status := "Syncing" })
          ∧ (item.isDirectory = false → fs.fileExists item.localPath = true →
              s1.m_currentReply = some (.upload item.localPath)
              ∧ s1.m_syncQueue.get? i = some { item with status := "Syncing" })
          ∧ (item.isDirectory = false → fs.fileExists item.localPath = false →
              s1.m_currentReply = s.m_currentReply
              ∧ s1.m_syncQueue.get? i = some { item with status := "File not found" }) := by
  constructor
  · intro hnone
    have hnext : nextItemIndex s.m_syncQueue = none :=
      nextItemIndex_eq_none (fun it hit => (eligible_eq_false_iff it).2 (hnone it hit))
    exact ⟨_, processSyncQueue_none fs s hfree hidle hnext, rfl, rfl, hidle⟩
  · intro i item hitem hst hfirst
    have hnext : nextItemIndex s.m_syncQueue = some i :=
      nextItemIndex_eq_some _ i item hitem ((eligible_iff item).2 hst)
        (fun j it hj hget => (eligible_eq_false_iff it).2 (hfirst j it hj hget))
    have hlen : i < s.m_syncQueue.length := by
      rcases Nat.lt_or_ge i s.m_syncQueue.length with h1 | h1
      · exact h1
      · rw [List.get?_eq_none.2 h1] at hitem; cases hitem
    have hself : ∀ st : QString,
        (modifyAt (fun it : SyncItem => { it with status := st }) i s.m_syncQueue).get? i
          = some { item with status := st } := by
      intro st
      rw [get?_modifyAt_self, hitem]
      rfl
    have h := processSyncQueue_some fs s hfree hidle hnext hitem
    dsimp only at h
    by_cases hdir : item.isDirectory = true
    · simp only [hdir, ↓reduceIte, createDirectory, emit] at h
      exact ⟨_, h, rfl, length_modifyAt _ _ _,
        fun j hj => get?_modifyAt_ne _ _ _ _ (Ne.symm hj), fun _ => ⟨rfl, hself _⟩,
        fun h2 => (by rw [hdir] at h2; cases h2), fun h2 => (by rw [hdir] at h2; cases h2)⟩
    · have hdir1 : item.isDirectory = false := by simpa using hdir
      by_cases hex : fs.fileExists item.localPath = true
      · simp only [hdir1, Bool.false_eq_true, ↓reduceIte, uploadFile, hex, Bool.not_true,
          emit] at h
        exact ⟨_, h, rfl, length_modifyAt _ _ _,
          fun j hj => get?_modifyAt_ne _ _ _ _ (Ne.symm hj),
          fun h2 => (by rw [hdir1] at h2; cases h2), fun _ _ => ⟨rfl, hself _⟩,
          fun _ h2 => (by rw [hex] at h2; cases h2)⟩
      · have hex1 : fs.fileExists item.localPath = false := by simpa using hex
        have hidx : ∀ it1 : SyncItem, it1.localPath = item.localPath →
            indexOf (modifyAt (fun it : SyncItem => { it with status := "Syncing" }) i
              s.m_syncQueue) it1 = (i : Int) := fun it1 h1 =>
          indexOf_of_nodup _ i _ it1 (by rw [queuePaths_setStatus]; exact hnd) (hself _) h1
        simp only [hdir1, Bool.false_eq_true, ↓reduceIte, uploadFile, hex1, Bool.not_false] at h
        rw [hidx { item with status := "Syncing", isDirectory := false } rfl] at h
        rw [updateItemStatus_at i _ _ (by simp only [length_modifyAt]; exact hlen)] at h
        simp only [emit] at h
        refine ⟨_, h, rfl, ?_, ?_, fun h2 => (by rw [hdir1] at h2; cases h2),
          fun _ h2 => (by rw [hex1] at h2; cases h2), fun _ _ => ⟨rfl, ?_⟩⟩
        · simp only [length_modifyAt]
        · intro j hj
          rw [get?_modifyAt_ne _ _ _ _ (Ne.symm hj), get?_modifyAt_ne _ _ _ _ (Ne.symm hj)]
        · rw [get?_modifyAt_self, hself]
          rfl

/-- C18 (witness). The amended statement at the state that tracks `/a/x.mp4` and
`/a/b/y.mp4`, both Pending. -/
theorem C18_dispatch_first_eligible_witness :
    tracking.m_syncMutex = false ∧ tracking.m_isSyncing = false
    ∧ (queuePaths tracking.m_syncQueue).Nodup
    ∧ ∃ s1, processSyncQueue mediaTree tracking = .returned s1
      ∧ s1.m_currentReply = some (.upload "/a/x.mp4")
      ∧ queueStatuses s1 = ["Syncing", "Pending"] := by
  have h := (C18_dispatch_first_eligible mediaTree tracking (by decide) (by decide)
    (by decide)).2 0 (SyncItem.ofPath mediaTree "/a/x.mp4") (by decide) (by decide)
    (fun j _ hj => absurd hj (Nat.not_lt_zero j))
  obtain ⟨s1, hs1, _, _, _, _, hfile, _⟩ := h
  refine ⟨by decide, by decide, by decide, s1, hs1, (hfile (by decide) (by decide)).1, ?_⟩
  have h3 : s1 = (processSyncQueue mediaTree tracking).state := by
    rw [hs1]; rfl
  rw [h3]
  decide

open Example

/-! ## The syncFinished signal -/

theorem finishedOnce_of_eq {s0 t : FolderSync} (h : finishedCount t = finishedCount s0) :
    FinishedOnce s0 t :=
  ⟨by rw [h]; exact Nat.le_succ _, fun hlt => absurd hlt (by rw [h]; exact Nat.lt_irrefl _)⟩

theorem finishedCount_emit (s : FolderSync) (sig : Signal) (h : sig ≠ .syncFinished) :
    finishedCount (emit s sig) = finishedCount s := by
  simp only [finishedCount, emit, List.count_append, List.count_cons, List.count_nil]
  have : (sig == Signal.syncFinished) = false := by simpa using h
  simp [this]

theorem finishedCount_emit_finished (s : FolderSync) :
    finishedCount (emit s .syncFinished) = finishedCount s + 1 := by
  simp [finishedCount, emit, List.count_append]

theorem finishedCount_updateItemStatus (index : Int) (st : QString) (s : FolderSync) :
    finishedCount (updateItemStatus index st s) = finishedCount s := by
  unfold updateItemStatus
  split
  · exact finishedCount_emit _ _ (fun h => by cases h)
  · rfl

theorem finishedCount_uploadFile (fs : FileSystem) (item : SyncItem) (s : FolderSync) :
    finishedCount (uploadFile fs item s) = finishedCount s := by
  unfold uploadFile
  split
  · exact finishedCount_updateItemStatus _ _ _
  · rfl

theorem scanFile_finishedCount (fs : FileSystem) (p : QString) (c : Nat) (s : FolderSync)
    (hs : finishedCount s = c) : finishedCount (scanFile fs p s).state = c := by
  unfold scanFile
  refine state_withSyncMutex (P := fun t => finishedCount t = c) (fun _ _ h => h) hs
    (fun s hs => ?_)
  split
  · exact hs
  · split
    · exact hs
    · split
      · exact hs
      · split
        · split
          · exact hs
          · exact hs
        · exact hs

theorem scanFolder_finishedCount (fs : FileSystem) (p : QString) (c : Nat) (s : FolderSync)
    (hs : finishedCount s = c) : finishedCount (scanFolder fs p s).state = c :=
  state_forEach (P := fun t => finishedCount t = c)
    (fun x s hs => scanFile_finishedCount fs x c s hs) _ s hs

theorem addFolder_finishedCount (fs : FileSystem) (p : QString) (c : Nat) (s : FolderSync)
    (hs : finishedCount s = c) : finishedCount (addFolder fs p s).state = c := by
  unfold addFolder
  refine state_withSyncMutex (P := fun t => finishedCount t = c) (fun _ _ h => h) hs
    (fun s hs => ?_)
  split
  · exact hs
  · refine state_andThen (P := fun t => finishedCount t = c)
      (scanFolder_finishedCount fs p c _ hs) (fun s hs => ?_)
    show finishedCount (emit _ (.folderAdded p)) = c
    rw [finishedCount_emit _ _ (fun h => by cases h)]
    exact hs

theorem removeFolder_finishedCount (fs : FileSystem) (p : QString) (c : Nat) (s : FolderSync)
    (hs : finishedCount s = c) : finishedCount (removeFolder fs p s).state = c := by
  unfold removeFolder
  refine state_withSyncMutex (P := fun t => finishedCount t = c) (fun _ _ h => h) hs
    (fun s hs => ?_)
  split
  · exact hs
  · show finishedCount (emit _ (.folderRemoved p)) = c
    rw [finishedCount_emit _ _ (fun h => by cases h)]
    exact hs

theorem processSyncQueue_finishedOnce (s0 : FolderSync) (fs : FileSystem) (s : FolderSync)
    (hs : finishedCount s = finishedCount s0) :
    FinishedOnce s0 (processSyncQueue fs s).state := by
  unfold processSyncQueue
  split
  · split
    · rename_i hq
      refine ⟨?_, fun _ it hit => ?_⟩
      · show finishedCount (emit s .syncFinished) ≤ _
        rw [finishedCount_emit_finished, hs]
      · have hnil : s.m_syncQueue = [] := List.isEmpty_iff.1 hq
        rw [show (Outcome.returned (emit s Signal.syncFinished)).state.m_syncQueue
          = s.m_syncQueue from rfl, hnil] at hit
        cases hit
    · exact finishedOnce_of_eq hs
  · refine state_withSyncMutex_held (Q := FinishedOnce s0) (fun _ _ h => h)
      (finishedOnce_of_eq hs) ?_
    dsimp only
    split
    · rename_i hnext
      refine ⟨?_, fun _ it hit => nextItemIndex_none hnext it hit⟩
      show finishedCount (emit _ .syncFinished) ≤ _
      rw [finishedCount_emit_finished]
      exact Nat.succ_le_succ (Nat.le_of_eq hs)
    · split
      · exact finishedOnce_of_eq hs
      · refine finishedOnce_of_eq ?_
        show finishedCount (emit _ _) = _
        rw [finishedCount_emit _ _ (fun h => by cases h)]
        split
        · exact hs
        · rw [finishedCount_uploadFile]
          exact hs

theorem forceSync_finishedOnce (s0 : FolderSync) (fs : FileSystem) (s : FolderSync)
    (hs : finishedCount s = finishedCount s0) : FinishedOnce s0 (forceSync fs s).state := by
  unfold forceSync
  split
  · exact finishedOnce_of_eq hs
  · exact processSyncQueue_finishedOnce s0 fs _ hs

theorem onNetworkReplyFinished_finishedOnce (s0 : FolderSync) (fs : FileSystem) (e : Bool)
    (s : FolderSync) (hs : finishedCount s = finishedCount s0) :
    FinishedOnce s0 (onNetworkReplyFinished fs e s).state := by
  unfold onNetworkReplyFinished
  split
  · exact finishedOnce_of_eq hs
  · refine processSyncQueue_finishedOnce s0 fs _ ?_
    show finishedCount (ite _ _ _) = _
    split
    · exact hs
    · split
      · exact hs
      · rw [finishedCount_emit _ _ (fun h => by cases h)]
        exact hs

theorem state_andThen2 {P Q : FolderSync → Prop} {o : Outcome FolderSync}
    {f : FolderSync → Outcome FolderSync} (ho : P o.state) (hstop : Q o.state)
    (hf : ∀ s, P s → Q (f s).state) : Q (o.andThen f).state := by
  cases o with
  | returned s => exact hf s ho
  | blocked s => exact hstop
  | crashed s => exact hstop

theorem startSync_finishedOnce (fs : FileSystem) (s : FolderSync) :
    FinishedOnce s (startSync fs s).state := by
  unfold startSync
  split
  · exact finishedOnce_of_eq rfl
  · have h1 : finishedCount (forEach
        (fun folder s => if fs.dirExists folder then addFolder fs folder s else .returned s)
        s.settingsFolders { s with m_isEnabled := true, m_syncTimer := true }).state
        = finishedCount s := by
      refine state_forEach (P := fun t => finishedCount t = finishedCount s) ?_ _ _ rfl
      intro x t ht
      dsimp only
      split
      · exact addFolder_finishedCount fs x _ t ht
      · exact ht
    exact state_andThen2 (P := fun t => finishedCount t = finishedCount s)
      (Q := FinishedOnce s) h1 (finishedOnce_of_eq h1)
      (fun t ht => forceSync_finishedOnce s fs t ht)

theorem stopSync_finishedOnce (fs : FileSystem) (s : FolderSync) :
    FinishedOnce s (stopSync fs s).state := by
  unfold stopSync
  dsimp only
  split
  · refine state_andThen (P := FinishedOnce s) ?_ (fun t ht => ht)
    split
    · exact onNetworkReplyFinished_finishedOnce s fs true _ rfl
    · exact finishedOnce_of_eq rfl
  · exact finishedOnce_of_eq rfl

theorem step_finishedOnce (ev : Event) (s : FolderSync) : FinishedOnce s (step ev s).state := by
  cases ev with
  | addFolder fs p => exact finishedOnce_of_eq (addFolder_finishedCount fs p _ s rfl)
  | removeFolder fs p => exact finishedOnce_of_eq (removeFolder_finishedCount fs p _ s rfl)
  | startSync fs => exact startSync_finishedOnce fs s
  | stopSync fs => exact stopSync_finishedOnce fs s
  | forceSync fs => exact forceSync_finishedOnce s fs s rfl
  | onFileChanged fs p =>
    show FinishedOnce s (onFileChanged fs p s).state
    unfold onFileChanged
    split
    · exact finishedOnce_of_eq rfl
    · split
      · exact finishedOnce_of_eq rfl
      · split
        · exact finishedOnce_of_eq (scanFile_finishedCount fs p _ s rfl)
        · exact finishedOnce_of_eq rfl
  | onDirectoryChanged fs p =>
    show FinishedOnce s (onDirectoryChanged fs p s).state
    unfold onDirectoryChanged
    split
    · exact finishedOnce_of_eq rfl
    · exact finishedOnce_of_eq (scanFolder_finishedCount fs p _ _ rfl)
  | onSyncTimeout fs =>
    show FinishedOnce s (onSyncTimeout fs s).state
    unfold onSyncTimeout
    split
    · exact forceSync_finishedOnce s fs s rfl
    · exact finishedOnce_of_eq rfl
  | onNetworkReplyFinished fs e => exact onNetworkReplyFinished_finishedOnce s fs e s rfl
  | onSingleShot fs k =>
    show FinishedOnce s (onSingleShot fs k s).state
    unfold onSingleShot
    split
    · exact processSyncQueue_finishedOnce s fs _ rfl
    · exact finishedOnce_of_eq rfl
  | scanFile fs p => exact finishedOnce_of_eq (scanFile_finishedCount fs p _ s rfl)
  | scanFolder fs p => exact finishedOnce_of_eq (scanFolder_finishedCount fs p _ s rfl)
  | processSyncQueue fs => exact processSyncQueue_finishedOnce s fs s rfl

/-- C14 (counterexample). Two calls of forceSync on the object left by the constructor:
the queue is empty before, between and after the calls, nothing is added to it, and
syncFinished is emitted twice. After both uploads of the example have finished without
error, the second reply callback emits syncFinished while both queued items are
"Syncing". -/
theorem C14_counterexample :
    (FolderSync.init 3 []).m_syncQueue = []
    ∧ (forceSync emptyTree (FolderSync.init 3 [])).state.m_syncQueue = []
    ∧ (∃ s2, run [.forceSync emptyTree, .forceSync emptyTree] (FolderSync.init 3 [])
          = .returned s2
        ∧ s2.m_syncQueue = [] ∧ s2.emitted = [.syncFinished, .syncFinished])
    ∧ ∃ s3, onNetworkReplyFinished mediaTree false afterFirst = .returned s3
        ∧ finishedCount s3 = finishedCount afterFirst + 1
        ∧ queueStatuses s3 = ["Syncing", "Syncing"] := by
  refine ⟨by decide, by decide, ⟨_, rfl, ?_, ?_⟩, _, rfl, ?_, ?_⟩ <;> decide

/-- C14 (amended). The syncFinished signal of FolderSync: a call of processSyncQueue made
outside the locked sections of the class emits syncFinished whenever it finds the queue
empty, or finds, with no sync in progress, no queued item "Pending" or "Modified" (so
repeated calls emit it repeatedly). One event (a public call, a notification, a timer or
a reply callback) emits it at most once, and when it does, no item queued afterwards is
"Pending" or "Modified"; items in other states, such as "Syncing", may be queued. -/
theorem C14_syncFinished_per_event (ev : Event) (s : FolderSync) :
    finishedCount (step ev s).state ≤ finishedCount s + 1
    ∧ (finishedCount s < finishedCount (step ev s).state →
        ∀ it ∈ (step ev s).state.m_syncQueue,
          it.status ≠ "Pending" ∧ it.status ≠ "Modified")
    ∧ ∀ fs : FileSystem, s.m_syncMutex = false →
        (s.m_syncQueue = [] ∨ (s.m_isSyncing = false ∧
          ∀ it ∈ s.m_syncQueue, it.status ≠ "Pending" ∧ it.status ≠ "Modified")) →
        processSyncQueue fs s = .returned (emit s .syncFinished) := by
  have h := step_finishedOnce ev s
  refine ⟨h.1, fun hlt it hit => (eligible_eq_false_iff it).1 (h.2 hlt it hit), ?_⟩
  intro fs hfree hcase
  rcases hcase with hnil | ⟨hidle, hnone⟩
  · unfold processSyncQueue
    simp only [hnil, List.isEmpty_nil, Bool.or_true, ↓reduceIte]
  · exact processSyncQueue_none fs s hfree hidle
      (nextItemIndex_eq_none (fun it hit => (eligible_eq_false_iff it).2 (hnone it hit)))

/-- C14 (witness). The amended statement at the reply callback that ends the second
upload of the example: it emits syncFinished once. -/
theorem C14_syncFinished_per_event_witness :
    finishedCount (step (.onNetworkReplyFinished mediaTree false) afterFirst).state
      ≤ finishedCount afterFirst + 1
    ∧ finishedCount afterFirst <
        finishedCount (step (.onNetworkReplyFinished mediaTree false) afterFirst).state
    ∧ ∀ it ∈ (step (.onNetworkReplyFinished mediaTree false) afterFirst).state.m_syncQueue,
        it.status ≠ "Pending" ∧ it.status ≠ "Modified" :=
  have h := C14_syncFinished_per_event (.onNetworkReplyFinished mediaTree false) afterFirst
  have hlt : finishedCount afterFirst <
      finishedCount (step (.onNetworkReplyFinished mediaTree false) afterFirst).state := by
    have h1 : finishedCount afterFirst = 1 := by decide
    have h2 : finishedCount (step (.onNetworkReplyFinished mediaTree false) afterFirst).state
        = 2 := by decide
    rw [h1, h2]
    exact Nat.lt_succ_self 1
  ⟨h.1, hlt, h.2.1 hlt⟩

end FolderSync

namespace UploadManager
open Example

/-! ## The aggregate progress -/

theorem coe_list_eq_map (l : List Nat) :
    (do let a ← l; pure (a : Int) : List Int) = List.map (Nat.cast : Nat → Int) l := by
  simp only [List.pure_def, List.bind_eq_flatMap]
  induction l with
  | nil => rfl
  | cons a l ih => simp only [List.flatMap_cons, List.map_cons, ih, List.singleton_append]

theorem addInt32_some {a b : Int} (h : fitsInt32 (a + b) = true) :
    addInt32 (some a) b = some (a + b) := by
  simp only [addInt32, h, ↓reduceIte]

/-- The loop of `onUploadProgress` over the first `n` positions, when it ends without
overflow: 100 for every position in front of `k`, and `p` for position `k`. -/
theorem foldl_range_progress_some (k : Nat) (p : Int) : ∀ (n : Nat) (t : Int),
    (List.range n).foldl
      (fun total i =>
        if (i : Int) < (k : Int) then addInt32 total 100
        else if (i : Int) = (k : Int) then addInt32 total p
        else total) (some 0)
      = some t → t = if n ≤ k then 100 * (n : Int) else 100 * (k : Int) + p
  | 0, t => by
    intro h
    have h0 : some (0 : Int) = some t := h
    rw [if_pos (Nat.zero_le k), ← Option.some.inj h0]
    rfl
  | n + 1, t => by
    have ih := foldl_range_progress_some k p n
    rw [coe_list_eq_map, List.foldl_map] at ih ⊢
    rw [List.range_succ, List.foldl_append]
    generalize List.foldl (fun total (i : Nat) =>
      if (i : Int) < (k : Int) then addInt32 total 100
      else if (i : Int) = (k : Int) then addInt32 total p
      else total) (some 0) (List.range n) = r at ih ⊢
    simp only [List.foldl_cons, List.foldl_nil, Nat.cast_lt, Nat.cast_inj]
    intro h
    cases r with
    | none =>
      exfalso
      by_cases h1 : n < k
      · simp only [h1, ↓reduceIte, addInt32] at h
        cases h
      · by_cases h2 : n = k
        · simp only [h1, h2, ↓reduceIte, addInt32, Nat.lt_irrefl] at h
          cases h
        · simp only [h1, h2, ↓reduceIte] at h
          cases h
    | some a =>
      have ha := ih a rfl
      by_cases h1 : n < k
      · have h2 : n ≤ k := Nat.le_of_lt h1
        have h3 : n + 1 ≤ k := h1
        simp only [h1, ↓reduceIte, addInt32] at h
        split at h
        · simp only [Option.some.injEq] at h
          simp only [h2, h3, ↓reduceIte, Nat.cast_add, Nat.cast_one] at ha ⊢
          rw [← h, ha]
          ring
        · cases h
      · by_cases h2 : n = k
        · subst h2
          simp only [Nat.lt_irrefl, ↓reduceIte, addInt32] at h
          split at h
          · simp only [Option.some.injEq] at h
            simp only [Nat.le_refl, ↓reduceIte, Nat.add_one_le_iff, Nat.lt_irrefl] at ha ⊢
            rw [← h, ha]
          · cases h
        · have h3 : ¬ n ≤ k := by omega
          have h4 : ¬ n + 1 ≤ k := by omega
          simp only [h1, h2, ↓reduceIte, Option.some.injEq] at h
          simp only [h3, h4, ↓reduceIte] at ha ⊢
          rw [← h, ha]

/-- The loop of `onUploadProgress` over the first `n` positions ends without overflow when
`100 * k` and `100 * k + p` are values of `int`. -/
theorem foldl_range_progress (k : Nat) (p : Int) (hk : 100 * (k : Int) < 2 ^ 31)
    (hp : fitsInt32 (100 * (k : Int) + p) = true) : ∀ n : Nat,
    (List.range n).foldl
      (fun total i =>
        if (i : Int) < (k : Int) then addInt32 total 100
        else if (i : Int) = (k : Int) then addInt32 total p
        else total) (some 0)
      = some (if n ≤ k then 100 * (n : Int) else 100 * (k : Int) + p)
  | 0 => by simp
  | n + 1 => by
    have ih := foldl_range_progress k p hk hp n
    rw [coe_list_eq_map, List.foldl_map] at ih ⊢
    rw [List.range_succ, List.foldl_append, ih]
    simp only [List.foldl_cons, List.foldl_nil, Nat.cast_lt, Nat.cast_inj]
    by_cases h1 : n < k
    · have h2 : n ≤ k := Nat.le_of_lt h1
      have h3 : n + 1 ≤ k := h1
      have hfit : fitsInt32 (100 * (n : Int) + 100) = true := by
        simp only [fitsInt32, decide_eq_true_eq]
        omega
      simp only [h1, h2, h3, ↓reduceIte, Nat.cast_add, Nat.cast_one, addInt32_some hfit]
      rw [mul_add, mul_one]
    · by_cases h2 : n = k
      · subst h2
        simp only [Nat.lt_irrefl, ↓reduceIte, Nat.le_refl, Nat.add_one_le_iff, addInt32_some hp]
      · have h3 : ¬ n ≤ k := by omega
        have h4 : ¬ n + 1 ≤ k := by omega
        simp only [h1, h2, h3, h4, ↓reduceIte]

/-- The effect of a progress tick while the current index is inside the queue, when the
byte total is not 0 and no signed overflow occurs. -/
theorem onUploadProgress_eq (sent total : Int) (s : UploadManager) (c : Nat)
    (hidx : s.m_currentIndex = (c : Int)) (hlen : c < s.m_uploadQueue.length)
    (htotal : total ≠ 0) (hprod : fitsInt64 (sent * 100) = true)
    (hquot : fitsInt64 ((sent * 100).tdiv total) = true)
    (hk : 100 * (c : Int) < 2 ^ 31)
    (hsum : fitsInt32 (100 * (c : Int) + percent sent total) = true) :
    onUploadProgress sent total s = .returned
      { s with
        m_uploadQueue :=
          modifyAt (fun it => { it with progress := percent sent total }) c s.m_uploadQueue
        emitted := s.emitted ++
          [.itemProgressChanged (c : Int) (percent sent total),
           .uploadProgress ((100 * (c : Int) + percent sent total).tdiv
              (s.m_uploadQueue.length : Int))] } := by
  have hrange : (0 : Int) ≤ (c : Int) ∧ (c : Int) < (s.m_uploadQueue.length : Int) := by omega
  have hnot : ¬ s.m_uploadQueue.length ≤ c := by omega
  have hfold := foldl_range_progress c (percent sent total) hk hsum s.m_uploadQueue.length
  simp only [hnot, ↓reduceIte, percent] at hfold
  simp only [onUploadProgress, hidx, hrange, and_self, ↓reduceIte, htotal, hprod, hquot,
    Bool.true_eq_false, updateItemProgress, emit, Int.toNat_ofNat, length_modifyAt, hfold,
    percent, List.append_assoc, List.singleton_append]

/-- The two ways in which a progress tick with a non-zero byte total and a 64-bit product
and quotient ends: it returns with the aggregate emitted, or the sum overflows
`totalProgress` after the progress field of the current item has been written, and no
aggregate is emitted. -/
theorem onUploadProgress_state (sent total : Int) (s : UploadManager) (c : Nat)
    (hidx : s.m_currentIndex = (c : Int)) (hlen : c < s.m_uploadQueue.length)
    (htotal : total ≠ 0) (hprod : fitsInt64 (sent * 100) = true)
    (hquot : fitsInt64 ((sent * 100).tdiv total) = true) :
    onUploadProgress sent total s = .returned
      { s with
        m_uploadQueue :=
          modifyAt (fun it => { it with progress := percent sent total }) c s.m_uploadQueue
        emitted := s.emitted ++
          [.itemProgressChanged (c : Int) (percent sent total),
           .uploadProgress ((100 * (c : Int) + percent sent total).tdiv
              (s.m_uploadQueue.length : Int))] }
    ∨ onUploadProgress sent total s = .crashed
      { s with
        m_uploadQueue :=
          modifyAt (fun it => { it with progress := percent sent total }) c s.m_uploadQueue
        emitted := s.emitted ++ [.itemProgressChanged (c : Int) (percent sent total)] } := by
  have hrange : (0 : Int) ≤ (c : Int) ∧ (c : Int) < (s.m_uploadQueue.length : Int) := by omega
  have hnot : ¬ s.m_uploadQueue.length ≤ c := by omega
  have hfold := foldl_range_progress_some c (percent sent total) s.m_uploadQueue.length
  simp only [hnot, ↓reduceIte, percent] at hfold
  simp only [onUploadProgress, hidx, hrange, and_self, ↓reduceIte, htotal, hprod, hquot,
    Bool.true_eq_false, updateItemProgress, emit, Int.toNat_ofNat, length_modifyAt, percent]
  split
  · rename_i t ht
    left
    have ht1 := hfold t ht
    subst ht1
    simp only [List.append_assoc, List.singleton_append]
  · exact Or.inr rfl

theorem sum_progress_modifyAt (p : Int) :
    ∀ (q : List UploadItem) (c : Nat), c < q.length →
      (∀ j it, j < c → q.get? j = some it → it.progress = 100) →
      (∀ j it, c < j → q.get? j = some it → it.progress = 0) →
      ((modifyAt (fun it : UploadItem => { it with progress := p }) c q).map
        (fun it => it.progress)).sum = 100 * (c : Int) + p
  | [], c, h, _, _ => absurd h (Nat.not_lt_zero c)
  | a :: q, 0, _, _, hafter => by
    have hzero : ∀ it ∈ q, it.progress = 0 := by
      intro it hit
      obtain ⟨j, hj⟩ := List.get?_of_mem hit
      exact hafter (j + 1) it (Nat.succ_pos j) hj
    have hsum : (q.map (fun it => it.progress)).sum = 0 := by
      apply List.sum_eq_zero
      intro x hx
      obtain ⟨it, hit, rfl⟩ := List.mem_map.1 hx
      exact hzero it hit
    simp only [modifyAt, List.map_cons, List.sum_cons, hsum, Nat.cast_zero]
    ring
  | a :: q, c + 1, h, hbefore, hafter => by
    have ha : a.progress = 100 := hbefore 0 a (Nat.succ_pos c) rfl
    have ih := sum_progress_modifyAt p q c (Nat.lt_of_succ_lt_succ h)
      (fun j it hj hget => hbefore (j + 1) it (Nat.succ_lt_succ hj) hget)
      (fun j it hj hget => hafter (j + 1) it (Nat.succ_lt_succ hj) hget)
    simp only [modifyAt, List.map_cons, List.sum_cons, ha, ih, Nat.cast_add, Nat.cast_one]
    ring

/-- C16 (counterexample). Two files are queued with retries switched off; the first upload
fails, so its item is "Failed" with progress field 0, and the second reports 50 of 100
bytes. The aggregate emitted by that tick is 75, while the progress fields are 0 and 50:
their sum divided by the number of items is 25. -/
theorem C16_counterexample :
    aggregates failedThenHalf = [0, 75]
    ∧ queueStatuses failedThenHalf = ["Failed", "Uploading..."]
    ∧ failedThenHalf.m_uploadQueue.map (fun it => it.progress) = [0, 50]
    ∧ (progressSum failedThenHalf).tdiv (failedThenHalf.m_uploadQueue.length : Int) = 25 := by
  refine ⟨?_, ?_, ?_, ?_⟩ <;> decide

/-- C16 (amended). Aggregate progress formula: a progress tick that arrives while the
current index c is inside the queue, with a non-zero byte total and without signed
overflow (bytesSent * 100 and its quotient by bytesTotal are 64-bit values, 100 * c and
100 * c + p are 32-bit values), returns, records the percentage p of the tick in the
progress field of the current item, leaves every other item as it is, and emits the
aggregate (100 * c + p) / n for a queue of n items: every item in front of the current
one counts as 100 whatever its status or progress field, every item behind it as 0. This
is the quotient of the sum of the progress fields by n when every item in front of the
current one has progress 100 and every item behind it has progress 0. -/
theorem C16_aggregate_formula (sent total : Int) (s : UploadManager) (c : Nat)
    (hidx : s.m_currentIndex = (c : Int)) (hlen : c < s.m_uploadQueue.length)
    (htotal : total ≠ 0) (hprod : fitsInt64 (sent * 100) = true)
    (hquot : fitsInt64 ((sent * 100).tdiv total) = true)
    (hfront : fitsInt32 (100 * (c : Int)) = true)
    (hsum : fitsInt32 (100 * (c : Int) + percent sent total) = true) :
    ∃ s1, onUploadProgress sent total s = .returned s1
      ∧ aggregates s1 = aggregates s ++
          [(100 * (c : Int) + percent sent total).tdiv (s.m_uploadQueue.length : Int)]
      ∧ s1.m_uploadQueue.length = s.m_uploadQueue.length
      ∧ progressAt c s1 = some (percent sent total)
      ∧ (∀ j, j ≠ c → s1.m_uploadQueue.get? j = s.m_uploadQueue.get? j)
      ∧ ((∀ j it, j < c → s.m_uploadQueue.get? j = some it → it.progress = 100) →
          (∀ j it, c < j → s.m_uploadQueue.get? j = some it → it.progress = 0) →
          aggregates s1 = aggregates s ++
            [(progressSum s1).tdiv (s1.m_uploadQueue.length : Int)]) := by
  have hk : 100 * (c : Int) < 2 ^ 31 := by
    simp only [fitsInt32, decide_eq_true_eq] at hfront
    exact hfront.2
  refine ⟨_, onUploadProgress_eq sent total s c hidx hlen htotal hprod hquot hk hsum,
    ?_, ?_, ?_, ?_, ?_⟩
  · simp only [aggregates, List.filterMap_append, List.filterMap_cons, List.filterMap_nil]
  · simp only [length_modifyAt]
  · obtain ⟨it, hit⟩ : ∃ it, s.m_uploadQueue.get? c = some it :=
      ⟨_, List.get?_eq_get hlen⟩
    simp only [progressAt, get?_modifyAt_self, hit, Option.map_some']
  · intro j hj
    exact get?_modifyAt_ne _ _ _ _ (Ne.symm hj)
  · intro hbefore hafter
    simp only [aggregates, List.filterMap_append, List.filterMap_cons, List.filterMap_nil,
      progressSum, sum_progress_modifyAt _ _ c hlen hbefore hafter, length_modifyAt]

/-- A tick with an unknown byte total, reported as -1, at the second of two items: the
quotient -105226698800 becomes the percentage 2147483600 by the conversion to `int`, and
adding it to the 100 of the first item overflows `totalProgress`, which is undefined
behaviour (where the addition wraps modulo 2^32, the value emitted is -1073741798). -/
theorem onUploadProgress_unknown_total :
    failedThenHalf.m_currentIndex = 1
    ∧ failedThenHalf.m_uploadQueue.length = 2
    ∧ percent 1052266988 (-1) = 2147483600
    ∧ fitsInt32 (100 * 1 + percent 1052266988 (-1)) = false
    ∧ (onUploadProgress 1052266988 (-1) failedThenHalf).isCrashed = true
    ∧ (toInt32 (100 * 1 + percent 1052266988 (-1))).tdiv 2 = -1073741798 := by
  refine ⟨?_, ?_, ?_, ?_, ?_, ?_⟩ <;> decide

/-- C16 (witness). The amended statement at the first of three queued items, for a tick
of 5 bytes out of 10: the aggregate is 50 / 3 = 16, which here is also the quotient of
the sum of the progress fields. -/
theorem C16_aggregate_formula_witness :
    uploadingThree.m_currentIndex = 0 ∧ uploadingThree.m_uploadQueue.length = 3
    ∧ ∃ s1, onUploadProgress 5 10 uploadingThree = .returned s1
      ∧ aggregates s1 = aggregates uploadingThree ++ [16]
      ∧ (progressSum s1).tdiv (s1.m_uploadQueue.length : Int) = 16 := by
  obtain ⟨s1, h1, h2, _, _, _, h6⟩ :=
    C16_aggregate_formula 5 10 uploadingThree 0 (by decide) (by decide) (by decide) (by decide)
      (by decide) (by decide) (by decide)
  have hall : ∀ it ∈ uploadingThree.m_uploadQueue, it.progress = 0 := by decide
  have h7 := h6 (fun j _ hj => absurd hj (Nat.not_lt_zero j))
    (fun j it _ hget => hall it (List.get?_mem hget))
  have hv : (100 * ((0 : Nat) : Int) + percent 5 10).tdiv
      (uploadingThree.m_uploadQueue.length : Int) = 16 := by decide
  rw [hv] at h2
  rw [h2] at h7
  have h8 := List.append_cancel_left h7
  simp only [List.cons.injEq, and_true] at h8
  exact ⟨by decide, by decide, s1, h1, h2, h8.symm⟩

open Example

/-! ## The scenario of three uploads -/

theorem percent_all (b : Int) (hb : 0 < b) : percent b b = 100 := by
  have h : (b * 100).tdiv b = 100 := Int.mul_tdiv_cancel_left 100 (ne_of_gt hb)
  rw [percent, h]
  decide

theorem aggregates_append (s : UploadManager) (l : List UploadSignal) :
    aggregates { s with emitted := s.emitted ++ l }
      = aggregates s ++ aggregates { s with emitted := l } := by
  simp only [aggregates, List.filterMap_append]

theorem processNextUpload_end (fs : FileSystem) (s : UploadManager)
    (hup : s.m_isUploading = true) (hpause : s.m_isPaused = false)
    (hfree : s.m_queueMutex = false)
    (hidx : s.m_currentIndex = (s.m_uploadQueue.length : Int)) :
    processNextUpload fs s = .returned
      (emit { s with m_isUploading := false, m_currentIndex := -1 } .uploadFinished) := by
  unfold processNextUpload processNextUploadAux
  simp only [hup, hpause, Bool.not_true, Bool.or_self, Bool.false_eq_true, ↓reduceIte]
  rw [withQueueMutex_of_free _ hfree]
  simp only [hidx, ge_iff_le, le_refl, ↓reduceIte, ite_self, Outcome.andThen, emit]
  rw [hfree, hpause]

/-- One item of the scenario: dispatch, last tick, completion, timer. -/
theorem successful_upload (fs : FileSystem) (s : UploadManager) (j : Nat) (item : UploadItem)
    (b : Int) (hs : AtItem j s) (hitem : s.m_uploadQueue.get? j = some item)
    (hready : Ready fs item) (hb : 0 < b ∧ b * 100 < 2 ^ 63)
    (hj : 100 * (j : Int) + 100 < 2 ^ 31) :
    ∃ s1 s2, processNextUpload fs s = .returned s1
      ∧ onUploadProgress b b s1 = .returned s2
      ∧ onSingleShot fs 0 (onUploadFinished false s2)
          = processNextUpload fs { onUploadFinished false s2 with singleShots := [] }
      ∧ AtItem (j + 1) { onUploadFinished false s2 with singleShots := [] }
      ∧ (onUploadFinished false s2).m_uploadQueue.length = s.m_uploadQueue.length
      ∧ (∀ j1, j1 ≠ j →
          (onUploadFinished false s2).m_uploadQueue.get? j1 = s.m_uploadQueue.get? j1)
      ∧ statusAt j (onUploadFinished false s2) = some "Completed"
      ∧ aggregates (onUploadFinished false s2) = aggregates s ++
          [(100 * (j : Int) + 100).tdiv (s.m_uploadQueue.length : Int)]
      ∧ finishedSignals (onUploadFinished false s2) = finishedSignals s := by
  obtain ⟨hup, hpause, hfree, hidx, hreply, htimer, hshots⟩ := hs
  have hlen : j < s.m_uploadQueue.length := lt_length_of_get? hitem
  obtain ⟨s1, hs1, h1⟩ : ∃ s1 : UploadManager, s1 =
      { s with
        m_uploadQueue :=
          modifyAt (fun it => { it with status := "Uploading..." }) j
            (modifyAt (fun it => { it with file := some true }) j s.m_uploadQueue)
        emitted := s.emitted ++ [.itemStatusChanged (j : Int) "Uploading..."]
        m_currentReply := some ⟨(j : Int), item.filePath⟩ }
      ∧ processNextUpload fs s = .returned s1 :=
    ⟨_, rfl, processNextUpload_dispatch fs s j item hup hpause hfree hidx hitem hready⟩
  have hidx1 : s1.m_currentIndex = (j : Int) := by rw [hs1]; exact hidx
  have hlen1 : j < s1.m_uploadQueue.length := by
    rw [hs1]; simp only [length_modifyAt]; exact hlen
  have hquot : (b * 100).tdiv b = 100 := Int.mul_tdiv_cancel_left 100 (ne_of_gt hb.1)
  have h2 := onUploadProgress_eq b b s1 j hidx1 hlen1 (ne_of_gt hb.1)
    (by simp only [fitsInt64, decide_eq_true_eq]; omega)
    (by rw [hquot]; decide) (by omega)
    (by rw [percent_all b hb.1]; simp only [fitsInt32, decide_eq_true_eq]; omega)
  rw [percent_all b hb.1] at h2
  obtain ⟨s2, hs2, h2⟩ : ∃ s2 : UploadManager, s2 =
      { s1 with
        m_uploadQueue := modifyAt (fun it => { it with progress := 100 }) j s1.m_uploadQueue
        emitted := s1.emitted ++
          [.itemProgressChanged (j : Int) 100,
           .uploadProgress ((100 * (j : Int) + 100).tdiv (s1.m_uploadQueue.length : Int))] }
      ∧ onUploadProgress b b s1 = .returned s2 := ⟨_, rfl, h2⟩
  have hidx2 : s2.m_currentIndex = (j : Int) := by rw [hs2]; exact hidx1
  have hlen2 : j < s2.m_uploadQueue.length := by
    rw [hs2]; simp only [length_modifyAt]; exact hlen1
  have hreply2 : s2.m_currentReply = some ⟨(j : Int), item.filePath⟩ := by rw [hs2, hs1]
  have h3 := onUploadFinished_success s2 j _ hreply2 hidx2 hlen2
  refine ⟨s1, s2, h1, h2, ?_⟩
  rw [h3]
  have hq2 : s2.m_uploadQueue = modifyAt (fun it => { it with progress := 100 }) j
      (modifyAt (fun it => { it with status := "Uploading..." }) j
        (modifyAt (fun it => { it with file := some true }) j s.m_uploadQueue)) := by
    rw [hs2, hs1]
  have he2 : s2.emitted = s.emitted ++ [.itemStatusChanged (j : Int) "Uploading...",
      .itemProgressChanged (j : Int) 100,
      .uploadProgress ((100 * (j : Int) + 100).tdiv (s.m_uploadQueue.length : Int))] := by
    rw [hs2, hs1]
    simp only [length_modifyAt, List.append_assoc, List.singleton_append]
  have hshots2 : s2.singleShots = [] := by rw [hs2, hs1]; exact hshots
  refine ⟨?_, ⟨?_, ?_, ?_, ?_, rfl, ?_, rfl⟩, ?_, ?_, ?_, ?_, ?_⟩
  · simp only [onSingleShot, hshots2, List.nil_append, List.length_singleton, Nat.lt_one_iff,
      ↓reduceIte, List.eraseIdx_cons_zero]
  · show s2.m_isUploading = true
    rw [hs2, hs1]; exact hup
  · show s2.m_isPaused = false
    rw [hs2, hs1]; exact hpause
  · show s2.m_queueMutex = false
    rw [hs2, hs1]; exact hfree
  · show (j : Int) + 1 = ((j + 1 : Nat) : Int)
    simp
  · show s2.m_retryTimer = none
    rw [hs2, hs1]; exact htimer
  · show (modifyAt _ j (modifyAt _ j (modifyAt _ j s2.m_uploadQueue))).length = _
    simp only [length_modifyAt, hq2]
  · intro j1 hj1
    show (modifyAt _ j (modifyAt _ j (modifyAt _ j s2.m_uploadQueue))).get? j1 = _
    simp only [hq2, get?_modifyAt_ne _ _ _ _ (Ne.symm hj1)]
  · show ((modifyAt _ j (modifyAt _ j (modifyAt _ j s2.m_uploadQueue))).get? j).map _ = _
    simp only [hq2, get?_modifyAt_self, hitem, Option.map_some', Option.map_map]
  · show aggregates { s2 with emitted := s2.emitted ++ _ } = _
    simp only [aggregates, he2, List.filterMap_append, List.filterMap_cons, List.filterMap_nil,
      List.append_nil, List.append_assoc, List.nil_append]
  · show List.count _ (s2.emitted ++ _) = _
    simp only [he2, finishedSignals, List.count_append, List.count_cons, List.count_nil]
    simp

theorem addFile_eq (fs : FileSystem) (p : QString) (st : FileStat) (s : UploadManager)
    (hfree : s.m_queueMutex = false) (hstat : fs.stat p = some st) (hfile : st.isFile = true) :
    addFile fs p s = .returned
      { s with
        m_uploadQueue := s.m_uploadQueue ++ [UploadItem.ofPath fs p]
        emitted := s.emitted ++
          [.itemStatusChanged (((s.m_uploadQueue ++ [UploadItem.ofPath fs p]).length : Int) - 1)
            "Added to queue"] } := by
  unfold addFile
  rw [withQueueMutex_of_free _ hfree]
  simp only [hstat, hfile, Bool.not_true, Bool.false_eq_true, ↓reduceIte, Outcome.andThen, emit]
  rw [hfree]

theorem ready_ofPath (fs : FileSystem) (p : QString) (st : FileStat)
    (hstat : fs.stat p = some st) (hopen : fs.canOpen p = true) :
    Ready fs (UploadItem.ofPath fs p) := by
  refine ⟨?_, Or.inr ⟨rfl, hopen⟩⟩
  simp [FileSystem.fileExists, UploadItem.ofPath, hstat]

/-- C15. Three-item scenario in UploadManager: three existing, readable files are queued
with addFile on a fresh manager and started by startUpload; each upload reports a final
progress tick with bytesSent = bytesTotal > 0, finishes without error, and the timer
started by the completion fires. The run returns, the aggregate progress values emitted
are 0, 33, 66, 100 in that order, uploadFinished is emitted exactly once, all three items
end as "Completed" and the manager is no longer uploading. -/
theorem C15_three_item_scenario (fs : FileSystem) (maxRetries : Int) (p0 p1 p2 : QString)
    (st0 st1 st2 : FileStat) (b0 b1 b2 : Int)
    (h0 : fs.stat p0 = some st0 ∧ st0.isFile = true ∧ fs.canOpen p0 = true)
    (h1 : fs.stat p1 = some st1 ∧ st1.isFile = true ∧ fs.canOpen p1 = true)
    (h2 : fs.stat p2 = some st2 ∧ st2.isFile = true ∧ fs.canOpen p2 = true)
    (hb0 : 0 < b0 ∧ b0 * 100 < 2 ^ 63) (hb1 : 0 < b1 ∧ b1 * 100 < 2 ^ 63)
    (hb2 : 0 < b2 ∧ b2 * 100 < 2 ^ 63) :
    ∃ s, run ([.addFile fs p0, .addFile fs p1, .addFile fs p2, .startUpload fs]
          ++ successfulUpload fs b0 ++ successfulUpload fs b1 ++ successfulUpload fs b2)
        (UploadManager.init maxRetries) = .returned s
      ∧ aggregates s = [0, 33, 66, 100]
      ∧ finishedSignals s = 1
      ∧ queueStatuses s = ["Completed", "Completed", "Completed"]
      ∧ s.m_isUploading = false := by
  -- the three calls of addFile
  have ha0 := addFile_eq fs p0 st0 (UploadManager.init maxRetries) rfl h0.1 h0.2.1
  obtain ⟨t0, ht0, ha0⟩ : ∃ t0 : UploadManager, t0 =
      { UploadManager.init maxRetries with
        m_uploadQueue := [UploadItem.ofPath fs p0]
        emitted := [.itemStatusChanged 0 "Added to queue"] }
      ∧ addFile fs p0 (UploadManager.init maxRetries) = .returned t0 := ⟨_, rfl, ha0⟩
  have ha1 := addFile_eq fs p1 st1 t0 (by rw [ht0]; rfl) h1.1 h1.2.1
  obtain ⟨t1, ht1, ha1⟩ : ∃ t1 : UploadManager, t1 =
      { UploadManager.init maxRetries with
        m_uploadQueue := [UploadItem.ofPath fs p0, UploadItem.ofPath fs p1]
        emitted := [.itemStatusChanged 0 "Added to queue", .itemStatusChanged 1 "Added to queue"] }
      ∧ addFile fs p1 t0 = .returned t1 := ⟨_, by rw [ht0]; rfl, ha1⟩
  have ha2 := addFile_eq fs p2 st2 t1 (by rw [ht1]; rfl) h2.1 h2.2.1
  obtain ⟨t2, ht2, ha2⟩ : ∃ t2 : UploadManager, t2 =
      { UploadManager.init maxRetries with
        m_uploadQueue := [UploadItem.ofPath fs p0, UploadItem.ofPath fs p1,
          UploadItem.ofPath fs p2]
        emitted := [.itemStatusChanged 0 "Added to queue", .itemStatusChanged 1 "Added to queue",
          .itemStatusChanged 2 "Added to queue"] }
      ∧ addFile fs p2 t1 = .returned t2 := ⟨_, by rw [ht1]; rfl, ha2⟩
  -- startUpload
  obtain ⟨u0, hu0, hstart⟩ : ∃ u0 : UploadManager, u0 =
      { t2 with
        m_isUploading := true
        m_currentIndex := 0
        emitted := t2.emitted ++ [.uploadProgress 0] }
      ∧ startUpload fs t2 = processNextUpload fs u0 := by
    refine ⟨_, rfl, ?_⟩
    rw [ht2]
    rfl
  have hat0 : AtItem 0 u0 := by
    rw [hu0, ht2]
    exact ⟨rfl, rfl, rfl, rfl, rfl, rfl, rfl⟩
  have hq0 : u0.m_uploadQueue =
      [UploadItem.ofPath fs p0, UploadItem.ofPath fs p1, UploadItem.ofPath fs p2] := by
    rw [hu0, ht2]
  have hagg0 : aggregates u0 = [0] := by rw [hu0, ht2]; rfl
  have hfin0 : finishedSignals u0 = 0 := by rw [hu0, ht2]; rfl
  -- the first upload
  obtain ⟨v0, w0, hd0, htick0, hshot0, hat1, hlen1, hget1, hst1, hagg1, hfin1⟩ :=
    successful_upload fs u0 0 (UploadItem.ofPath fs p0) b0 hat0 (by rw [hq0]; rfl)
      (ready_ofPath fs p0 st0 h0.1 h0.2.2) hb0 (by decide)
  -- the second upload
  have hitem1 : ({ onUploadFinished false w0 with singleShots := [] } :
      UploadManager).m_uploadQueue.get? 1 = some (UploadItem.ofPath fs p1) := by
    show (onUploadFinished false w0).m_uploadQueue.get? 1 = _
    rw [hget1 1 (by decide), hq0]; rfl
  obtain ⟨v1, w1, hd1, htick1, hshot1, hat2, hlen2, hget2, hst2, hagg2, hfin2⟩ :=
    successful_upload fs _ 1 (UploadItem.ofPath fs p1) b1 hat1 hitem1
      (ready_ofPath fs p1 st1 h1.1 h1.2.2) hb1 (by decide)
  -- the third upload
  have hitem2 : ({ onUploadFinished false w1 with singleShots := [] } :
      UploadManager).m_uploadQueue.get? 2 = some (UploadItem.ofPath fs p2) := by
    show (onUploadFinished false w1).m_uploadQueue.get? 2 = _
    rw [hget2 2 (by decide)]
    show (onUploadFinished false w0).m_uploadQueue.get? 2 = _
    rw [hget1 2 (by decide), hq0]; rfl
  obtain ⟨v2, w2, hd2, htick2, hshot2, hat3, hlen3, hget3, hst3, hagg3, hfin3⟩ :=
    successful_upload fs _ 2 (UploadItem.ofPath fs p2) b2 hat2 hitem2
      (ready_ofPath fs p2 st2 h2.1 h2.2.2) hb2 (by decide)
  -- the end of the queue
  have hlen : (onUploadFinished false w2).m_uploadQueue.length = 3 := by
    rw [hlen3]
    show (onUploadFinished false w1).m_uploadQueue.length = 3
    rw [hlen2]
    show (onUploadFinished false w0).m_uploadQueue.length = 3
    rw [hlen1, hq0]; rfl
  obtain ⟨hup3, hpause3, hfree3, hidx3, _, _, _⟩ := hat3
  have hend := processNextUpload_end fs { onUploadFinished false w2 with singleShots := [] }
    hup3 hpause3 hfree3 (by rw [hidx3]; show _ = ((onUploadFinished false w2).m_uploadQueue.length : Int); rw [hlen])
  obtain ⟨sF, hsF, hend⟩ : ∃ sF : UploadManager, sF =
      emit { onUploadFinished false w2 with
        singleShots := [], m_isUploading := false, m_currentIndex := -1 } .uploadFinished
      ∧ processNextUpload fs { onUploadFinished false w2 with singleShots := [] }
        = .returned sF := ⟨_, rfl, hend⟩
  have hrun : run ([.addFile fs p0, .addFile fs p1, .addFile fs p2, .startUpload fs]
        ++ successfulUpload fs b0 ++ successfulUpload fs b1 ++ successfulUpload fs b2)
      (UploadManager.init maxRetries) = .returned sF := by
    simp only [run, successfulUpload, List.cons_append, List.nil_append, forEach, step, ha0,
      ha1, ha2, hstart, hd0, htick0, hshot0, hd1, htick1, hshot1, hd2, htick2, hshot2, hend,
      Outcome.andThen]
  have hagg : aggregates (onUploadFinished false w2) = [0, 33, 66, 100] := by
    rw [hagg3]
    show aggregates (onUploadFinished false w1) ++ _ = _
    rw [hagg2]
    show aggregates (onUploadFinished false w0) ++ _ ++ _ = _
    rw [hagg1, hagg0]
    show [0] ++ [(100 * ((0 : Nat) : Int) + 100).tdiv (u0.m_uploadQueue.length : Int)]
      ++ [(100 * ((1 : Nat) : Int) + 100).tdiv
          ((onUploadFinished false w0).m_uploadQueue.length : Int)]
      ++ [(100 * ((2 : Nat) : Int) + 100).tdiv
          ((onUploadFinished false w1).m_uploadQueue.length : Int)] = _
    rw [hlen2]
    show [0] ++ [(100 * ((0 : Nat) : Int) + 100).tdiv (u0.m_uploadQueue.length : Int)]
      ++ [(100 * ((1 : Nat) : Int) + 100).tdiv
          ((onUploadFinished false w0).m_uploadQueue.length : Int)]
      ++ [(100 * ((2 : Nat) : Int) + 100).tdiv
          ((onUploadFinished false w0).m_uploadQueue.length : Int)] = _
    rw [hlen1, hq0]
    simp only [List.length_cons, List.length_nil]
    decide
  have hfin : finishedSignals (onUploadFinished false w2) = 0 := by
    rw [hfin3]
    show finishedSignals (onUploadFinished false w1) = 0
    rw [hfin2]
    show finishedSignals (onUploadFinished false w0) = 0
    rw [hfin1, hfin0]
  have hstat : ∀ j, j < 3 → statusAt j (onUploadFinished false w2) = some "Completed" := by
    intro j hj
    have hcases : j = 0 ∨ j = 1 ∨ j = 2 := by omega
    rcases hcases with rfl | rfl | rfl
    · show ((onUploadFinished false w2).m_uploadQueue.get? 0).map _ = _
      rw [hget3 0 (by decide)]
      show ((onUploadFinished false w1).m_uploadQueue.get? 0).map _ = _
      rw [hget2 0 (by decide)]
      exact hst1
    · show ((onUploadFinished false w2).m_uploadQueue.get? 1).map _ = _
      rw [hget3 1 (by decide)]
      exact hst2
    · exact hst3
  refine ⟨sF, hrun, ?_, ?_, ?_, ?_⟩
  · rw [hsF]
    show aggregates { onUploadFinished false w2 with
      emitted := (onUploadFinished false w2).emitted ++ [.uploadFinished] } = _
    rw [aggregates_append, hagg]
    rfl
  · rw [hsF]
    show List.count _ ((onUploadFinished false w2).emitted ++ [.uploadFinished]) = 1
    rw [List.count_append]
    show finishedSignals (onUploadFinished false w2) + _ = 1
    rw [hfin]
    rfl
  · rw [hsF]
    show (onUploadFinished false w2).m_uploadQueue.map _ = _
    generalize hq : (onUploadFinished false w2).m_uploadQueue = q at hlen hstat
    have e0 := hstat 0 (by decide)
    have e1 := hstat 1 (by decide)
    have e2 := hstat 2 (by decide)
    simp only [statusAt, hq] at e0 e1 e2
    match q, hlen, e0, e1, e2 with
    | [a, b, c], _, e0, e1, e2 =>
      simp only [List.get?_cons_zero, List.get?_cons_succ, Option.map_some',
        Option.some.injEq] at e0 e1 e2
      simp only [List.map_cons, List.map_nil, e0, e1, e2]
  · rw [hsF]
    rfl

/-- C15 (witness). The scenario with the three files of the example tree, 10 bytes each. -/
theorem C15_three_item_scenario_witness :
    ∃ s, run ([.addFile uploadTree "/u/a.mp4", .addFile uploadTree "/u/b.mp4",
            .addFile uploadTree "/u/c.mp4", .startUpload uploadTree]
          ++ successfulUpload uploadTree 10 ++ successfulUpload uploadTree 10
          ++ successfulUpload uploadTree 10) (UploadManager.init 3) = .returned s
      ∧ aggregates s = [0, 33, 66, 100]
      ∧ finishedSignals s = 1
      ∧ queueStatuses s = ["Completed", "Completed", "Completed"]
      ∧ s.m_isUploading = false :=
  C15_three_item_scenario uploadTree 3 "/u/a.mp4" "/u/b.mp4" "/u/c.mp4" (fileStat 10 1)
    (fileStat 10 1) (fileStat 10 1) 10 10 10 ⟨by decide, by decide, by decide⟩
    ⟨by decide, by decide, by decide⟩ ⟨by decide, by decide, by decide⟩
    ⟨by decide, by decide⟩ ⟨by decide, by decide⟩ ⟨by decide, by decide⟩

open Example

/-! ## Monotonicity of the aggregate progress -/

theorem tdiv_le_tdiv {a b n : Int} (ha : 0 ≤ a) (hab : a ≤ b) (hn : 0 < n) :
    a.tdiv n ≤ b.tdiv n := by
  rw [Int.tdiv_eq_ediv ha (le_of_lt hn), Int.tdiv_eq_ediv (le_trans ha hab) (le_of_lt hn)]
  exact Int.ediv_le_ediv hn hab

theorem getD_bounds {ps : List Int} (h : ∀ p ∈ ps, 0 ≤ p ∧ p ≤ 100) (i : Nat) :
    0 ≤ (ps.get? i).getD 0 ∧ (ps.get? i).getD 0 ≤ 100 := by
  cases hi : ps.get? i with
  | none => exact ⟨le_refl 0, by decide⟩
  | some p => exact h p (List.get?_mem hi)

theorem map_modifyAt_comm {α β : Type} (g : α → β) (f : α → α) (f1 : β → β)
    (hf : ∀ a, g (f a) = f1 (g a)) :
    ∀ (i : Nat) (l : List α), (modifyAt f i l).map g = modifyAt f1 i (l.map g)
  | i, [] => by cases i <;> rfl
  | 0, a :: l => by simp [modifyAt, hf]
  | n + 1, a :: l => by simp [modifyAt, map_modifyAt_comm g f f1 hf n l]

theorem monoData_tick {l ps : List Int} {idx : Int} {reply retry : Bool} {shots : Nat}
    (h : MonoData l ps idx reply retry shots) (c : Nat) (hc : idx = (c : Int))
    (hlen : c < ps.length) (pr : Int) (hpr : 0 ≤ pr ∧ pr ≤ 100)
    (hge : (ps.get? c).getD 0 ≤ pr) :
    MonoData (l ++ [(100 * (c : Int) + pr).tdiv (ps.length : Int)])
      (modifyAt (fun _ => pr) c ps) idx reply retry shots := by
  obtain ⟨hsorted, hfields, hreply, hretry, hshots, hbound⟩ := h
  have hn : (0 : Int) < (ps.length : Int) := by omega
  have hcp := getD_bounds hfields c
  have hb := hbound (by omega) (by omega)
  rw [hc, Int.toNat_ofNat] at hb
  have hle : ∀ v ∈ l, v ≤ (100 * (c : Int) + pr).tdiv (ps.length : Int) := fun v hv =>
    le_trans (hb v hv) (tdiv_le_tdiv (by omega) (by omega) hn)
  refine ⟨?_, ?_, ?_, hretry, hshots, ?_⟩
  · rw [List.pairwise_append]
    refine ⟨hsorted, List.pairwise_singleton _ _, fun a ha b hb1 => ?_⟩
    rw [List.mem_singleton] at hb1
    rw [hb1]
    exact hle a ha
  · intro p hp
    rcases mem_modifyAt _ _ _ _ hp with h1 | ⟨_, _, h1⟩
    · exact hfields p h1
    · rw [h1]; exact hpr
  · simp only [length_modifyAt]
    exact hreply
  · intro _ _ v hv
    simp only [length_modifyAt, hc, Int.toNat_ofNat, get?_modifyAt_self]
    have hget : ∃ p, ps.get? c = some p := ⟨_, List.get?_eq_get hlen⟩
    obtain ⟨p, hp⟩ := hget
    simp only [hp, Option.map_some', Option.getD_some]
    rcases List.mem_append.1 hv with hv | hv
    · exact hle v hv
    · rw [List.mem_singleton] at hv
      rw [hv]

/-- The index moves on by one (a success, an exhausted item, a skipped file). -/
theorem monoData_advance {l ps ps1 : List Int} {idx : Int} {reply retry : Bool} {shots : Nat}
    (h : MonoData l ps idx reply retry shots) (hidx : 0 ≤ idx)
    (hlen : ps1.length = ps.length) (hfields1 : ∀ p ∈ ps1, 0 ≤ p ∧ p ≤ 100)
    (shots1 : Nat) (hshots1 : shots1 ≤ 1) :
    MonoData l ps1 (idx + 1) false false shots1 := by
  obtain ⟨hsorted, hfields, hreply, hretry, hshots, hbound⟩ := h
  refine ⟨hsorted, hfields1, fun h => (by cases h), fun h => (by cases h), hshots1, ?_⟩
  intro _ hlt v hv
  rw [hlen] at hlt ⊢
  have hn : (0 : Int) < (ps.length : Int) := by omega
  have hcp := getD_bounds hfields idx.toNat
  have hcp1 := getD_bounds hfields1 (idx + 1).toNat
  exact le_trans (hbound hidx (by omega) v hv) (tdiv_le_tdiv (by omega) (by omega) hn)

/-- The data of the invariant that a state shows. -/
theorem mono_of_view {k : Nat} {s t : UploadManager} (hs : Mono k s)
    (hagg : aggregates t = aggregates s) (hps : progresses t = progresses s)
    (hidx : t.m_currentIndex = s.m_currentIndex)
    (hreply : t.m_currentReply.isSome = s.m_currentReply.isSome)
    (hretry : t.m_retryTimer.isSome = s.m_retryTimer.isSome)
    (hshots : t.singleShots.length = s.singleShots.length) : Mono k t := by
  unfold Mono
  rw [hagg, hps, hidx, hreply, hretry, hshots]
  exact hs

theorem aggregates_emit_other (s : UploadManager) (sig : UploadSignal)
    (h : ∀ p, sig ≠ .uploadProgress p) : aggregates (emit s sig) = aggregates s := by
  simp only [aggregates, emit, List.filterMap_append, List.filterMap_cons, List.filterMap_nil]
  cases sig with
  | uploadProgress p => exact absurd rfl (h p)
  | uploadFinished => simp
  | uploadError m => simp
  | itemProgressChanged i p => simp
  | itemStatusChanged i st => simp

theorem mono_updateItemStatus {k : Nat} (idx : Int) (st : QString) {s : UploadManager}
    (hs : Mono k s) : Mono k (updateItemStatus idx st s) := by
  unfold updateItemStatus
  split
  · refine mono_of_view hs (aggregates_emit_other _ _ (fun p h => by cases h)) ?_ rfl rfl rfl rfl
    show List.map (fun it : UploadItem => it.progress) (modifyAt _ idx.toNat s.m_uploadQueue)
      = List.map (fun it : UploadItem => it.progress) s.m_uploadQueue
    exact map_modifyAt_of_eq (fun it : UploadItem => it.progress)
      (fun it => { it with status := st }) (fun _ => rfl) _ _
  · exact hs

theorem mono_mutex {k : Nat} (s : UploadManager) (b : Bool) (hs : Mono k s) :
    Mono k { s with m_queueMutex := b } := hs

theorem quiet_data {k : Nat} {s : UploadManager} (hs : Mono k s) (hq : Quiet s) :
    MonoData ((aggregates s).drop k) (progresses s) s.m_currentIndex false false 0 := by
  have h := hs.2
  rw [hq.1, hq.2.1, hq.2.2] at h
  exact h

theorem monoData_end {l ps : List Int} {idx : Int}
    (h : MonoData l ps idx false false 0) : MonoData l ps (-1) false false 0 := by
  obtain ⟨hsorted, hfields, _, _, _, _⟩ := h
  exact ⟨hsorted, hfields, fun h => (by cases h), fun h => (by cases h), Nat.zero_le 1,
    fun h => absurd h (by decide)⟩

theorem monoData_dispatch {l ps : List Int} {idx : Int} (h : MonoData l ps idx false false 0)
    (hidx : 0 ≤ idx) (hlen : idx < (ps.length : Int)) (reply : Bool) :
    MonoData l ps idx reply false 0 := by
  obtain ⟨hsorted, hfields, _, _, _, hbound⟩ := h
  exact ⟨hsorted, hfields, fun _ => ⟨hidx, hlen, rfl, rfl⟩, fun h => (by cases h),
    Nat.zero_le 1, hbound⟩

theorem quiet_updateItemStatus (idx : Int) (st : QString) {s : UploadManager} (hq : Quiet s) :
    Quiet (updateItemStatus idx st s) := by
  unfold updateItemStatus
  split
  · exact hq
  · exact hq

theorem updateItemStatus_view (idx : Int) (st : QString) (s : UploadManager) :
    aggregates (updateItemStatus idx st s) = aggregates s
    ∧ progresses (updateItemStatus idx st s) = progresses s
    ∧ (updateItemStatus idx st s).m_currentIndex = s.m_currentIndex
    ∧ (updateItemStatus idx st s).m_currentReply = s.m_currentReply
    ∧ (updateItemStatus idx st s).m_retryTimer = s.m_retryTimer
    ∧ (updateItemStatus idx st s).singleShots = s.singleShots := by
  unfold updateItemStatus
  split
  · refine ⟨aggregates_emit_other _ _ (fun p h => by cases h), ?_, rfl, rfl, rfl, rfl⟩
    show List.map (fun it : UploadItem => it.progress) (modifyAt _ idx.toNat s.m_uploadQueue)
      = List.map (fun it : UploadItem => it.progress) s.m_uploadQueue
    exact map_modifyAt_of_eq (fun it : UploadItem => it.progress)
      (fun it => { it with status := st }) (fun _ => rfl) _ _
  · exact ⟨rfl, rfl, rfl, rfl, rfl, rfl⟩

/-- A quiet state moves on to the next index. -/
theorem mono_skip {k : Nat} {s t : UploadManager} (hs : Mono k s) (hq : Quiet s)
    (hidx : 0 ≤ s.m_currentIndex) (hagg : aggregates t = aggregates s)
    (hps : progresses t = progresses s) (hidx1 : t.m_currentIndex = s.m_currentIndex + 1)
    (hqt : Quiet t) : Mono k t := by
  refine ⟨by rw [hagg]; exact hs.1, ?_⟩
  rw [hagg, hps, hidx1, hqt.1, hqt.2.1, hqt.2.2]
  exact monoData_advance (quiet_data hs hq) hidx rfl (quiet_data hs hq).2.1 0 (Nat.zero_le 1)

/-- A quiet state with the index inside the queue gets a request, or stays without one. -/
theorem mono_dispatch {k : Nat} {s t : UploadManager} (hs : Mono k s) (hq : Quiet s)
    (hidx : 0 ≤ s.m_currentIndex) (hlt : s.m_currentIndex < (s.m_uploadQueue.length : Int))
    (hagg : aggregates t = aggregates s) (hps : progresses t = progresses s)
    (hidx1 : t.m_currentIndex = s.m_currentIndex) (hretry : t.m_retryTimer = none)
    (hshots : t.singleShots = []) : Mono k t := by
  refine ⟨by rw [hagg]; exact hs.1, ?_⟩
  rw [hagg, hps, hidx1, hretry, hshots]
  exact monoData_dispatch (quiet_data hs hq) hidx
    (by simp only [progresses, List.length_map]; exact hlt) _

theorem processNextUploadAux_mono {k : Nat} (fs : FileSystem) :
    ∀ (n : Nat) (s : UploadManager), Mono k s → Quiet s →
      Mono k (processNextUploadAux fs n s).state
  | 0, _, hs, _ => hs
  | n + 1, s, hs, hq => by
    unfold processNextUploadAux
    split
    · exact hs
    · refine state_withQueueMutex_held (Q := Mono k) mono_mutex hs ?_
      dsimp only
      have hdata := quiet_data hs hq
      have hfinished : Mono k (emit { s with
          m_queueMutex := true, m_isUploading := false, m_currentIndex := -1 }
          .uploadFinished) := by
        refine ⟨?_, ?_⟩
        · rw [aggregates_emit_other _ _ (fun p h => by cases h)]
          exact hs.1
        · rw [aggregates_emit_other _ _ (fun p h => by cases h)]
          show MonoData _ (progresses s) (-1) s.m_currentReply.isSome s.m_retryTimer.isSome
            s.singleShots.length
          rw [hq.1, hq.2.1, hq.2.2]
          exact monoData_end hdata
      split
      · exact hfinished
      · split
        · exact hfinished
        · split
          · exact hs
          · split
            · exact hs
            · rename_i hge hneg x item hitem
              have hidx : 0 ≤ s.m_currentIndex := not_lt.1 hneg
              have hlt : s.m_currentIndex < (s.m_uploadQueue.length : Int) := not_le.1 hge
              split
              · have hv := updateItemStatus_view s.m_currentIndex "File not found"
                  { s with m_queueMutex := true }
                refine processNextUploadAux_mono fs n _ ?_ ?_
                · exact mono_skip hs hq hidx hv.1 hv.2.1 (by show (updateItemStatus _ _ _).m_currentIndex + 1 = _; rw [updateItemStatus_index])
                    ⟨hv.2.2.2.1.trans hq.1, hv.2.2.2.2.1.trans hq.2.1,
                      hv.2.2.2.2.2.trans hq.2.2⟩
                · exact ⟨hv.2.2.2.1.trans hq.1, hv.2.2.2.2.1.trans hq.2.1,
                    hv.2.2.2.2.2.trans hq.2.2⟩
              · have hps1 : progresses { s with
                    m_queueMutex := true
                    m_uploadQueue :=
                      modifyAt (fun it => { it with file :=
                        (match item.file with
                          | none => some (fs.canOpen item.filePath)
                          | some b => some b) }) s.m_currentIndex.toNat s.m_uploadQueue }
                    = progresses s :=
                  map_modifyAt_of_eq (fun it : UploadItem => it.progress)
                    (fun it => { it with file :=
                      (match item.file with
                        | none => some (fs.canOpen item.filePath)
                        | some b => some b) }) (fun _ => rfl) _ _
                split
                · have hv := updateItemStatus_view s.m_currentIndex "Cannot open file"
                    { s with
                      m_queueMutex := true
                      m_uploadQueue :=
                        modifyAt (fun it => { it with file :=
                          (match item.file with
                            | none => some (fs.canOpen item.filePath)
                            | some b => some b) }) s.m_currentIndex.toNat s.m_uploadQueue }
                  refine processNextUploadAux_mono fs n _ ?_ ?_
                  · exact mono_skip hs hq hidx hv.1 (hv.2.1.trans hps1) (by show (updateItemStatus _ _ _).m_currentIndex + 1 = _; rw [updateItemStatus_index])
                      ⟨hv.2.2.2.1.trans hq.1, hv.2.2.2.2.1.trans hq.2.1,
                        hv.2.2.2.2.2.trans hq.2.2⟩
                  · exact ⟨hv.2.2.2.1.trans hq.1, hv.2.2.2.2.1.trans hq.2.1,
                      hv.2.2.2.2.2.trans hq.2.2⟩
                · have hv := updateItemStatus_view s.m_currentIndex "Uploading..."
                    { s with
                      m_queueMutex := true
                      m_uploadQueue :=
                        modifyAt (fun it => { it with file :=
                          (match item.file with
                            | none => some (fs.canOpen item.filePath)
                            | some b => some b) }) s.m_currentIndex.toNat s.m_uploadQueue }
                  unfold createMultipartRequest
                  split
                  · exact mono_dispatch hs hq hidx hlt hv.1 (hv.2.1.trans hps1) hv.2.2.1
                      (hv.2.2.2.2.1.trans hq.2.1) (hv.2.2.2.2.2.trans hq.2.2)
                  · exact mono_dispatch hs hq hidx hlt hv.1 (hv.2.1.trans hps1) hv.2.2.1
                      (hv.2.2.2.2.1.trans hq.2.1) (hv.2.2.2.2.2.trans hq.2.2)

theorem processNextUpload_mono {k : Nat} (fs : FileSystem) (s : UploadManager)
    (hs : Mono k s) (hq : Quiet s) : Mono k (processNextUpload fs s).state :=
  processNextUploadAux_mono fs _ s hs hq

theorem monoData_relax {l ps : List Int} {idx : Int} {reply retry : Bool} {shots : Nat}
    (h : MonoData l ps idx reply retry shots) : MonoData l ps idx false false 0 := by
  obtain ⟨hsorted, hfields, _, _, _, hbound⟩ := h
  exact ⟨hsorted, hfields, fun h => (by cases h), fun h => (by cases h), Nat.zero_le 1, hbound⟩

theorem monoData_retry {l ps : List Int} {idx : Int} {reply retry : Bool} {shots : Nat}
    (h : MonoData l ps idx reply retry shots) : MonoData l ps idx false true 0 := by
  obtain ⟨hsorted, hfields, _, _, _, hbound⟩ := h
  exact ⟨hsorted, hfields, fun h => (by cases h), fun _ => rfl, Nat.zero_le 1, hbound⟩

theorem toInt32_small {x : Int} (h0 : 0 ≤ x) (h1 : x ≤ 100) : toInt32 x = x := by
  unfold toInt32
  norm_num
  omega

theorem percent_bounds {sent total : Int} (h0 : 0 ≤ sent) (h1 : sent ≤ total)
    (h2 : 0 < total) : 0 ≤ percent sent total ∧ percent sent total ≤ 100 := by
  have hnum : 0 ≤ sent * 100 := by omega
  have hq0 : 0 ≤ (sent * 100).tdiv total := by
    rw [Int.tdiv_eq_ediv hnum (le_of_lt h2)]
    exact Int.ediv_nonneg hnum (le_of_lt h2)
  have hq1 : (sent * 100).tdiv total ≤ 100 := by
    rw [Int.tdiv_eq_ediv hnum (le_of_lt h2)]
    exact Int.ediv_le_of_le_mul h2 (by omega)
  unfold percent
  rw [toInt32_small hq0 hq1]
  exact ⟨hq0, hq1⟩

/-- The invariant without the aggregate emitted last. -/
theorem monoData_init {l ps : List Int} {v idx : Int} {reply retry : Bool} {shots : Nat}
    (h : MonoData (l ++ [v]) ps idx reply retry shots) : MonoData l ps idx reply retry shots := by
  obtain ⟨hsorted, hfields, hreply, hretry, hshots, hbound⟩ := h
  exact ⟨(List.pairwise_append.1 hsorted).1, hfields, hreply, hretry, hshots,
    fun h1 h2 w hw => hbound h1 h2 w (List.mem_append_left _ hw)⟩

theorem onUploadProgress_mono {k : Nat} (sent total : Int) (s : UploadManager)
    (hs : Mono k s) (hadm : admissibleEvent s (.onUploadProgress sent total) = true) :
    Mono k (onUploadProgress sent total s).state := by
  simp only [admissibleEvent, decide_eq_true_eq] at hadm
  obtain ⟨h0, h1, h2, h3, hge⟩ := hadm
  by_cases hrange : 0 ≤ s.m_currentIndex ∧ s.m_currentIndex < (s.m_uploadQueue.length : Int)
  · obtain ⟨c, hc⟩ : ∃ c : Nat, s.m_currentIndex = (c : Int) :=
      ⟨s.m_currentIndex.toNat, (Int.toNat_of_nonneg hrange.1).symm⟩
    have hlen : c < s.m_uploadQueue.length := by omega
    have hplen : (progresses s).length = s.m_uploadQueue.length := by
      simp only [progresses, List.length_map]
    have hcur : ((progresses s).get? c).getD 0 ≤ percent sent total := by
      simp only [currentProgress, hc, Int.ofNat_nonneg, ↓reduceIte, Int.toNat_ofNat] at hge
      exact hge
    have hdata := monoData_tick hs.2 c hc (by rw [hplen]; exact hlen) (percent sent total)
      (percent_bounds h0 h1 h2) hcur
    have hnum : 0 ≤ sent * 100 := by omega
    have hq0 : 0 ≤ (sent * 100).tdiv total := by
      rw [Int.tdiv_eq_ediv hnum (le_of_lt h2)]
      exact Int.ediv_nonneg hnum (le_of_lt h2)
    have hq1 : (sent * 100).tdiv total ≤ 100 := by
      rw [Int.tdiv_eq_ediv hnum (le_of_lt h2)]
      exact Int.ediv_le_of_le_mul h2 (by omega)
    have hprod : fitsInt64 (sent * 100) = true := by
      simp only [fitsInt64, decide_eq_true_eq]
      omega
    have hquot : fitsInt64 ((sent * 100).tdiv total) = true := by
      simp only [fitsInt64, decide_eq_true_eq]
      omega
    rcases onUploadProgress_state sent total s c hc hlen (ne_of_gt h2) hprod hquot with hret | hret
    · rw [hret]
      refine ⟨?_, ?_⟩
      · show k ≤ (aggregates { s with emitted := s.emitted ++ _ }).length
        rw [aggregates_append, List.length_append]
        exact Nat.le_trans hs.1 (Nat.le_add_right _ _)
      · show MonoData (List.drop k (aggregates { s with emitted := s.emitted ++ _ }))
          (List.map (fun it : UploadItem => it.progress)
            (modifyAt (fun it => { it with progress := percent sent total }) c s.m_uploadQueue))
          s.m_currentIndex s.m_currentReply.isSome s.m_retryTimer.isSome s.singleShots.length
        rw [aggregates_append, List.drop_append_of_le_length hs.1,
          map_modifyAt_comm (fun it : UploadItem => it.progress)
            (fun it => { it with progress := percent sent total })
            (fun _ => percent sent total) (fun _ => rfl)]
        rw [hplen] at hdata
        exact hdata
    · rw [hret]
      have hagg : aggregates { s with emitted := s.emitted ++
          [UploadSignal.itemProgressChanged (c : Int) (percent sent total)] } = aggregates s := by
        rw [aggregates_append]
        exact List.append_nil _
      refine ⟨?_, ?_⟩
      · show k ≤ (aggregates { s with emitted := s.emitted ++ _ }).length
        rw [hagg]
        exact hs.1
      · show MonoData (List.drop k (aggregates { s with emitted := s.emitted ++ _ }))
          (List.map (fun it : UploadItem => it.progress)
            (modifyAt (fun it => { it with progress := percent sent total }) c s.m_uploadQueue))
          s.m_currentIndex s.m_currentReply.isSome s.m_retryTimer.isSome s.singleShots.length
        rw [hagg, map_modifyAt_comm (fun it : UploadItem => it.progress)
            (fun it => { it with progress := percent sent total })
            (fun _ => percent sent total) (fun _ => rfl)]
        exact monoData_init hdata
  · unfold onUploadProgress
    rw [if_neg hrange]
    exact hs

theorem aggregates_of_emitted {s t : UploadManager} (l : List UploadSignal)
    (h : t.emitted = s.emitted ++ l) :
    aggregates t = aggregates s ++ aggregates { s with emitted := l } := by
  simp only [aggregates, h, List.filterMap_append]

theorem mono_of_data {k : Nat} {s t : UploadManager} (hs : Mono k s)
    (hagg : aggregates t = aggregates s)
    (hdata : MonoData ((aggregates s).drop k) (progresses t) t.m_currentIndex
      t.m_currentReply.isSome t.m_retryTimer.isSome t.singleShots.length) : Mono k t := by
  unfold Mono
  rw [hagg]
  exact ⟨hs.1, hdata⟩

theorem onUploadFinished_mono {k : Nat} (e : Bool) (s : UploadManager) (hs : Mono k s) :
    Mono k (onUploadFinished e s) := by
  cases hreply : s.m_currentReply with
  | none =>
    unfold onUploadFinished
    rw [hreply]
    exact hs
  | some r =>
    have hdata := hs.2
    rw [hreply] at hdata
    obtain ⟨hidx, hlt, hretry, hshots⟩ := hdata.2.2.1 rfl
    obtain ⟨c, hc⟩ : ∃ c : Nat, s.m_currentIndex = (c : Int) :=
      ⟨s.m_currentIndex.toNat, (Int.toNat_of_nonneg hidx).symm⟩
    have hplen : (progresses s).length = s.m_uploadQueue.length := by
      simp only [progresses, List.length_map]
    have hlen : c < s.m_uploadQueue.length := by omega
    have hnil : s.singleShots = [] := List.length_eq_zero.1 hshots
    cases e with
    | false =>
      rw [onUploadFinished_success s c r hreply hc hlen]
      refine mono_of_data hs ?_ ?_
      · rw [aggregates_of_emitted
          [.itemStatusChanged (c : Int) "Completed", .itemProgressChanged (c : Int) 100] rfl]
        exact List.append_nil _
      · show MonoData _
          (List.map (fun it : UploadItem => it.progress)
            (modifyAt (fun it => { it with file := none }) c
              (modifyAt (fun it => { it with progress := 100 }) c
                (modifyAt (fun it => { it with status := "Completed" }) c s.m_uploadQueue))))
          ((c : Int) + 1) false s.m_retryTimer.isSome (s.singleShots ++ [(100 : Int)]).length
        rw [hretry, map_modifyAt_of_eq (fun it : UploadItem => it.progress)
            (fun it => { it with file := none }) (fun _ => rfl),
          map_modifyAt_comm (fun it : UploadItem => it.progress)
            (fun it => { it with progress := 100 }) (fun _ => 100) (fun _ => rfl),
          map_modifyAt_of_eq (fun it : UploadItem => it.progress)
            (fun it => { it with status := "Completed" }) (fun _ => rfl), hnil, ← hc]
        refine monoData_advance hdata hidx (length_modifyAt _ _ _) ?_ 1 (le_refl 1)
        intro p hp
        rcases mem_modifyAt _ _ _ _ hp with h1 | ⟨_, _, h1⟩
        · exact hdata.2.1 p h1
        · rw [h1]; exact ⟨by decide, by decide⟩
    | true =>
      by_cases hk : s.m_currentRetries < s.m_maxRetries
      · rw [onUploadFinished_retry s c r hreply hc hlen hk]
        refine mono_of_data hs ?_ ?_
        · rw [aggregates_of_emitted [.itemStatusChanged (c : Int)
              (retryingStatus (s.m_currentRetries + 1) s.m_maxRetries)] rfl]
          exact List.append_nil _
        · show MonoData _
            (List.map (fun it : UploadItem => it.progress)
              (modifyAt (fun it => { it with
                status := retryingStatus (s.m_currentRetries + 1) s.m_maxRetries }) c
                s.m_uploadQueue))
            s.m_currentIndex false true s.singleShots.length
          rw [map_modifyAt_of_eq (fun it : UploadItem => it.progress)
            (fun it => { it with
              status := retryingStatus (s.m_currentRetries + 1) s.m_maxRetries })
            (fun _ => rfl), hshots]
          exact monoData_retry hdata
      · rw [onUploadFinished_failed s c r hreply hc hlen hk]
        refine mono_of_data hs ?_ ?_
        · rw [aggregates_of_emitted [.itemStatusChanged (c : Int) "Failed"] rfl]
          exact List.append_nil _
        · show MonoData _
            (List.map (fun it : UploadItem => it.progress)
              (modifyAt (fun it => { it with status := "Failed" }) c s.m_uploadQueue))
            ((c : Int) + 1) false s.m_retryTimer.isSome (s.singleShots ++ [(100 : Int)]).length
          rw [hretry, map_modifyAt_of_eq (fun it : UploadItem => it.progress)
            (fun it => { it with status := "Failed" }) (fun _ => rfl), hnil, ← hc]
          exact monoData_advance hdata hidx rfl hdata.2.1 1 (le_refl 1)

theorem onRetryTimer_mono {k : Nat} (fs : FileSystem) (s : UploadManager) (hs : Mono k s) :
    Mono k (onRetryTimer fs s).state := by
  unfold onRetryTimer
  split
  · rename_i x hx
    have hdata := hs.2
    rw [hx] at hdata
    have hshots : s.singleShots = [] := List.length_eq_zero.1 (hdata.2.2.2.1 rfl)
    have hreply : s.m_currentReply = none := by
      cases hr : s.m_currentReply with
      | none => rfl
      | some r =>
        rw [hr] at hdata
        have := (hdata.2.2.1 rfl).2.2.1
        cases this
    refine processNextUpload_mono fs _ ⟨hs.1, ?_⟩ ⟨hreply, rfl, hshots⟩
    show MonoData _ (progresses s) s.m_currentIndex s.m_currentReply.isSome false
      s.singleShots.length
    rw [hreply, hshots]
    exact monoData_relax hdata
  · exact hs

theorem onSingleShot_mono {k : Nat} (fs : FileSystem) (j : Nat) (s : UploadManager)
    (hs : Mono k s) : Mono k (onSingleShot fs j s).state := by
  unfold onSingleShot
  split
  · rename_i hj
    have hdata := hs.2
    have hone : s.singleShots.length = 1 := by
      have := hdata.2.2.2.2.1
      omega
    have hj0 : j = 0 := by omega
    have hreply : s.m_currentReply = none := by
      cases hr : s.m_currentReply with
      | none => rfl
      | some r =>
        rw [hr] at hdata
        have := (hdata.2.2.1 rfl).2.2.2
        omega
    have hretry : s.m_retryTimer = none := by
      cases hr : s.m_retryTimer with
      | none => rfl
      | some r =>
        rw [hr] at hdata
        have := hdata.2.2.2.1 rfl
        omega
    have herase : s.singleShots.eraseIdx j = [] := by
      rw [hj0]
      match hq : s.singleShots, hone with
      | [a], _ => rfl
    refine processNextUpload_mono fs _ ⟨hs.1, ?_⟩ ⟨hreply, hretry, herase⟩
    show MonoData _ (progresses s) s.m_currentIndex s.m_currentReply.isSome
      s.m_retryTimer.isSome (s.singleShots.eraseIdx j).length
    rw [hreply, hretry, herase]
    exact monoData_relax hdata
  · exact hs

theorem step_mono {k : Nat} (ev : Event) (s : UploadManager) (hs : Mono k s)
    (hadm : admissibleEvent s ev = true) : Mono k (step ev s).state := by
  cases ev with
  | onUploadProgress sent total => exact onUploadProgress_mono sent total s hs hadm
  | onUploadFinished e => exact onUploadFinished_mono e s hs
  | onRetryTimer fs => exact onRetryTimer_mono fs s hs
  | onSingleShot fs j => exact onSingleShot_mono fs j s hs
  | addFile fs p => cases hadm
  | addFolder fs p => cases hadm
  | startUpload fs => cases hadm
  | pauseUpload => cases hadm
  | resumeUpload fs => cases hadm
  | clearQueue => cases hadm
  | onNetworkError => cases hadm
  | processNextUpload fs => cases hadm

theorem run_mono {k : Nat} : ∀ (events : List Event) (s : UploadManager), Mono k s →
    admissible s events = true → Mono k (run events s).state
  | [], _, hs, _ => hs
  | ev :: rest, s, hs, hadm => by
    simp only [admissible, Bool.and_eq_true] at hadm
    have h1 := step_mono ev s hs hadm.1
    show Mono k ((step ev s).andThen (forEach step rest)).state
    cases hstep : step ev s with
    | returned t =>
      rw [hstep] at h1 hadm
      exact run_mono rest t h1 hadm.2
    | blocked t => rw [hstep] at h1; exact h1
    | crashed t => rw [hstep] at h1; exact h1

theorem startUpload_mono (fs : FileSystem) (s : UploadManager) (hq : Quiet s)
    (hfields : ∀ it ∈ s.m_uploadQueue, 0 ≤ it.progress ∧ it.progress ≤ 100) :
    Mono (aggregates s).length (startUpload fs s).state := by
  have hps : ∀ p ∈ progresses s, 0 ≤ p ∧ p ≤ 100 := by
    intro p hp
    obtain ⟨it, hit, rfl⟩ := List.mem_map.1 hp
    exact hfields it hit
  unfold startUpload
  split
  · refine ⟨le_refl _, ?_⟩
    show MonoData (List.drop (aggregates s).length (aggregates s)) (progresses s)
      s.m_currentIndex s.m_currentReply.isSome s.m_retryTimer.isSome s.singleShots.length
    rw [List.drop_length, hq.1, hq.2.1, hq.2.2]
    exact ⟨List.Pairwise.nil, hps, fun h => (by cases h), fun h => (by cases h),
      Nat.zero_le 1, fun _ _ v hv => (by cases hv)⟩
  · rename_i hstart
    have hne : (0 : Int) < (s.m_uploadQueue.length : Int) := by
      cases hl : s.m_uploadQueue with
      | nil => simp [hl] at hstart
      | cons a l => simp
    refine processNextUpload_mono fs _ ⟨?_, ?_⟩ hq
    · show (aggregates s).length ≤ (aggregates { s with emitted := s.emitted ++ _ }).length
      rw [aggregates_append, List.length_append]
      exact Nat.le_add_right _ _
    · show MonoData (List.drop _ (aggregates { s with emitted := s.emitted ++ _ }))
        (progresses s) 0 s.m_currentReply.isSome s.m_retryTimer.isSome s.singleShots.length
      rw [aggregates_append, List.drop_append_of_le_length (le_refl _), List.drop_length,
        hq.1, hq.2.1, hq.2.2]
      refine ⟨List.pairwise_singleton _ _, hps, fun h => (by cases h), fun h => (by cases h),
        Nat.zero_le 1, fun _ _ v hv => ?_⟩
      have hv0 : v = 0 := by
        simpa [aggregates] using hv
      rw [hv0]
      have hcp := getD_bounds hps (0 : Int).toNat
      have hplen : ((progresses s).length : Int) = (s.m_uploadQueue.length : Int) := by
        simp only [progresses, List.length_map]
      rw [Int.tdiv_eq_ediv (by omega) (by omega)]
      exact Int.ediv_nonneg (by omega) (by omega)

/-- C17 (counterexample). One file, up to three retries: the first request reports 80 of
100 bytes and fails, the retry timer fires, and the new request for the same file reports
10 of 100 bytes. Each request has reported one tick, so the byte progress of every single
request is non-decreasing, and the aggregates emitted during the run are 0, 80, 10. -/
theorem C17_counterexample :
    retriedAfterProgress.m_isUploading = true
    ∧ finishedSignals retriedAfterProgress = 0
    ∧ queueStatuses retriedAfterProgress = ["Uploading..."]
    ∧ aggregates retriedAfterProgress = [0, 80, 10] := by
  refine ⟨?_, ?_, ?_, ?_⟩ <;> decide

/-- C17 (amended). Progress monotonicity: startUpload is called with no request in flight,
no timer pending and every progress field between 0 and 100, and is followed by any
sequence of progress ticks, completions (with or without error, retried or not) and
timer events, in which every tick carries the byte counts of a transfer
(0 <= sent <= total, total > 0) and a percentage that is not below the progress field of
the current item, i.e. not below the last percentage reported for that item, by this
request or by an earlier attempt. Then the aggregate progress values emitted from the
call of startUpload on are non-decreasing, whether or not the run ends. -/
theorem C17_progress_monotone (fs : FileSystem) (s : UploadManager) (events : List Event)
    (hquiet : Quiet s)
    (hfields : ∀ it ∈ s.m_uploadQueue, 0 ≤ it.progress ∧ it.progress ≤ 100)
    (hadm : admissible (startUpload fs s).state events = true) :
    List.Pairwise (fun a b => a ≤ b)
      ((aggregates (run (.startUpload fs :: events) s).state).drop (aggregates s).length) := by
  have h0 := startUpload_mono fs s hquiet hfields
  have h1 : Mono (aggregates s).length (run (.startUpload fs :: events) s).state := by
    show Mono _ ((startUpload fs s).andThen (forEach step events)).state
    cases hstart : startUpload fs s with
    | returned t =>
      rw [hstart] at h0 hadm
      exact run_mono events t h0 hadm
    | blocked t => rw [hstart] at h0; exact h0
    | crashed t => rw [hstart] at h0; exact h0
  exact h1.2.1

/-- C17 (witness). The amended statement at three queued files: the first upload reports
50 %, fails and is retried, the retry reports 50 % and 100 % and succeeds, and the second
upload reports 100 %; the aggregates are 0, 16, 16, 33, 66. -/
theorem C17_progress_monotone_witness :
    Quiet queuedThree
    ∧ admissible (startUpload uploadTree queuedThree).state steadyEvents = true
    ∧ aggregates (run (.startUpload uploadTree :: steadyEvents) queuedThree).state
        = [0, 16, 16, 33, 66]
    ∧ List.Pairwise (fun a b => a ≤ b)
        ((aggregates (run (.startUpload uploadTree :: steadyEvents) queuedThree).state).drop
          (aggregates queuedThree).length) :=
  ⟨⟨by decide, by decide, by decide⟩, by decide, by decide,
    C17_progress_monotone uploadTree queuedThree steadyEvents
      ⟨by decide, by decide, by decide⟩ (by decide) (by decide)⟩

open Example

/-! ## A progress tick without a byte total -/

/-- C28, evaluated at the failing input: one file is queued and its upload is in flight
(current index 0, queue size 1) when the transport reports a tick with bytesTotal = 0.
The queue size is not zero, but the percentage is computed as bytesSent * 100 / 0: the
call runs into the division by zero, whatever bytesSent is. -/
theorem C28_zero_total_divides_by_zero :
    uploadingOne.m_currentIndex = 0
    ∧ uploadingOne.m_uploadQueue.length = 1
    ∧ onUploadProgress 0 0 uploadingOne = .crashed uploadingOne
    ∧ ∀ bytesSent : Int, onUploadProgress bytesSent 0 uploadingOne = .crashed uploadingOne := by
  refine ⟨by decide, by decide, by decide, fun bytesSent => ?_⟩
  have hrange : 0 ≤ uploadingOne.m_currentIndex
      ∧ uploadingOne.m_currentIndex < (uploadingOne.m_uploadQueue.length : Int) := by decide
  simp only [onUploadProgress, hrange, and_self, ↓reduceIte]

/-! ## The media filter of the upload manager -/

theorem toLower_eq_dot {c : Char} (h : c.toLower = '.') : c = '.' := by
  unfold Char.toLower at h
  dsimp only at h
  split at h
  · rename_i hc
    exfalso
    generalize hn : c.toNat = n at h hc
    obtain ⟨h1, h2⟩ := hc
    interval_cases n <;> revert h <;> decide
  · exact h

theorem suffix_not_media (p : QString) :
    mediaExtensions.contains (toLower (suffix p)) = false := by
  unfold suffix
  dsimp only
  split
  · have hall : ∀ c ∈ (((fileName p).data.reverse.takeWhile (fun c => c != '.')).reverse),
        c ≠ '.' := by
      intro c hc
      rw [List.mem_reverse] at hc
      have := List.mem_takeWhile_imp hc
      simpa using this
    generalize (((fileName p).data.reverse.takeWhile (fun c => c != '.')).reverse) = l at hall
    cases l with
    | nil => decide
    | cons c l =>
      have hc : c.toLower ≠ '.' := fun h => hall c (List.mem_cons_self _ _) (toLower_eq_dot h)
      have hne : ∀ e ∈ mediaExtensions, toLower ⟨c :: l⟩ ≠ e := by
        intro e he heq
        have hheads : ∀ e ∈ mediaExtensions, e.data.head? = some '.' := by decide
        have hhead := hheads e he
        rw [← heq] at hhead
        simp only [toLower, List.map_cons, List.head?_cons, Option.some.injEq] at hhead
        exact hc hhead
      simp only [List.contains_eq_any_beq, List.any_eq_false, beq_iff_eq]
      intro e he heq
      exact hne e he heq
  · decide

theorem scanFolder_enqueues_nothing (fs : FileSystem) (p : QString) (s : UploadManager) :
    scanFolder fs p s = s := by
  unfold scanFolder
  generalize fs.files p = files
  induction files with
  | nil => rfl
  | cons f files ih =>
    simp only [List.foldl_cons, suffix_not_media, Bool.false_eq_true, ↓reduceIte] at ih ⊢
    exact ih

/-- C24, evaluated at the failing input: the folder `/u` holds `/u/a.mp4`, `/u/b.mp4` and
`/u/c.mp4`, which pass the filter of FolderSync, and addFolder is called on a fresh
upload manager. It returns with the queue still empty: scanFolder compares the suffix,
which has no dot, with entries that start with a dot, so it enqueues no file of any
folder, in any state. -/
theorem C24_addFolder_enqueues_nothing :
    uploadTree.files "/u" = ["/u/a.mp4", "/u/b.mp4", "/u/c.mp4"]
    ∧ FolderSync.qualifying uploadTree "/u/a.mp4" = true
    ∧ suffix "/u/a.mp4" = "mp4"
    ∧ addFolder uploadTree "/u" (UploadManager.init 3) = .returned (UploadManager.init 3)
    ∧ (UploadManager.init 3).m_uploadQueue = []
    ∧ ∀ (fs : FileSystem) (p : QString) (s : UploadManager), scanFolder fs p s = s := by
  refine ⟨by decide, by decide, by decide, by decide, rfl, scanFolder_enqueues_nothing⟩

/-! ## The queue mutex is taken twice -/

end UploadManager

namespace FolderSync
open Example

/-- C30, evaluated at the failing inputs. FolderSync: addFolder on the folder `/a`, which
holds media files, takes m_syncMutex and calls scanFolder, whose first call of scanFile
asks for the same mutex: addFolder does not return; the folder is in the watch list, no
file has been queued and the mutex stays locked. UploadManager: three files are queued,
the first cannot be opened, and startUpload calls processNextUpload, which takes
m_queueMutex, marks the item "Cannot open file" and calls itself while it holds the
mutex: the call does not return and the second item is not dispatched. -/
theorem C30_mutex_locked_twice :
    mediaTree.files "/a" = ["/a/x.mp4", "/a/b/y.mp4"]
    ∧ (FolderSync.init 3 []).m_syncMutex = false
    ∧ (addFolder mediaTree "/a" (FolderSync.init 3 [])).isReturned = false
    ∧ addFolder mediaTree "/a" (FolderSync.init 3 [])
        = .blocked (addFolder mediaTree "/a" (FolderSync.init 3 [])).state
    ∧ (addFolder mediaTree "/a" (FolderSync.init 3 [])).state.m_syncMutex = true
    ∧ (addFolder mediaTree "/a" (FolderSync.init 3 [])).state.m_watchedFolders = ["/a"]
    ∧ (addFolder mediaTree "/a" (FolderSync.init 3 [])).state.m_syncQueue = []
    ∧ lockedTree.fileExists "/u/a.mp4" = true
    ∧ lockedTree.canOpen "/u/a.mp4" = false
    ∧ queuedThree.m_queueMutex = false
    ∧ (UploadManager.startUpload lockedTree queuedThree).isReturned = false
    ∧ UploadManager.startUpload lockedTree queuedThree
        = .blocked (UploadManager.startUpload lockedTree queuedThree).state
    ∧ (UploadManager.startUpload lockedTree queuedThree).state.m_queueMutex = true
    ∧ UploadManager.queueStatuses (UploadManager.startUpload lockedTree queuedThree).state
        = ["Cannot open file", "Pending", "Pending"]
    ∧ (UploadManager.startUpload lockedTree queuedThree).state.m_currentReply = none := by
  decide

/-! ## A file event for a path that is gone -/

/-- C26 (counterexample). `/a/x.mp4` is tracked (index entry and queued item) when it is
deleted and the file event for it arrives at the enabled engine: the event changes
nothing, and the path still has its index entry and its queue item. -/
theorem C26_counterexample :
    tracking.m_isEnabled = true
    ∧ deletedTree.stat "/a/x.mp4" = none
    ∧ onFileChanged deletedTree "/a/x.mp4" tracking = .returned tracking
    ∧ QHash.contains tracking.m_fileIndex "/a/x.mp4" = true
    ∧ "/a/x.mp4" ∈ queuePaths tracking.m_syncQueue := by
  refine ⟨?_, ?_, ?_, ?_, ?_⟩ <;> decide

/-- C26 (amended). A file event for a path that no longer exists, is not a regular file,
or does not pass the extension filter is ignored: onFileChanged returns and leaves the
whole state as it was. The path is not queued and gets no index entry by the event; an
index entry and a queue item that it had before stay. -/
theorem C26_file_event_ignored (fs : FileSystem) (path : QString) (s : FolderSync)
    (hgone : qualifying fs path = false) : onFileChanged fs path s = .returned s := by
  unfold onFileChanged
  split
  · rfl
  · unfold qualifying at hgone
    cases hstat : fs.stat path with
    | none => rfl
    | some st =>
      simp only [hstat] at hgone
      simp only [hgone, Bool.false_eq_true, ↓reduceIte]

/-- C26 (witness). The amended statement at the deleted file of the example. -/
theorem C26_file_event_ignored_witness :
    qualifying deletedTree "/a/x.mp4" = false
    ∧ onFileChanged deletedTree "/a/x.mp4" tracking = .returned tracking :=
  ⟨by decide, C26_file_event_ignored deletedTree "/a/x.mp4" tracking (by decide)⟩

end FolderSync

namespace UploadManager
open Example

/-! ## The completion of an aborted request -/

/-- C21 (counterexample). The upload of the only queued file is in flight, with one retry
allowed and none used. pauseUpload aborts the request, and the completion of the aborted
request increments the retry counter, sets the status to "Retrying... (1/1)" and starts
the retry timer with 2000 ms. clearQueue in the same state leaves that retry timer
pending. -/
theorem C21_counterexample :
    uploadingOne.m_currentReply = some ⟨0, "/u/a.mp4"⟩
    ∧ uploadingOne.m_currentRetries = 0
    ∧ uploadingOne.m_retryTimer = none
    ∧ (pauseUpload uploadingOne).m_currentRetries = 1
    ∧ (pauseUpload uploadingOne).m_retryTimer = some 2000
    ∧ queueStatuses (pauseUpload uploadingOne) = ["Retrying... (1/1)"]
    ∧ (clearQueue uploadingOne).isReturned = true
    ∧ (clearQueue uploadingOne).state.m_retryTimer = some 2000 := by
  refine ⟨?_, ?_, ?_, ?_, ?_, ?_, ?_, ?_⟩ <;> decide

theorem pauseUpload_eq (s : UploadManager) (r : UploadRequest)
    (hreply : s.m_currentReply = some r) :
    pauseUpload s = onUploadFinished true
      (emit { s with m_isPaused := true }
        (.uploadError "Network error: Operation canceled")) := by
  cases s
  simp only at hreply
  subst hreply
  rfl

theorem clearQueue_eq (s : UploadManager) (r : UploadRequest)
    (hreply : s.m_currentReply = some r) (hfree : s.m_queueMutex = false) :
    clearQueue s = .returned (emit
      { onUploadFinished true
          (emit { s with m_queueMutex := true }
            (.uploadError "Network error: Operation canceled")) with
        m_currentReply := none
        m_uploadQueue := []
        m_isUploading := false
        m_isPaused := false
        m_currentIndex := -1
        m_currentRetries := 0
        m_queueMutex := false } (.uploadProgress 0)) := by
  cases s
  simp only at hreply hfree
  subst hreply
  subst hfree
  rfl

/-- C21 (amended). When the request in flight (for the item at the current index i) is
aborted by pauseUpload or clearQueue, its completion is handled like any failed
completion. With a retry left, the retry counter is incremented, the item gets the
status "Retrying... (k/m)" and the retry timer is started with 2000 * k ms, the index
staying at i; with no retry left, the item becomes "Failed", the counter is reset to 0,
the index moves to i + 1 and the 100 ms timer is started. After pauseUpload the manager
is paused, with no request in flight, in that state. clearQueue then empties the queue
and resets index, counter and flags; the timer started by the completion stays pending. -/
theorem C21_abort_takes_failure_path (s : UploadManager) (i : Nat) (r : UploadRequest)
    (hreply : s.m_currentReply = some r) (hidx : s.m_currentIndex = (i : Int))
    (hlen : i < s.m_uploadQueue.length) :
    (pauseUpload s).m_isPaused = true ∧ (pauseUpload s).m_currentReply = none
    ∧ (s.m_currentRetries < s.m_maxRetries →
        (pauseUpload s).m_currentRetries = s.m_currentRetries + 1
        ∧ (pauseUpload s).m_retryTimer = some (2000 * (s.m_currentRetries + 1))
        ∧ statusAt i (pauseUpload s)
            = some (retryingStatus (s.m_currentRetries + 1) s.m_maxRetries)
        ∧ (pauseUpload s).m_currentIndex = (i : Int))
    ∧ (¬ s.m_currentRetries < s.m_maxRetries →
        (pauseUpload s).m_currentRetries = 0
        ∧ (pauseUpload s).singleShots = s.singleShots ++ [100]
        ∧ statusAt i (pauseUpload s) = some "Failed"
        ∧ (pauseUpload s).m_currentIndex = (i : Int) + 1)
    ∧ (s.m_queueMutex = false →
        ∃ t, clearQueue s = .returned t
          ∧ t.m_uploadQueue = [] ∧ t.m_currentReply = none ∧ t.m_currentRetries = 0
          ∧ t.m_currentIndex = -1 ∧ t.m_isUploading = false ∧ t.m_isPaused = false
          ∧ (s.m_currentRetries < s.m_maxRetries →
              t.m_retryTimer = some (2000 * (s.m_currentRetries + 1)))
          ∧ (¬ s.m_currentRetries < s.m_maxRetries →
              t.singleShots = s.singleShots ++ [100])) := by
  obtain ⟨item, hitem⟩ : ∃ item, s.m_uploadQueue.get? i = some item :=
    ⟨_, List.get?_eq_get hlen⟩
  have hpause := pauseUpload_eq s r hreply
  have hretry := fun hk => onUploadFinished_retry
    (emit { s with m_isPaused := true } (.uploadError "Network error: Operation canceled"))
    i r hreply hidx hlen hk
  have hfailed := fun hk => onUploadFinished_failed
    (emit { s with m_isPaused := true } (.uploadError "Network error: Operation canceled"))
    i r hreply hidx hlen hk
  have hretry1 := fun hk => onUploadFinished_retry
    (emit { s with m_queueMutex := true } (.uploadError "Network error: Operation canceled"))
    i r hreply hidx hlen hk
  have hfailed1 := fun hk => onUploadFinished_failed
    (emit { s with m_queueMutex := true } (.uploadError "Network error: Operation canceled"))
    i r hreply hidx hlen hk
  refine ⟨?_, ?_, ?_, ?_, ?_⟩
  · rw [hpause]
    by_cases hk : s.m_currentRetries < s.m_maxRetries
    · rw [hretry hk]; rfl
    · rw [hfailed hk]; rfl
  · rw [hpause]
    by_cases hk : s.m_currentRetries < s.m_maxRetries
    · rw [hretry hk]
    · rw [hfailed hk]
  · intro hk
    rw [hpause, hretry hk]
    refine ⟨rfl, rfl, ?_, hidx⟩
    simp only [statusAt, emit, get?_modifyAt_self, hitem, Option.map_some']
  · intro hk
    rw [hpause, hfailed hk]
    refine ⟨rfl, rfl, ?_, rfl⟩
    simp only [statusAt, emit, get?_modifyAt_self, hitem, Option.map_some']
  · intro hfree
    refine ⟨_, clearQueue_eq s r hreply hfree, rfl, rfl, rfl, rfl, rfl, rfl, ?_, ?_⟩
    · intro hk
      show (onUploadFinished true _).m_retryTimer = _
      rw [hretry1 hk]
      rfl
    · intro hk
      show (onUploadFinished true _).singleShots = _
      rw [hfailed1 hk]
      rfl

/-- C21 (witness). The amended statement at the upload in flight of the example. -/
theorem C21_abort_takes_failure_path_witness :
    uploadingOne.m_currentRetries < uploadingOne.m_maxRetries
    ∧ (pauseUpload uploadingOne).m_currentRetries = uploadingOne.m_currentRetries + 1
    ∧ (pauseUpload uploadingOne).m_retryTimer = some (2000 * (uploadingOne.m_currentRetries + 1))
    ∧ (pauseUpload uploadingOne).m_isPaused = true :=
  have h := C21_abort_takes_failure_path uploadingOne 0 ⟨0, "/u/a.mp4"⟩ (by decide) (by decide)
    (by decide)
  ⟨by decide, (h.2.2.1 (by decide)).1, (h.2.2.1 (by decide)).2.1, h.1⟩

end UploadManager

namespace FolderSync
open Example

/-! ## A folder removed while one of its files is in flight -/

/-- C22 (counterexample). The upload of `/a/b/y.mp4` is in flight and `/a/x.mp4` is
Pending when the watched folder `/a/b` is removed. removeFolder purges the item and the
index entry of `/a/b/y.mp4`, but the request stays in flight and the engine stays in the
syncing state; when that request completes, the completion is processed and dispatches
`/a/x.mp4`. -/
theorem C22_counterexample :
    syncingNested.m_currentReply = some (.upload "/a/b/y.mp4")
    ∧ queuePaths syncingNested.m_syncQueue = ["/a/b/y.mp4", "/a/x.mp4"]
    ∧ queueStatuses syncingNested = ["Syncing", "Pending"]
    ∧ "/a/b" ∈ syncingNested.m_watchedFolders
    ∧ (removeFolder mediaTree "/a/b" syncingNested).isReturned = true
    ∧ (removeFolder mediaTree "/a/b" syncingNested).state.m_currentReply
        = some (.upload "/a/b/y.mp4")
    ∧ (removeFolder mediaTree "/a/b" syncingNested).state.m_isSyncing = true
    ∧ queuePaths (removeFolder mediaTree "/a/b" syncingNested).state.m_syncQueue = ["/a/x.mp4"]
    ∧ QHash.keys (removeFolder mediaTree "/a/b" syncingNested).state.m_fileIndex = ["/a/x.mp4"]
    ∧ (onNetworkReplyFinished mediaTree false
        (removeFolder mediaTree "/a/b" syncingNested).state).state.m_currentReply
        = some (.upload "/a/x.mp4")
    ∧ queueStatuses (onNetworkReplyFinished mediaTree false
        (removeFolder mediaTree "/a/b" syncingNested).state).state = ["Syncing"] := by
  refine ⟨?_, ?_, ?_, ?_, ?_, ?_, ?_, ?_, ?_, ?_, ?_⟩ <;> decide

theorem removeFolder_keeps_request (fs : FileSystem) (p : QString) (s : FolderSync) :
    (removeFolder fs p s).state.m_currentReply = s.m_currentReply
    ∧ (removeFolder fs p s).state.m_isSyncing = s.m_isSyncing
    ∧ (removeFolder fs p s).state.m_currentRetries = s.m_currentRetries
    ∧ (removeFolder fs p s).state.singleShots = s.singleShots := by
  unfold removeFolder
  refine state_withSyncMutex
    (P := fun t => t.m_currentReply = s.m_currentReply ∧ t.m_isSyncing = s.m_isSyncing
      ∧ t.m_currentRetries = s.m_currentRetries ∧ t.singleShots = s.singleShots)
    (fun _ _ h => h) ⟨rfl, rfl, rfl, rfl⟩ (fun t ht => ?_)
  split
  · exact ht
  · exact ht

theorem onNetworkReplyFinished_dispatch (fs : FileSystem) (e : Bool) (s : FolderSync)
    (r : Request) (hreply : s.m_currentReply = some r) (hfree : s.m_syncMutex = false)
    (i : Nat) (item : SyncItem) (hnext : nextItemIndex s.m_syncQueue = some i)
    (hitem : s.m_syncQueue.get? i = some item)
    (hok : item.isDirectory = true ∨ fs.fileExists item.localPath = true) :
    ∃ s1, onNetworkReplyFinished fs e s = .returned s1
      ∧ s1.m_isSyncing = true
      ∧ s1.m_currentReply = some (if item.isDirectory then .createDirectory item.localPath
          else .upload item.localPath)
      ∧ s1.m_syncQueue = modifyAt (fun it => { it with status := "Syncing" }) i s.m_syncQueue := by
  have key : ∀ t : FolderSync, t.m_syncQueue = s.m_syncQueue → t.m_syncMutex = false →
      ∃ s1, processSyncQueue fs { t with m_currentReply := none, m_isSyncing := false }
          = .returned s1
        ∧ s1.m_isSyncing = true
        ∧ s1.m_currentReply = some (if item.isDirectory then .createDirectory item.localPath
            else .upload item.localPath)
        ∧ s1.m_syncQueue
            = modifyAt (fun it => { it with status := "Syncing" }) i s.m_syncQueue := by
    intro t hq hf
    have h := @processSyncQueue_some fs { t with m_currentReply := none, m_isSyncing := false }
      hf rfl i item (by show nextItemIndex t.m_syncQueue = _; rw [hq]; exact hnext)
      (by show t.m_syncQueue.get? i = _; rw [hq]; exact hitem)
    dsimp only at h
    rw [h]
    by_cases hdir : item.isDirectory = true
    · simp only [hdir, ↓reduceIte, createDirectory, emit]
      exact ⟨_, rfl, rfl, rfl, by rw [hq]⟩
    · have hdir1 : item.isDirectory = false := by simpa using hdir
      have hex : fs.fileExists item.localPath = true := by
        rcases hok with h1 | h1
        · exact absurd h1 hdir
        · exact h1
      simp only [hdir1, Bool.false_eq_true, ↓reduceIte, uploadFile, hex, Bool.not_true, emit]
      exact ⟨_, rfl, rfl, rfl, by rw [hq]⟩
  unfold onNetworkReplyFinished
  simp only [hreply]
  split
  · exact key _ rfl hfree
  · split
    · exact key _ rfl hfree
    · exact key _ rfl hfree

/-- C22 (amended). removeFolder(p) on a watched folder purges every queued item and every
index entry whose path lies under p, also the item in flight, but it does not touch the
outstanding request: the request in flight, the syncing flag, the retry counter and the
pending timers are after the call what they were before. When that request completes
later, with or without error, the completion is processed like any other: the request
is cleared and the next eligible item of the remaining queue, if it is a directory or
its file exists, is dispatched. -/
theorem C22_removeFolder_keeps_request (fs : FileSystem) (p : QString) (s : FolderSync)
    (hfree : s.m_syncMutex = false) (hp : p ∈ s.m_watchedFolders) :
    ∃ s1, removeFolder fs p s = .returned s1
      ∧ s1.m_currentReply = s.m_currentReply
      ∧ s1.m_isSyncing = s.m_isSyncing
      ∧ s1.m_currentRetries = s.m_currentRetries
      ∧ s1.singleShots = s.singleShots
      ∧ (∀ it ∈ s1.m_syncQueue, startsWith it.localPath p = false)
      ∧ (∀ e ∈ s1.m_fileIndex, startsWith e.2.localPath p = false)
      ∧ ∀ (fs1 : FileSystem) (e : Bool) (r : Request) (i : Nat) (item : SyncItem),
          s.m_currentReply = some r → nextItemIndex s1.m_syncQueue = some i →
          s1.m_syncQueue.get? i = some item →
          (item.isDirectory = true ∨ fs1.fileExists item.localPath = true) →
          ∃ s2, onNetworkReplyFinished fs1 e s1 = .returned s2
            ∧ s2.m_currentReply = some (if item.isDirectory then
                .createDirectory item.localPath else .upload item.localPath)
            ∧ s2.m_isSyncing = true := by
  obtain ⟨s1, h1, _, hq, hi, _⟩ := removeFolder_watched fs p s hfree hp
  have hkeep := removeFolder_keeps_request fs p s
  rw [h1] at hkeep
  have hfree1 : s1.m_syncMutex = false := step_free (.removeFolder fs p) s s1 hfree h1
  refine ⟨s1, h1, hkeep.1, hkeep.2.1, hkeep.2.2.1, hkeep.2.2.2, ?_, ?_, ?_⟩
  · intro it hit
    rw [hq, List.mem_filter] at hit
    simpa using hit.2
  · intro e he
    rw [hi, QHash.mem_foldl_remove] at he
    by_contra hst
    simp only [Bool.not_eq_false] at hst
    apply he.2
    simp only [List.mem_map, List.mem_filter]
    exact ⟨e, ⟨he.1, hst⟩, rfl⟩
  · intro fs1 e r i item hr hnext hitem hok
    obtain ⟨s2, h2, h3, h4, _⟩ := onNetworkReplyFinished_dispatch fs1 e s1 r
      (hkeep.1.trans hr) hfree1 i item hnext hitem hok
    exact ⟨s2, h2, h4, h3⟩

/-- C22 (witness). The amended statement at the removal of `/a/b` while `/a/b/y.mp4` is in
flight. -/
theorem C22_removeFolder_keeps_request_witness :
    syncingNested.m_syncMutex = false ∧ "/a/b" ∈ syncingNested.m_watchedFolders
    ∧ ∃ s1, removeFolder mediaTree "/a/b" syncingNested = .returned s1
      ∧ s1.m_currentReply = syncingNested.m_currentReply
      ∧ s1.m_isSyncing = syncingNested.m_isSyncing
      ∧ ∀ it ∈ s1.m_syncQueue, startsWith it.localPath "/a/b" = false := by
  obtain ⟨s1, h1, h2, h3, _, _, h6, _⟩ :=
    C22_removeFolder_keeps_request mediaTree "/a/b" syncingNested (by decide) (by decide)
  exact ⟨by decide, by decide, s1, h1, h2, h3, h6⟩

end FolderSync

namespace UploadManager
open Example

/-! ## The current index stays inside the queue where the queue is read -/

/-- A call that keeps the invariant and does not crash. -/
theorem withQueueMutex_safe {s : UploadManager} {body : UploadManager → Outcome UploadManager}
    (hs : IndexInv s)
    (hbody : IndexInv (body { s with m_queueMutex := true }).state
      ∧ (body { s with m_queueMutex := true }).isCrashed = false) :
    IndexInv (withQueueMutex s body).state ∧ (withQueueMutex s body).isCrashed = false := by
  unfold withQueueMutex
  split
  · exact ⟨hs, rfl⟩
  · revert hbody
    cases body { s with m_queueMutex := true } with
    | returned s1 => exact fun h => ⟨h.1, rfl⟩
    | blocked s1 => exact fun h => ⟨h.1, rfl⟩
    | crashed s1 => exact fun h => Bool.noConfusion h.2

theorem indexInv_updateItemStatus (idx : Int) (st : QString) (s : UploadManager) :
    (updateItemStatus idx st s).m_isUploading = s.m_isUploading
    ∧ (updateItemStatus idx st s).m_currentIndex = s.m_currentIndex := by
  unfold updateItemStatus
  split
  · exact ⟨rfl, rfl⟩
  · exact ⟨rfl, rfl⟩

theorem indexInv_updateItemProgress (idx : Int) (pr : Int) (s : UploadManager) :
    (updateItemProgress idx pr s).m_isUploading = s.m_isUploading
    ∧ (updateItemProgress idx pr s).m_currentIndex = s.m_currentIndex := by
  unfold updateItemProgress
  split
  · exact ⟨rfl, rfl⟩
  · exact ⟨rfl, rfl⟩

theorem processNextUploadAux_safe (fs : FileSystem) :
    ∀ (n : Nat) (s : UploadManager), IndexInv s →
      IndexInv (processNextUploadAux fs n s).state
        ∧ (processNextUploadAux fs n s).isCrashed = false
  | 0, _, hs => ⟨hs, rfl⟩
  | n + 1, s, hs => by
    unfold processNextUploadAux
    split
    · exact ⟨hs, rfl⟩
    · rename_i hrun
      have hup : s.m_isUploading = true := by
        simp only [Bool.or_eq_true, Bool.not_eq_true', not_or, Bool.not_eq_false] at hrun
        exact hrun.2
      have hidx : 0 ≤ s.m_currentIndex := hs hup
      refine withQueueMutex_safe hs ?_
      dsimp only
      split
      · exact ⟨fun h => (by cases h), rfl⟩
      · split
        · exact ⟨fun h => (by cases h), rfl⟩
        · rename_i hge
          split
          · rename_i hneg
            exact absurd hidx (not_le.2 hneg)
          · split
            · rename_i hnone
              exfalso
              have hlt : s.m_currentIndex < (s.m_uploadQueue.length : Int) := not_le.1 hge
              have : s.m_currentIndex.toNat < s.m_uploadQueue.length := by omega
              have hsome := List.get?_eq_get this
              have hnone1 : s.m_uploadQueue.get? s.m_currentIndex.toNat = none := hnone
              rw [hsome] at hnone1
              cases hnone1
            · split
              · refine processNextUploadAux_safe fs n _ ?_
                intro _
                show 0 ≤ (updateItemStatus _ _ _).m_currentIndex + 1
                rw [(indexInv_updateItemStatus _ _ _).2]
                show 0 ≤ s.m_currentIndex + 1
                omega
              · split
                · refine processNextUploadAux_safe fs n _ ?_
                  intro _
                  show 0 ≤ (updateItemStatus _ _ _).m_currentIndex + 1
                  rw [(indexInv_updateItemStatus _ _ _).2]
                  show 0 ≤ s.m_currentIndex + 1
                  omega
                · refine ⟨fun _ => ?_, rfl⟩
                  unfold createMultipartRequest
                  split
                  · show 0 ≤ (updateItemStatus _ _ _).m_currentIndex
                    rw [(indexInv_updateItemStatus _ _ _).2]
                    exact hidx
                  · show 0 ≤ (updateItemStatus _ _ _).m_currentIndex
                    rw [(indexInv_updateItemStatus _ _ _).2]
                    exact hidx

theorem processNextUpload_safe (fs : FileSystem) (s : UploadManager) (hs : IndexInv s) :
    IndexInv (processNextUpload fs s).state ∧ (processNextUpload fs s).isCrashed = false :=
  processNextUploadAux_safe fs _ s hs

theorem onUploadFinished_indexInv (e : Bool) (s : UploadManager) (hs : IndexInv s) :
    IndexInv (onUploadFinished e s) := by
  unfold onUploadFinished
  split
  · exact hs
  · dsimp only
    split
    · split
      · intro hup
        show 0 ≤ (updateItemProgress _ _ _).m_currentIndex + 1
        rw [(indexInv_updateItemProgress _ _ _).2, (indexInv_updateItemStatus _ _ _).2]
        have hup1 : s.m_isUploading = true := by
          have h0 : (updateItemProgress _ 100
              (updateItemStatus s.m_currentIndex "Completed" s)).m_isUploading = true := hup
          rw [(indexInv_updateItemProgress _ _ _).1, (indexInv_updateItemStatus _ _ _).1] at h0
          exact h0
        have := hs hup1
        omega
      · intro hup
        have := hs hup
        show 0 ≤ s.m_currentIndex + 1
        omega
    · split
      · intro hup
        show 0 ≤ (updateItemStatus _ _ _).m_currentIndex
        rw [(indexInv_updateItemStatus _ _ _).2]
        have hup1 : s.m_isUploading = true := by
          have h0 : (updateItemStatus _ _
              { s with m_currentRetries := s.m_currentRetries + 1 }).m_isUploading = true := hup
          rw [(indexInv_updateItemStatus _ _ _).1] at h0
          exact h0
        exact hs hup1
      · intro hup
        show 0 ≤ (updateItemStatus _ _ _).m_currentIndex + 1
        rw [(indexInv_updateItemStatus _ _ _).2]
        have hup1 : s.m_isUploading = true := by
          have h0 : (updateItemStatus s.m_currentIndex "Failed" s).m_isUploading = true := hup
          rw [(indexInv_updateItemStatus _ _ _).1] at h0
          exact h0
        have := hs hup1
        omega

theorem onNetworkError_indexInv (errorString : QString) (s : UploadManager)
    (hs : IndexInv s) : IndexInv (onNetworkError errorString s) := by
  unfold onNetworkError
  split
  · exact hs
  · exact hs

theorem pauseUpload_indexInv (s : UploadManager) (hs : IndexInv s) :
    IndexInv (pauseUpload s) := by
  unfold pauseUpload
  dsimp only
  split
  · exact onUploadFinished_indexInv true _ (onNetworkError_indexInv _ _ hs)
  · exact hs

theorem scanFolder_indexInv (fs : FileSystem) (p : QString) (s : UploadManager)
    (hs : IndexInv s) : IndexInv (scanFolder fs p s) := by
  rw [scanFolder_enqueues_nothing]
  exact hs

/-- Every event keeps the invariant, and no event other than a progress tick crashes. -/
theorem step_safe (ev : Event) (s : UploadManager) (hs : IndexInv s) :
    IndexInv (step ev s).state ∧ (ev.isProgress = false → (step ev s).isCrashed = false) := by
  cases ev with
  | addFile fs p =>
    have h : IndexInv (addFile fs p s).state ∧ (addFile fs p s).isCrashed = false := by
      unfold addFile
      refine withQueueMutex_safe hs ?_
      dsimp only
      split
      · exact ⟨hs, rfl⟩
      · split
        · exact ⟨hs, rfl⟩
        · exact ⟨hs, rfl⟩
    exact ⟨h.1, fun _ => h.2⟩
  | addFolder fs p =>
    have h : IndexInv (addFolder fs p s).state ∧ (addFolder fs p s).isCrashed = false := by
      unfold addFolder
      refine withQueueMutex_safe hs ?_
      dsimp only
      split
      · exact ⟨hs, rfl⟩
      · exact ⟨scanFolder_indexInv fs p _ hs, rfl⟩
    exact ⟨h.1, fun _ => h.2⟩
  | startUpload fs =>
    have h : IndexInv (startUpload fs s).state ∧ (startUpload fs s).isCrashed = false := by
      unfold startUpload
      split
      · exact ⟨hs, rfl⟩
      · exact processNextUpload_safe fs _ (fun _ => le_refl 0)
    exact ⟨h.1, fun _ => h.2⟩
  | pauseUpload => exact ⟨pauseUpload_indexInv s hs, fun _ => rfl⟩
  | resumeUpload fs =>
    have h : IndexInv (resumeUpload fs s).state ∧ (resumeUpload fs s).isCrashed = false := by
      unfold resumeUpload
      split
      · exact processNextUpload_safe fs _ hs
      · exact ⟨hs, rfl⟩
    exact ⟨h.1, fun _ => h.2⟩
  | clearQueue =>
    have h : IndexInv (clearQueue s).state ∧ (clearQueue s).isCrashed = false := by
      unfold clearQueue
      refine withQueueMutex_safe hs ?_
      exact ⟨fun h => (by cases h), rfl⟩
    exact ⟨h.1, fun _ => h.2⟩
  | onUploadProgress sent total =>
    refine ⟨?_, fun h => (by cases h)⟩
    show IndexInv (onUploadProgress sent total s).state
    have hupd : IndexInv (updateItemProgress s.m_currentIndex
        (toInt32 ((sent * 100).tdiv total)) s) := by
      intro hup
      rw [(indexInv_updateItemProgress _ _ _).2]
      rw [(indexInv_updateItemProgress _ _ _).1] at hup
      exact hs hup
    unfold onUploadProgress
    split
    · split
      · exact hs
      · split
        · exact hs
        · split
          · exact hs
          · dsimp only
            split
            · exact hupd
            · exact hupd
    · exact hs
  | onUploadFinished e => exact ⟨onUploadFinished_indexInv e s hs, fun _ => rfl⟩
  | onNetworkError errorString =>
    exact ⟨onNetworkError_indexInv errorString s hs, fun _ => rfl⟩
  | onRetryTimer fs =>
    have h : IndexInv (onRetryTimer fs s).state ∧ (onRetryTimer fs s).isCrashed = false := by
      unfold onRetryTimer
      split
      · exact processNextUpload_safe fs _ hs
      · exact ⟨hs, rfl⟩
    exact ⟨h.1, fun _ => h.2⟩
  | onSingleShot fs k =>
    have h : IndexInv (onSingleShot fs k s).state ∧ (onSingleShot fs k s).isCrashed = false := by
      unfold onSingleShot
      split
      · exact processNextUpload_safe fs _ hs
      · exact ⟨hs, rfl⟩
    exact ⟨h.1, fun _ => h.2⟩
  | processNextUpload fs =>
    exact ⟨(processNextUpload_safe fs s hs).1, fun _ => (processNextUpload_safe fs s hs).2⟩

theorem run_indexInv (events : List Event) (s : UploadManager) (hs : IndexInv s) :
    IndexInv (run events s).state :=
  forEach_state (P := IndexInv) events s (fun ev _ t ht => (step_safe ev t ht).1) hs

/-- C29. Queue indexing in UploadManager: in every state in which a run of events from the
state left by the constructor ends (addFile, addFolder, startUpload, pauseUpload,
resumeUpload, clearQueue, timers, completions, progress ticks), m_isUploading implies
m_currentIndex >= 0. In such a state, when processNextUpload gets as far as reading
m_uploadQueue[m_currentIndex] (uploading, not paused, index below the queue size), the
index is inside the queue and the item is there; processNextUpload never ends in an
out-of-range access, and neither does any other event that is not a progress tick.
onUploadFinished reads the item only inside its own test 0 <= index < size. -/
theorem C29_index_in_bounds (maxRetries : Int) (events : List Event) :
    ((run events (UploadManager.init maxRetries)).state.m_isUploading = true →
      0 ≤ (run events (UploadManager.init maxRetries)).state.m_currentIndex)
    ∧ (∀ fs : FileSystem,
        (processNextUpload fs (run events (UploadManager.init maxRetries)).state).isCrashed
          = false)
    ∧ ((run events (UploadManager.init maxRetries)).state.m_isUploading = true →
        (run events (UploadManager.init maxRetries)).state.m_currentIndex
          < ((run events (UploadManager.init maxRetries)).state.m_uploadQueue.length : Int) →
        0 ≤ (run events (UploadManager.init maxRetries)).state.m_currentIndex
        ∧ ∃ item, (run events (UploadManager.init maxRetries)).state.m_uploadQueue.get?
            (run events (UploadManager.init maxRetries)).state.m_currentIndex.toNat = some item)
    ∧ (∀ ev : Event, ev.isProgress = false →
        (step ev (run events (UploadManager.init maxRetries)).state).isCrashed = false) := by
  have hinv : IndexInv (run events (UploadManager.init maxRetries)).state :=
    run_indexInv events _ (fun h => (by cases h))
  generalize (run events (UploadManager.init maxRetries)).state = s at hinv
  refine ⟨hinv, fun fs => (processNextUpload_safe fs s hinv).2, fun hup hlt => ?_,
    fun ev hev => (step_safe ev s hinv).2 hev⟩
  have h0 := hinv hup
  refine ⟨h0, _, List.get?_eq_get (by omega)⟩

/-- C29 (witness). The statement at the run that queues three files and starts the
upload: the manager is uploading, and the current index 0 is inside the queue. -/
theorem C29_index_in_bounds_witness :
    (run [.addFile uploadTree "/u/a.mp4", .addFile uploadTree "/u/b.mp4",
        .addFile uploadTree "/u/c.mp4", .startUpload uploadTree]
      (UploadManager.init 1)).state.m_isUploading = true
    ∧ 0 ≤ (run [.addFile uploadTree "/u/a.mp4", .addFile uploadTree "/u/b.mp4",
        .addFile uploadTree "/u/c.mp4", .startUpload uploadTree]
      (UploadManager.init 1)).state.m_currentIndex :=
  ⟨by decide, (C29_index_in_bounds 1 [.addFile uploadTree "/u/a.mp4",
    .addFile uploadTree "/u/b.mp4", .addFile uploadTree "/u/c.mp4",
    .startUpload uploadTree]).1 (by decide)⟩

end UploadManager

namespace FolderSync
open Example

/-! ## The ignore list and the extension filter -/

theorem toLower_ne_dot {c : Char} (h : c.toLower ≠ '.') : c ≠ '.' := by
  intro hc
  rw [hc] at h
  exact h (by decide)

/-- The suffix of a path whose file name ends, case ignored, in a dot and `ext`. -/
theorem toLower_suffix_of_ending (path : QString) (ext : List Char)
    (hext : ∀ c ∈ ext, c ≠ '.')
    (hend : ('.' :: ext) <:+ (toLower (fileName path)).data) :
    toLower (suffix path) = ⟨ext⟩ := by
  obtain ⟨pre, hpre⟩ := hend
  have hmap : List.map Char.toLower (fileName path).data = pre ++ '.' :: ext := hpre.symm
  obtain ⟨l1, l2, hl, _, h2⟩ := List.map_eq_append_iff.1 hmap
  obtain ⟨c0, l3, hl2, hc0, hl3⟩ := List.map_eq_cons_iff.1 h2
  have hc0' : c0 = '.' := UploadManager.toLower_eq_dot hc0
  have hl3' : ∀ c ∈ l3, c ≠ '.' := by
    intro c hc
    apply toLower_ne_dot
    apply hext
    rw [← hl3]
    exact List.mem_map.2 ⟨c, hc, rfl⟩
  have hdata : (fileName path).data = l1 ++ '.' :: l3 := by rw [hl, hl2, hc0']
  have hcontains : (fileName path).data.contains '.' = true := by
    rw [hdata]
    simp
  have htake : ((fileName path).data.reverse.takeWhile (fun c => c != '.')) = l3.reverse := by
    rw [hdata, List.reverse_append, List.reverse_cons, List.append_assoc,
      List.takeWhile_append_of_pos]
    · simp
    · intro a ha
      rw [List.mem_reverse] at ha
      simpa using hl3' a ha
  unfold suffix
  simp only [hcontains, ↓reduceIte, htake, List.reverse_reverse, toLower, hl3]

theorem ignored_ending {name : QString} (h : isIgnored name = true) :
    ∃ ext ∈ ["tmp", "temp", "cache", "log", "db", "ds_store"],
      ('.' :: (ext : QString).data) <:+ (toLower name).data := by
  simp only [isIgnored, m_ignoredPatterns, List.any_cons, List.any_nil, Bool.or_false,
    Bool.or_eq_true] at h
  have hstar : ∀ (pat : QString) (rest : List Char), (toLower pat).data = '*' :: rest →
      matchesPattern pat name = true → rest <:+ (toLower name).data := by
    intro pat rest hpat hm
    simp only [matchesPattern, hpat] at hm
    exact List.isSuffixOf_iff_suffix.1 hm
  rcases h with h | h | h | h | h | h
  · exact ⟨"tmp", by decide, hstar "*.tmp" _ (by decide) h⟩
  · exact ⟨"temp", by decide, hstar "*.temp" _ (by decide) h⟩
  · exact ⟨"cache", by decide, hstar "*.cache" _ (by decide) h⟩
  · exact ⟨"log", by decide, hstar "*.log" _ (by decide) h⟩
  · refine ⟨"db", by decide, ?_⟩
    have hm : (toLower name).data = "thumbs.db".data := by
      have : (toLower "Thumbs.db").data = "thumbs.db".data := by decide
      simp only [matchesPattern, this] at h
      simpa using h
    rw [hm]
    exact ⟨"thumbs".data, by decide⟩
  · refine ⟨"ds_store", by decide, ?_⟩
    have hm : (toLower name).data = ".ds_store".data := by
      have : (toLower ".DS_Store").data = ".ds_store".data := by decide
      simp only [matchesPattern, this] at h
      simpa using h
    rw [hm]

theorem ignored_not_media (path : QString) (h : isIgnored (fileName path) = true) :
    hasMediaExtension path = false := by
  obtain ⟨ext, hext, hend⟩ := ignored_ending h
  have hnodot : ∀ e ∈ ["tmp", "temp", "cache", "log", "db", "ds_store"],
      (∀ c ∈ (e : QString).data, c ≠ '.')
      ∧ m_mediaExtensions.contains ("." ++ (⟨(e : QString).data⟩ : QString)) = false := by decide
  obtain ⟨h1, h2⟩ := hnodot ext hext
  unfold hasMediaExtension
  rw [toLower_suffix_of_ending path ext.data h1 hend]
  exact h2

theorem scanFile_not_media (fs : FileSystem) (p : QString) (s : FolderSync)
    (h : hasMediaExtension p = false) :
    (scanFile fs p s).state.m_syncQueue = s.m_syncQueue
    ∧ (scanFile fs p s).state.m_fileIndex = s.m_fileIndex := by
  unfold hasMediaExtension at h
  unfold scanFile
  refine state_withSyncMutex
    (P := fun t => t.m_syncQueue = s.m_syncQueue ∧ t.m_fileIndex = s.m_fileIndex)
    (fun _ _ h => h) ⟨rfl, rfl⟩ (fun t ht => ?_)
  split
  · exact ht
  · split
    · exact ht
    · simp only [h, Bool.not_false, ↓reduceIte]
      exact ht

theorem mediaOnly_mutex (s : FolderSync) (b : Bool) (hs : MediaOnly s) :
    MediaOnly { s with m_syncMutex := b } := hs

theorem scanFile_mediaOnly (fs : FileSystem) (p : QString) (s : FolderSync)
    (hs : MediaOnly s) : MediaOnly (scanFile fs p s).state := by
  unfold scanFile
  refine state_withSyncMutex mediaOnly_mutex hs (fun s hs => ?_)
  split
  · exact hs
  · split
    · exact hs
    · split
      · exact hs
      · rename_i hmedia
        have hp : hasMediaExtension p = true := by
          simpa [hasMediaExtension] using hmedia
        split
        · rename_i existingItem hval
          have hmem := QHash.mem_of_value_eq_some hval
          have hitem := (hs.2 _ hmem).2
          split
          · refine ⟨?_, ?_⟩
            · intro it hit
              dsimp only at hit
              split at hit
              · rcases List.mem_append.1 hit with h1 | h1
                · exact hs.1 it h1
                · rw [List.mem_singleton] at h1
                  rw [h1]
                  exact hitem
              · exact hs.1 it hit
            · intro e he
              rcases QHash.mem_insert he with rfl | he1
              · exact ⟨hp, hitem⟩
              · exact hs.2 e he1
          · exact hs
        · refine ⟨?_, ?_⟩
          · intro it hit
            rcases List.mem_append.1 hit with h1 | h1
            · exact hs.1 it h1
            · rw [List.mem_singleton] at h1
              rw [h1]
              exact hp
          · intro e he
            rcases QHash.mem_insert he with rfl | he1
            · exact ⟨hp, hp⟩
            · exact hs.2 e he1

theorem SameTracked.mediaOnly {s0 s : FolderSync} (h : SameTracked s0 s)
    (hs : MediaOnly s0) : MediaOnly s := by
  obtain ⟨hq, hi, _⟩ := h
  refine ⟨?_, ?_⟩
  · intro it hit
    have hmem : it.localPath ∈ queuePaths s.m_syncQueue := List.mem_map.2 ⟨it, hit, rfl⟩
    rw [hq] at hmem
    obtain ⟨it0, hit0, hpath⟩ := List.mem_map.1 hmem
    rw [← hpath]
    exact hs.1 it0 hit0
  · rw [hi]
    exact hs.2

theorem scanFolder_mediaOnly (fs : FileSystem) (p : QString) (s : FolderSync)
    (hs : MediaOnly s) : MediaOnly (scanFolder fs p s).state :=
  state_forEach (fun x s hs => scanFile_mediaOnly fs x s hs) _ s hs

theorem addFolder_mediaOnly (fs : FileSystem) (p : QString) (s : FolderSync)
    (hs : MediaOnly s) : MediaOnly (addFolder fs p s).state := by
  unfold addFolder
  refine state_withSyncMutex mediaOnly_mutex hs (fun s hs => ?_)
  split
  · exact hs
  · exact state_andThen (scanFolder_mediaOnly fs p _ hs) (fun s hs => hs)

theorem removeFolder_mediaOnly (fs : FileSystem) (p : QString) (s : FolderSync)
    (hs : MediaOnly s) : MediaOnly (removeFolder fs p s).state := by
  unfold removeFolder
  refine state_withSyncMutex mediaOnly_mutex hs (fun s hs => ?_)
  split
  · exact hs
  · refine ⟨?_, ?_⟩
    · intro it hit
      exact hs.1 it (List.mem_of_mem_filter hit)
    · intro e he
      have he1 : e ∈ List.foldl QHash.remove s.m_fileIndex _ := he
      exact hs.2 e ((QHash.mem_foldl_remove _ _ _).1 he1).1

theorem startSync_mediaOnly (fs : FileSystem) (s : FolderSync) (hs : MediaOnly s) :
    MediaOnly (startSync fs s).state := by
  unfold startSync
  split
  · exact hs
  · refine state_andThen (state_forEach (fun x s hs => ?_) _ _ hs)
      (fun s hs => (forceSync_sameTracked s fs s ⟨rfl, rfl, rfl⟩).mediaOnly hs)
    split
    · exact addFolder_mediaOnly fs x s hs
    · exact hs

theorem step_mediaOnly (ev : Event) (s : FolderSync) (hs : MediaOnly s) :
    MediaOnly (step ev s).state := by
  cases ev with
  | addFolder fs p => exact addFolder_mediaOnly fs p s hs
  | removeFolder fs p => exact removeFolder_mediaOnly fs p s hs
  | startSync fs => exact startSync_mediaOnly fs s hs
  | stopSync fs => exact (stopSync_sameTracked s fs s ⟨rfl, rfl, rfl⟩).mediaOnly hs
  | forceSync fs => exact (forceSync_sameTracked s fs s ⟨rfl, rfl, rfl⟩).mediaOnly hs
  | onFileChanged fs p =>
    show MediaOnly (onFileChanged fs p s).state
    unfold onFileChanged
    split
    · exact hs
    · split
      · exact hs
      · split
        · exact scanFile_mediaOnly fs p s hs
        · exact hs
  | onDirectoryChanged fs p =>
    show MediaOnly (onDirectoryChanged fs p s).state
    unfold onDirectoryChanged
    split
    · exact hs
    · exact scanFolder_mediaOnly fs p _ hs
  | onSyncTimeout fs => exact (onSyncTimeout_sameTracked s fs s ⟨rfl, rfl, rfl⟩).mediaOnly hs
  | onNetworkReplyFinished fs e =>
    exact (onNetworkReplyFinished_sameTracked s fs e s ⟨rfl, rfl, rfl⟩).mediaOnly hs
  | onSingleShot fs k =>
    exact (onSingleShot_sameTracked s fs k s ⟨rfl, rfl, rfl⟩).mediaOnly hs
  | scanFile fs p => exact scanFile_mediaOnly fs p s hs
  | scanFolder fs p => exact scanFolder_mediaOnly fs p s hs
  | processSyncQueue fs =>
    exact (processSyncQueue_sameTracked s fs s ⟨rfl, rfl, rfl⟩).mediaOnly hs

theorem run_mediaOnly (events : List Event) (s : FolderSync) (hs : MediaOnly s) :
    MediaOnly (run events s).state :=
  state_forEach step_mediaOnly events s hs

/-- C25. Reject list and allow-list in FolderSync. For every file whose name matches one
of the ignored patterns *.tmp, *.temp, *.cache, *.log, Thumbs.db, .DS_Store (letter case
ignored), scanFile adds nothing to the sync queue and nothing to the file index: such a
name has an extension outside the allow-list. For every file whose lower-cased extension
(the text after the last dot of the name) is not in the media allow-list, scanFile adds
nothing either; and in every state in which a run of events from the constructor ends,
every queued item and every index entry has a path whose lower-cased extension is in the
allow-list. -/
theorem C25_reject_list_and_allow_list :
    (∀ (fs : FileSystem) (path : QString) (s : FolderSync),
      isIgnored (fileName path) = true →
        (scanFile fs path s).state.m_syncQueue = s.m_syncQueue
        ∧ (scanFile fs path s).state.m_fileIndex = s.m_fileIndex)
    ∧ (∀ (fs : FileSystem) (path : QString) (s : FolderSync),
      m_mediaExtensions.contains ("." ++ toLower (suffix path)) = false →
        (scanFile fs path s).state.m_syncQueue = s.m_syncQueue
        ∧ (scanFile fs path s).state.m_fileIndex = s.m_fileIndex)
    ∧ ∀ (maxRetries : Int) (savedFolders : List QString) (events : List Event),
      (∀ it ∈ (run events (FolderSync.init maxRetries savedFolders)).state.m_syncQueue,
        m_mediaExtensions.contains ("." ++ toLower (suffix it.localPath)) = true)
      ∧ (∀ e ∈ (run events (FolderSync.init maxRetries savedFolders)).state.m_fileIndex,
        m_mediaExtensions.contains ("." ++ toLower (suffix e.1)) = true) := by
  refine ⟨fun fs path s h => scanFile_not_media fs path s (ignored_not_media path h),
    fun fs path s h => scanFile_not_media fs path s h, fun maxRetries savedFolders events => ?_⟩
  have hinit : MediaOnly (FolderSync.init maxRetries savedFolders) :=
    ⟨fun it hit => (by cases hit), fun e he => (by cases he)⟩
  have h := run_mediaOnly events _ hinit
  exact ⟨h.1, fun e he => (h.2 e he).1⟩

/-- C25 (witness). The regular files `/a/clip.tmp` and `/a/Thumbs.db` match the ignore
list, and scanFile leaves queue and index as they are for both. -/
theorem C25_reject_list_and_allow_list_witness :
    junkTree.stat "/a/clip.tmp" = some (fileStat 5 1)
    ∧ isIgnored (fileName "/a/clip.tmp") = true
    ∧ isIgnored (fileName "/a/Thumbs.db") = true
    ∧ isIgnored (fileName "/a/x.mp4") = false
    ∧ (scanFile junkTree "/a/clip.tmp" tracking).state.m_syncQueue = tracking.m_syncQueue
    ∧ (scanFile junkTree "/a/Thumbs.db" tracking).state.m_fileIndex = tracking.m_fileIndex :=
  ⟨by decide, by decide, by decide, by decide,
    (C25_reject_list_and_allow_list.1 junkTree "/a/clip.tmp" tracking (by decide)).1,
    (C25_reject_list_and_allow_list.1 junkTree "/a/Thumbs.db" tracking (by decide)).2⟩

end FolderSync

namespace AuthDialog
open Example

/-! ## The login response -/

/-- C27, evaluated at the failing input: the login reply arrives without a network error
and with the body `{"success": true, "data": {"accessToken": 42}}`, whose accessToken is
not a string. onLoginFinished tests only that the key is there: it stores the empty
string as the token, reports no error and accepts the dialog. A body whose data is not
an object is reported ("No access token in response") and not accepted, and a conforming
body is accepted with its token. -/
theorem C27_non_string_token_accepted :
    conforms (.object [("success", .bool true),
      ("data", .object [("accessToken", .number 42)])]) = false
    ∧ (onLoginFinished (loggingIn numericToken)).accepted = true
    ∧ (onLoginFinished (loggingIn numericToken)).m_authToken = ""
    ∧ (onLoginFinished (loggingIn numericToken)).m_username = "ann"
    ∧ (onLoginFinished (loggingIn numericToken)).m_statusLabelVisible = false
    ∧ (onLoginFinished (loggingIn dataNotObject)).accepted = false
    ∧ (onLoginFinished (loggingIn dataNotObject)).m_statusLabel = "No access token in response"
    ∧ (onLoginFinished (loggingIn dataNotObject)).m_statusLabelVisible = true
    ∧ (onLoginFinished (loggingIn goodLogin)).accepted = true
    ∧ (onLoginFinished (loggingIn goodLogin)).m_authToken = "tok" := by
  refine ⟨?_, ?_, ?_, ?_, ?_, ?_, ?_, ?_, ?_, ?_⟩ <;> decide

end AuthDialog

namespace NetworkManager
open Example

/-! ## NetworkManager: the tracking tables -/

theorem hashContains_eq_keys {β : Type} (h : List (Nat × β)) (key : Nat) :
    hashContains h key = (hashKeys h).any (fun k => k == key) := by
  induction h with
  | nil => rfl
  | cons e l ih =>
    simp only [hashContains, hashKeys, List.any_cons, List.map_cons] at ih ⊢
    rw [ih]

theorem hashKeys_hashRemove {β : Type} (h : List (Nat × β)) (key : Nat) :
    hashKeys (hashRemove h key) = (hashKeys h).filter (fun k => k != key) := by
  induction h with
  | nil => rfl
  | cons e l ih =>
    simp only [hashRemove, hashKeys, List.filter_cons, List.map_cons] at ih ⊢
    by_cases hk : (e.1 != key) = true
    · rw [if_pos hk, if_pos hk, List.map_cons, ih]
    · rw [if_neg hk, if_neg hk, ih]

theorem hashKeys_map_replace {β : Type} (h : List (Nat × β)) (key : Nat) (v : β) :
    hashKeys (h.map (fun e => if e.1 == key then (key, v) else e)) = hashKeys h := by
  induction h with
  | nil => rfl
  | cons e l ih =>
    simp only [hashKeys, List.map_cons, List.map_map] at ih ⊢
    rw [ih]
    congr 1
    by_cases hk : (e.1 == key) = true
    · simp only [Function.comp, hk, if_true]
      exact (beq_iff_eq.1 hk).symm
    · simp only [Function.comp, hk]
      rfl

theorem hashKeys_hashInsert {β : Type} (h : List (Nat × β)) (key : Nat) (v : β) :
    hashKeys (hashInsert h key v)
      = if (hashKeys h).any (fun k => k == key) then hashKeys h else hashKeys h ++ [key] := by
  unfold hashInsert
  rw [hashContains_eq_keys]
  by_cases hk : ((hashKeys h).any (fun k => k == key)) = true
  · rw [if_pos hk, if_pos hk, hashKeys_map_replace]
  · rw [if_neg hk, if_neg hk]
    simp only [hashKeys, List.map_append, List.map_cons, List.map_nil]

theorem not_mem_hashKeys_hashRemove {β : Type} (h : List (Nat × β)) (key : Nat) :
    key ∉ hashKeys (hashRemove h key) := by
  rw [hashKeys_hashRemove]
  intro hmem
  have := (List.mem_filter.1 hmem).2
  simp at this

theorem withErrorMutex_free (s : NetworkManager) (body : NetworkManager → Outcome NetworkManager)
    (hfree : s.m_errorMutex = false) :
    withErrorMutex s body = (body { s with m_errorMutex := true }).andThen
      (fun s1 => .returned { s1 with m_errorMutex := false }) := by
  unfold withErrorMutex
  rw [hfree]
  rfl

/-- With the mutex free, `handleNetworkError` records and emits the error text. -/
theorem handleNetworkError_free (error : NetworkError) (endpoint : QString) (s : NetworkManager)
    (hfree : s.m_errorMutex = false) :
    handleNetworkError error endpoint s = .returned
      { s with
        m_lastError :=
          if !endpoint.isEmpty then errorText error ++ " for endpoint: " ++ endpoint
          else errorText error
        emitted := s.emitted ++ [.networkError
          (if !endpoint.isEmpty then errorText error ++ " for endpoint: " ++ endpoint
           else errorText error)] } := by
  unfold handleNetworkError
  rw [withErrorMutex_free _ _ hfree]
  cases s
  simp only at hfree
  subst hfree
  rfl

/-- What `onNetworkReplyFinished` does for a reply. -/
theorem onNetworkReplyFinished_some (reply : Nat) (success : Bool) (s : NetworkManager) :
    onNetworkReplyFinished (some reply) success s = .returned
      { s with
        m_requestTimers := hashRemove s.m_requestTimers reply
        m_activeRequests := hashRemove s.m_activeRequests reply
        emitted := s.emitted ++
          [.requestFinished (hashValue s.m_activeRequests reply "") success] } := by
  unfold onNetworkReplyFinished
  simp only
  by_cases hc : hashContains s.m_requestTimers reply = true
  · rw [if_pos hc]
    rfl
  · rw [if_neg hc]
    have hrem : hashRemove s.m_requestTimers reply = s.m_requestTimers := by
      unfold hashRemove
      rw [List.filter_eq_self]
      intro e he
      by_contra hne
      apply hc
      unfold hashContains
      rw [List.any_eq_true]
      refine ⟨e, he, ?_⟩
      simpa using hne
    rw [hrem]
    rfl

theorem tracked_sendRequest (endpoint : QString) (reply timer : Nat) (s : NetworkManager)
    (hs : Tracked s) : Tracked (sendRequest endpoint reply timer s) := by
  refine ⟨hs.1, ?_⟩
  show hashKeys (hashInsert s.m_activeRequests reply endpoint)
    = hashKeys (hashInsert s.m_requestTimers reply timer)
  rw [hashKeys_hashInsert, hashKeys_hashInsert, hs.2]

theorem tracked_errorOnly (s : NetworkManager) (hs : Tracked s) (msg : QString) :
    ∃ s1, (withErrorMutex s fun s =>
        .returned (emit { s with m_lastError := msg } (.networkError msg))) = .returned s1
      ∧ Tracked s1 := by
  rw [withErrorMutex_free _ _ hs.1]
  exact ⟨_, rfl, rfl, hs.2⟩

/-- The effect of `abort` on a reply while the mutex is free. -/
theorem abort_free (reply : Nat) (s : NetworkManager) (hfree : s.m_errorMutex = false) :
    abort reply s = .returned
      { s with
        aborted := s.aborted ++ [reply]
        m_lastError :=
          if !(hashValue s.m_activeRequests reply "").isEmpty then
            "Operation canceled" ++ " for endpoint: " ++ hashValue s.m_activeRequests reply ""
          else "Operation canceled"
        m_requestTimers := hashRemove s.m_requestTimers reply
        m_activeRequests := hashRemove s.m_activeRequests reply
        emitted := s.emitted ++
          [.networkError
            (if !(hashValue s.m_activeRequests reply "").isEmpty then
              "Operation canceled" ++ " for endpoint: " ++ hashValue s.m_activeRequests reply ""
             else "Operation canceled")] ++
          [.requestFinished (hashValue s.m_activeRequests reply "") false] } := by
  have h := handleNetworkError_free .operationCanceled (hashValue s.m_activeRequests reply "")
    { s with aborted := s.aborted ++ [reply] } hfree
  show (handleNetworkError .operationCanceled (hashValue s.m_activeRequests reply "")
    { s with aborted := s.aborted ++ [reply] }).andThen _ = _
  rw [h]
  show onNetworkReplyFinished (some reply) false _ = _
  rw [onNetworkReplyFinished_some]
  rfl

/-- The effect of `onTimeout` when the timer belongs to a tracked reply. -/
theorem onTimeout_tracked (s : NetworkManager) (hfree : s.m_errorMutex = false)
    (reply timer : Nat)
    (hfind : s.m_requestTimers.find? (fun e => e.2 == timer) = some (reply, timer)) :
    onTimeout (some timer) s = .returned
      { s with
        aborted := s.aborted ++ [reply]
        m_lastError := "Request timeout for endpoint: " ++ hashValue s.m_activeRequests reply ""
        m_requestTimers := hashRemove (hashRemove s.m_requestTimers reply) reply
        m_activeRequests := hashRemove (hashRemove s.m_activeRequests reply) reply
        emitted := s.emitted ++
          [.networkError
            (if !(hashValue s.m_activeRequests reply "").isEmpty then
              "Operation canceled" ++ " for endpoint: " ++ hashValue s.m_activeRequests reply ""
             else "Operation canceled")] ++
          [.requestFinished (hashValue s.m_activeRequests reply "") false] ++
          [.networkError
            ("Request timeout for endpoint: " ++ hashValue s.m_activeRequests reply "")] } := by
  cases s
  simp only at hfree hfind
  subst hfree
  unfold onTimeout
  simp only [hfind]
  rw [abort_free _ _ rfl]
  rfl

/-- Every event returns, and keeps the mutex free and the two tables on the same keys. -/
theorem step_tracked (ev : Event) (s : NetworkManager) (hs : Tracked s) :
    ∃ s1, step ev s = .returned s1 ∧ Tracked s1 := by
  cases ev with
  | setAuthToken token => exact ⟨_, rfl, hs⟩
  | setServerUrl url => exact ⟨_, rfl, hs⟩
  | setTimeout timeout => exact ⟨_, rfl, hs⟩
  | get endpoint reply timer => exact ⟨_, rfl, tracked_sendRequest _ _ _ _ hs⟩
  | post endpoint reply timer => exact ⟨_, rfl, tracked_sendRequest _ _ _ _ hs⟩
  | put endpoint reply timer => exact ⟨_, rfl, tracked_sendRequest _ _ _ _ hs⟩
  | deleteResource endpoint reply timer => exact ⟨_, rfl, tracked_sendRequest _ _ _ _ hs⟩
  | uploadFile fs endpoint filePath reply timer =>
    show ∃ s1, uploadFile fs endpoint filePath reply timer s = .returned s1 ∧ Tracked s1
    unfold uploadFile
    simp only
    split
    · exact tracked_errorOnly s hs _
    · split
      · exact tracked_errorOnly s hs _
      · exact ⟨_, rfl, tracked_sendRequest _ _ _ _ hs⟩
  | clearLastError =>
    show ∃ s1, clearLastError s = .returned s1 ∧ Tracked s1
    unfold clearLastError
    rw [withErrorMutex_free _ _ hs.1]
    exact ⟨_, rfl, rfl, hs.2⟩
  | onNetworkReplyFinished sender success =>
    cases sender with
    | none => exact ⟨_, rfl, hs⟩
    | some reply =>
      refine ⟨_, onNetworkReplyFinished_some reply success s, hs.1, ?_⟩
      show hashKeys (hashRemove s.m_activeRequests reply)
        = hashKeys (hashRemove s.m_requestTimers reply)
      rw [hashKeys_hashRemove, hashKeys_hashRemove, hs.2]
  | onNetworkError sender error =>
    cases sender with
    | none => exact ⟨_, rfl, hs⟩
    | some reply =>
      exact ⟨_, handleNetworkError_free _ _ _ hs.1, hs.1, hs.2⟩
  | onTimeout sender =>
    cases sender with
    | none => exact ⟨_, rfl, hs⟩
    | some timer =>
      show ∃ s1, onTimeout (some timer) s = .returned s1 ∧ Tracked s1
      cases hfind : s.m_requestTimers.find? (fun e => e.2 == timer) with
      | none =>
        refine ⟨s, ?_, hs⟩
        unfold onTimeout
        simp only [hfind]
      | some entry =>
        have hentry : entry = (entry.1, timer) := by
          have := List.find?_some hfind
          simp only [beq_iff_eq] at this
          rw [← this]
        rw [hentry] at hfind
        refine ⟨_, onTimeout_tracked s hs.1 entry.1 timer hfind, hs.1, ?_⟩
        show hashKeys (hashRemove (hashRemove s.m_activeRequests entry.1) entry.1)
          = hashKeys (hashRemove (hashRemove s.m_requestTimers entry.1) entry.1)
        simp only [hashKeys_hashRemove, hs.2]

/-- Every run from a state with the mutex free and matching tables returns in such a
state. -/
theorem run_tracked : ∀ (events : List Event) (s : NetworkManager), Tracked s →
    run events s = .returned (run events s).state ∧ Tracked (run events s).state
  | [], _, hs => ⟨rfl, hs⟩
  | ev :: events, s, hs => by
    obtain ⟨s1, h1, hs1⟩ := step_tracked ev s hs
    have ih := run_tracked events s1 hs1
    have hrun : run (ev :: events) s = run events s1 := by
      show (step ev s).andThen (forEach step events) = _
      rw [h1]
      rfl
    rw [hrun]
    exact ih

/-! ## C23: a request that times out -/

/-- C23. Every run of NetworkManager events from the constructor state returns, and in the
state it reaches m_activeRequests and m_requestTimers have the same keys. When in that state
the timer of a tracked reply fires, onTimeout returns: abort() has been called on the reply
(its own cancel error and its finished signal are reported from inside the call), then
networkError carries "Request timeout for endpoint: <endpoint>" as the last signal,
getLastError gives that same text, the reply is in neither table, and the tables still have
the same keys. -/
theorem C23_timeout_aborts_and_untracks (serverUrl : QString) (timeout : Int)
    (events : List Event) :
    run events (NetworkManager.init serverUrl timeout)
        = .returned (run events (NetworkManager.init serverUrl timeout)).state
    ∧ hashKeys (run events (NetworkManager.init serverUrl timeout)).state.m_activeRequests
        = hashKeys (run events (NetworkManager.init serverUrl timeout)).state.m_requestTimers
    ∧ ∀ reply timer : Nat,
        (run events (NetworkManager.init serverUrl timeout)).state.m_requestTimers.find?
            (fun e => e.2 == timer) = some (reply, timer) →
        ∃ endpoint s2,
          hashValue (run events (NetworkManager.init serverUrl timeout)).state.m_activeRequests
              reply "" = endpoint
          ∧ hashContains (run events (NetworkManager.init serverUrl timeout)).state.m_activeRequests
              reply = true
          ∧ onTimeout (some timer) (run events (NetworkManager.init serverUrl timeout)).state
              = .returned s2
          ∧ s2.aborted
              = (run events (NetworkManager.init serverUrl timeout)).state.aborted ++ [reply]
          ∧ s2.emitted.getLast? = some (.networkError ("Request timeout for endpoint: " ++ endpoint))
          ∧ s2.emitted
              = (run events (NetworkManager.init serverUrl timeout)).state.emitted ++
                [.networkError
                  (if !endpoint.isEmpty then "Operation canceled" ++ " for endpoint: " ++ endpoint
                   else "Operation canceled")] ++
                [.requestFinished endpoint false] ++
                [.networkError ("Request timeout for endpoint: " ++ endpoint)]
          ∧ getLastError s2 = some ("Request timeout for endpoint: " ++ endpoint)
          ∧ reply ∉ hashKeys s2.m_activeRequests
          ∧ reply ∉ hashKeys s2.m_requestTimers
          ∧ hashKeys s2.m_activeRequests = hashKeys s2.m_requestTimers := by
  have hrun := run_tracked events (NetworkManager.init serverUrl timeout) ⟨rfl, rfl⟩
  generalize (run events (NetworkManager.init serverUrl timeout)).state = s at hrun
  obtain ⟨hret, hfree, hkeys⟩ := hrun
  refine ⟨hret, hkeys, fun reply timer hfind => ?_⟩
  have hmem : reply ∈ hashKeys s.m_requestTimers :=
    List.mem_map.2 ⟨(reply, timer), List.mem_of_find?_eq_some hfind, rfl⟩
  have hcontains : hashContains s.m_activeRequests reply = true := by
    rw [hashContains_eq_keys, hkeys, List.any_eq_true]
    exact ⟨reply, hmem, beq_self_eq_true reply⟩
  refine ⟨_, _, rfl, hcontains, onTimeout_tracked s hfree reply timer hfind, rfl, ?_, rfl, ?_,
    ?_, ?_, ?_⟩
  · show (_ ++ [_]).getLast? = _
    rw [List.getLast?_append, List.getLast?_singleton]
    rfl
  · unfold getLastError
    simp only [hfree]
    rfl
  · show reply ∉ hashKeys (hashRemove (hashRemove s.m_activeRequests reply) reply)
    exact not_mem_hashKeys_hashRemove _ _
  · show reply ∉ hashKeys (hashRemove (hashRemove s.m_requestTimers reply) reply)
    exact not_mem_hashKeys_hashRemove _ _
  · show hashKeys (hashRemove (hashRemove s.m_activeRequests reply) reply)
      = hashKeys (hashRemove (hashRemove s.m_requestTimers reply) reply)
    simp only [hashKeys_hashRemove, hkeys]

/-- C23 (witness). Two requests are tracked, reply 1 to /api/v1/media with timer 11 and
reply 2 to /api/v1/upload with timer 12; timer 11 fires. The reply is aborted, the last
error is the timeout of /api/v1/media, and only reply 2 stays in the two tables. -/
theorem C23_timeout_aborts_and_untracks_witness :
    (run [.get "/api/v1/media" 1 11, .post "/api/v1/upload" 2 12]
        (NetworkManager.init "http://localhost:3000" 30000)).state.m_requestTimers.find?
      (fun e => e.2 == 11) = some (1, 11)
    ∧ (onTimeout (some 11) twoRequests).state.aborted = [1]
    ∧ getLastError (onTimeout (some 11) twoRequests).state
        = some "Request timeout for endpoint: /api/v1/media"
    ∧ (onTimeout (some 11) twoRequests).state.emitted
        = [.requestStarted "/api/v1/media", .requestStarted "/api/v1/upload",
           .networkError "Operation canceled for endpoint: /api/v1/media",
           .requestFinished "/api/v1/media" false,
           .networkError "Request timeout for endpoint: /api/v1/media"]
    ∧ (onTimeout (some 11) twoRequests).state.m_activeRequests = [(2, "/api/v1/upload")]
    ∧ (onTimeout (some 11) twoRequests).state.m_requestTimers = [(2, 12)]
    ∧ ∃ endpoint s2,
        hashValue (run [.get "/api/v1/media" 1 11, .post "/api/v1/upload" 2 12]
          (NetworkManager.init "http://localhost:3000" 30000)).state.m_activeRequests 1 ""
            = endpoint
        ∧ onTimeout (some 11) (run [.get "/api/v1/media" 1 11, .post "/api/v1/upload" 2 12]
            (NetworkManager.init "http://localhost:3000" 30000)).state = .returned s2
        ∧ getLastError s2 = some ("Request timeout for endpoint: " ++ endpoint)
        ∧ 1 ∉ hashKeys s2.m_activeRequests
        ∧ 1 ∉ hashKeys s2.m_requestTimers := by
  refine ⟨by decide, by decide, by decide, by decide, by decide, by decide, ?_⟩
  obtain ⟨endpoint, s2, h1, _, h3, _, _, _, h7, h8, h9, _⟩ :=
    (C23_timeout_aborts_and_untracks "http://localhost:3000" 30000
      [.get "/api/v1/media" 1 11, .post "/api/v1/upload" 2 12]).2.2 1 11 (by decide)
  exact ⟨endpoint, s2, h1, h3, h7, h8, h9⟩

end NetworkManager

end UploadClient
